import Mathlib

/-!
Call lowering of the LLVM D compiler (`gen/tocall.cpp`)

A shallow embedding of `DtoCallFunction` and its helpers, followed by theorems
about the physical argument list, the attribute indices and the shape of the
lowered result.

Conventions of the embedding

* The variant compiled for `LDC_LLVM_VER >= 303` is embedded.
* IR values are symbolic: every IR builder primitive (`DtoLoad`, `DtoGEPi`,
  `DtoBitCast`, ...) is recorded as the instruction it creates.  Primitives with
  an effect on the function being compiled (stack allocation, stores, the
  evaluation of an argument expression, the ABI return fixup, the call itself)
  are also appended to an event trace, in program order.
* Frontend and ABI collaborators that live outside `gen/tocall.cpp` are fields
  of `Env`.
* An assertion failure, `llvm_unreachable`, `fatal()`, a null dereference or an
  out-of-range access is an `Except.error`.
* `Expressions* arguments` is a list; the null pointer is the empty list (the
  source reads both as `n_arguments = 0`).
-/

namespace LDC

/-! ## LLVM types -/

/-- LLVM IR types, as far as the call lowering inspects them. -/
inductive LLType where
  | void
  | int (bits : Nat)
  | named (id : Nat)
  | ptr (elem : LLType)
  | array (elem : LLType) (n : Nat)
  | struct (fields : List LLType)
  | func (ret : LLType) (params : List LLType) (isVarArg : Bool)
  deriving Repr, Inhabited

mutual
/-- Structural equality test on `LLType` (LLVM types are uniqued, so pointer
equality in the source is structural equality here). -/
def LLType.beq : LLType → LLType → Bool
  | .void, .void => true
  | .int a, .int b => a == b
  | .named a, .named b => a == b
  | .ptr a, .ptr b => LLType.beq a b
  | .array a n, .array b m => LLType.beq a b && n == m
  | .struct fs, .struct gs => LLType.beqList fs gs
  | .func r ps v, .func r2 ps2 v2 => LLType.beq r r2 && LLType.beqList ps ps2 && v == v2
  | _, _ => false
/-- Pointwise `LLType.beq` on lists. -/
def LLType.beqList : List LLType → List LLType → Bool
  | [], [] => true
  | a :: as, b :: bs => LLType.beq a b && LLType.beqList as bs
  | _, _ => false
end

mutual
theorem LLType.beq_iff_eq : ∀ (a b : LLType), LLType.beq a b = true ↔ a = b
  | .void, b => by cases b <;> simp [LLType.beq]
  | .int a, b => by cases b <;> simp [LLType.beq]
  | .named a, b => by cases b <;> simp [LLType.beq]
  | .ptr a, b => by cases b <;> simp [LLType.beq, LLType.beq_iff_eq a]
  | .array a n, b => by cases b <;> simp [LLType.beq, LLType.beq_iff_eq a]
  | .struct fs, b => by cases b <;> simp [LLType.beq, LLType.beqList_iff_eq fs]
  | .func r ps v, b => by
      cases b <;> simp [LLType.beq, LLType.beq_iff_eq r, LLType.beqList_iff_eq ps, and_assoc]
theorem LLType.beqList_iff_eq : ∀ (a b : List LLType), LLType.beqList a b = true ↔ a = b
  | [], b => by cases b <;> simp [LLType.beqList]
  | a :: as, b => by
      cases b <;> simp [LLType.beqList, LLType.beq_iff_eq a, LLType.beqList_iff_eq as]
end

instance : DecidableEq LLType := fun a b =>
  decidable_of_iff _ (LLType.beq_iff_eq a b)

/-- The check `isaPointer(type)`. -/
def LLType.isPointer : LLType → Bool
  | .ptr _ => true
  | _ => false

/-- The check `isaStruct(type)`. -/
def LLType.isStruct : LLType → Bool
  | .struct _ => true
  | _ => false

/-- The check `isaArray(type)`. -/
def LLType.isArray : LLType → Bool
  | .array _ _ => true
  | _ => false

/-- The call `type->getContainedType(i)`: the `i`-th type a derived type is
built from.  Out of range is `none`. -/
def LLType.getContainedType : LLType → Nat → Option LLType
  | .ptr e, 0 => some e
  | .array e _, 0 => some e
  | .struct fs, i => fs[i]?
  | .func r _ _, 0 => some r
  | .func _ ps _, i + 1 => ps[i]?
  | _, _ => none

/-- A function type seen through `LLFunctionType*`. -/
structure LLFunctionType where
  ret : LLType
  params : List LLType
  isVarArg : Bool
  deriving DecidableEq, Repr

/-- The call `callableTy->getParamType(i)` (LLVM asserts the index is in range). -/
def LLFunctionType.getParamType (fty : LLFunctionType) (i : Nat) : Option LLType :=
  fty.params[i]?

/-- The function `DtoExtractFunctionType`: a function type, or a pointer to
one; anything else is `NULL`. -/
def DtoExtractFunctionType (type : LLType) : Option LLFunctionType :=
  match type with
  | .func r ps v => some ⟨r, ps, v⟩
  | .ptr (.func r ps v) => some ⟨r, ps, v⟩
  | _ => none

/-- The type `getVoidPtrType()`, that is `i8*`. -/
def getVoidPtrType : LLType := .ptr (.int 8)

/-- The type `getPtrToType(t)`. -/
def getPtrToType (t : LLType) : LLType := .ptr t

/-! ## LLVM values -/

/-- An IR constant produced by a collaborator (a type descriptor). -/
structure LLConstant where
  id : Nat
  deriving DecidableEq, Repr

/-- The global `._arguments.storage` together with the constant array it is
initialised with (`typeinfomem` and `tiinits`). -/
structure ArgumentsStorage where
  /-- The type `typeinfoarraytype = [numVariadicArgs x typeinfotype]`. -/
  arrayType : LLType
  /-- The elements `vtypeinfos`. -/
  elements : List LLConstant
  deriving DecidableEq, Repr

/-- The global `._arguments.array` together with its initialiser, the
D array `{ length, ptr }` (`typeinfoarrayparam` and `pinits`). -/
structure ArgumentsArray where
  /-- The type `tiarrty`. -/
  type : LLType
  /-- The operand of `DtoConstSize_t(numVariadicArgs)`. -/
  length : Nat
  /-- The storage the pointer field is a bitcast of. -/
  storage : ArgumentsStorage
  /-- The type the storage is bitcast to. -/
  ptrType : LLType
  deriving DecidableEq, Repr

/-- Symbolic IR values: a value is the instruction (or constant) that
produces it. -/
inductive LLValue where
  /-- A value made by a collaborator, with its type. -/
  | value (id : Nat) (ty : LLType)
  /-- The constant `llvm::UndefValue::get(ty)`. -/
  | undef (ty : LLType)
  /-- The instruction made by `DtoLoad(ptr)`. -/
  | load (ptr : LLValue)
  /-- The instruction made by `DtoGEPi(ptr, i0, i1)`. -/
  | gepi (ptr : LLValue) (i0 i1 : Nat)
  /-- The instruction made by `CreateExtractValue(agg, idx)`. -/
  | extractValue (agg : LLValue) (idx : Nat)
  /-- The instruction made by `DtoInsertValue(agg, val, idx)`. -/
  | insertValue (agg val : LLValue) (idx : Nat)
  /-- The result of `DtoBitCast(v, ty)`. -/
  | bitCast (v : LLValue) (ty : LLType)
  /-- The result of `DtoAggrPaint(v, ty)`. -/
  | aggrPaint (v : LLValue) (ty : LLType)
  /-- Stack storage; `slot` is the position of the allocation in the trace. -/
  | alloca (slot : Nat) (ty : LLType) (name : String)
  /-- The value of the emitted call instruction (`call.getInstruction()`). -/
  | callInst (retTy : LLType)
  /-- The global `._arguments.array`. -/
  | argumentsArray (g : ArgumentsArray)
  deriving DecidableEq, Repr

/-- The call `v->getType()`. -/
def LLValue.getType : LLValue → LLType
  | .value _ ty => ty
  | .undef ty => ty
  | .load p => ((p.getType).getContainedType 0).getD .void
  | .gepi p _ i1 =>
      .ptr ((((p.getType).getContainedType 0).getD .void).getContainedType i1 |>.getD .void)
  | .extractValue agg idx => ((agg.getType).getContainedType idx).getD .void
  | .insertValue agg _ _ => agg.getType
  | .bitCast _ ty => ty
  | .aggrPaint _ ty => ty
  | .alloca _ ty _ => .ptr ty
  | .callInst retTy => retTy
  | .argumentsArray g => .ptr g.type

/-- The check `isaPointer(v)`. -/
def isaPointer (v : LLValue) : Bool := v.getType.isPointer

/-- The check `isaStruct(v)`. -/
def isaStruct (v : LLValue) : Bool := v.getType.isStruct

/-- The check `isaArray(v)`. -/
def isaArray (v : LLValue) : Bool := v.getType.isArray

/-- The primitive `DtoLoad`. -/
def DtoLoad (ptr : LLValue) : LLValue := .load ptr

/-- The primitive `DtoGEPi`. -/
def DtoGEPi (ptr : LLValue) (i0 i1 : Nat) : LLValue := .gepi ptr i0 i1

/-- The primitive `DtoBitCast`. -/
def DtoBitCast (v : LLValue) (ty : LLType) : LLValue := .bitCast v ty

/-- The primitive `DtoAggrPaint`. -/
def DtoAggrPaint (v : LLValue) (ty : LLType) : LLValue := .aggrPaint v ty

/-- The primitive `DtoInsertValue`. -/
def DtoInsertValue (agg val : LLValue) (idx : Nat) : LLValue := .insertValue agg val idx

/-! ## Frontend data -/

/-- The type tags (`Type::ty`) the call lowering distinguishes. -/
inductive TY where
  | Tfunction | Tdelegate | Tstruct | Tsarray | Tarray | Tclass | Taarray | Tpointer
  | Tother (code : Nat)
  deriving DecidableEq, Repr

/-- Linkage of a function type. -/
inductive LINK where
  | LINKd | LINKc | LINKother (code : Nat)
  deriving DecidableEq, Repr

/-- A frontend `Type`: its tag and its identity (the mangled name).
The method `Type::equals` is equality of these records. -/
structure DType where
  ty : TY
  deco : Nat
  deriving DecidableEq, Repr

/-- A declared parameter of a function type. -/
structure Parameter where
  type : DType
  storageClass : Nat
  deriving DecidableEq, Repr

/-- The payload of a `TypeFunction`.  The list `parameters` is the expanded
parameter list, so `Parameter::dim` is its length and `Parameter::getNth` its
indexing. -/
structure TypeFunction where
  linkage : LINK
  varargs : Nat
  isref : Bool
  next : DType
  parameters : List Parameter
  deriving DecidableEq, Repr

/-- An argument expression of the call. -/
structure Expression where
  type : DType
  id : Nat
  deriving DecidableEq, Repr

/-- LLVM attribute kinds. -/
inductive Attribute where
  | StructRet | InReg | ByVal | SExt | ZExt | other (code : Nat)
  deriving DecidableEq, Repr

/-- An `llvm::AttrBuilder`: a set of attribute kinds. -/
structure AttrBuilder where
  kinds : List Attribute
  deriving DecidableEq, Repr

/-- The method `AttrBuilder::contains`. -/
def AttrBuilder.contains (a : AttrBuilder) (k : Attribute) : Bool := a.kinds.contains k

/-- The macro `HAS_ATTRIBUTES(x)`, which is `(x).hasAttributes()`. -/
def HAS_ATTRIBUTES (a : AttrBuilder) : Bool := !a.kinds.isEmpty

/-- The ABI plan of one argument slot (`IrFuncTyArg`). -/
structure IrFuncTyArg where
  type : DType
  byref : Bool
  attrs : AttrBuilder
  /-- The registered rewriter, if any. -/
  rewrite : Option Nat
  deriving DecidableEq, Repr

/-- The ABI plan of a function type (`IrFuncTy`). -/
structure IrFuncTy where
  ret : IrFuncTyArg
  arg_sret : Option IrFuncTyArg
  arg_this : Option IrFuncTyArg
  arg_nest : Option IrFuncTyArg
  arg_arguments : Option IrFuncTyArg
  args : List IrFuncTyArg
  reverseParams : Bool
  deriving DecidableEq, Repr

/-- Identifiers the lowering compares against. -/
inductive Identifier where
  | ensure | require | other (name : String)
  deriving DecidableEq, Repr

/-- The pragma kind stored in `FuncDeclaration::llvmInternal`. -/
inductive LLVMpragma where
  | LLVMnone | LLVMintrinsic | LLVMother (code : Nat)
  deriving DecidableEq, Repr

/-- The fields of a `FuncDeclaration` the lowering reads. -/
structure FuncDeclaration where
  ident : Identifier
  llvmInternal : LLVMpragma
  isArrayOp : Bool
  uid : Nat
  deriving DecidableEq, Repr

/-- A `DFuncValue`, as returned by `DValue::isFunc()`. -/
structure DFuncValue where
  func : Option FuncDeclaration
  val : LLValue
  vthis : Option LLValue
  deriving DecidableEq, Repr

/-- A `DValue` seen through the accessors the lowering calls. -/
structure DValue where
  /-- The accessor `getType()`. -/
  type : DType
  /-- The accessor `isFunc()`; `none` is the null pointer. -/
  isFunc : Option DFuncValue
  /-- The accessor `isLVal()`. -/
  isLVal : Bool
  /-- The accessor `getLVal()`. -/
  getLVal : LLValue
  /-- The accessor `getRVal()`. -/
  getRVal : LLValue
  deriving DecidableEq, Repr

/-- The value a call is lowered to: `new DVarValue(type, val)` is an addressable
location, `new DImValue(type, val)` a plain value. -/
inductive LoweredResult where
  | DVarValue (type : Option DType) (val : LLValue)
  | DImValue (type : Option DType) (val : LLValue)
  deriving DecidableEq, Repr

/-- The IR value a lowered result carries. -/
def LoweredResult.val : LoweredResult → LLValue
  | .DVarValue _ v => v
  | .DImValue _ v => v

/-- Whether the lowered result is an addressable location (`DVarValue`). -/
def LoweredResult.isVar : LoweredResult → Bool
  | .DVarValue _ _ => true
  | .DImValue _ _ => false

/-- Collaborators of the call lowering: frontend queries, the ABI authority,
the expression evaluator, the type-descriptor provider and the nested-context
builder. -/
structure Env where
  /-- The method `Type::toBasetype`. -/
  toBasetype : DType → DType
  /-- The function `stripModifiers`. -/
  stripModifiers : DType → DType
  /-- The method `Type::nextOf`. -/
  nextOf : DType → DType
  /-- The method `Type::merge`. -/
  merge : DType → DType
  /-- The method `Type::pointerTo`. -/
  pointerTo : DType → DType
  /-- The method `Type::arrayOf`. -/
  arrayOf : DType → DType
  /-- The method `Type::alignsize`. -/
  alignsize : DType → Nat
  /-- The cast `static_cast<TypeFunction*>(type)`. -/
  asTypeFunction : DType → TypeFunction
  /-- The function `DtoType`. -/
  DtoType : DType → LLType
  /-- The plan `type->ctype->getIrFuncTy()`; `none` when `type->ctype` is null. -/
  ctypeIrFuncTy : DType → Option IrFuncTy
  /-- The plan `getIrFunc(fd)->irFty`. -/
  getIrFunc : FuncDeclaration → IrFuncTy
  /-- The function `DtoIsVaIntrinsic`. -/
  DtoIsVaIntrinsic : FuncDeclaration → Bool
  /-- The ABI query `gABI->callingConv`. -/
  callingConv : LINK → Nat
  /-- The value `gIR->func()->thisArg`. -/
  thisArg : LLValue
  /-- The function `DtoNestedContext`. -/
  DtoNestedContext : FuncDeclaration → LLValue
  /-- The function `toElem`. -/
  toElem : Expression → DValue
  /-- The function `DtoArgument`; `none` is a null `Parameter*`. -/
  DtoArgument : Option Parameter → Expression → DValue
  /-- The method `IrFuncTy::putParam`. -/
  putParam : IrFuncTy → DType → Nat → DValue → LLValue
  /-- The method `IrFuncTy::getRet`, applied to `DImValue(type, raw)`. -/
  getRet : IrFuncTy → DType → LLValue → LLValue
  /-- The ABI query `gABI->passByVal`. -/
  passByVal : DType → Bool
  /-- The function `DtoShouldExtend`; `none` is `Attribute::None`. -/
  DtoShouldExtend : DType → Option Attribute
  /-- The ABI hook `gABI->rewriteArgument`, as the plan it leaves behind. -/
  rewriteArgument : IrFuncTyArg → IrFuncTyArg
  /-- The method `ABIRewrite::put` of a registered rewriter. -/
  rewritePut : Nat → DType → DValue → LLValue
  /-- The function `DtoTypeInfoOf`. -/
  DtoTypeInfoOf : DType → LLConstant
  /-- The type `Type::dtypeinfo->type`. -/
  dtypeinfoType : DType
  /-- The intrinsic id of `dyn_cast<LLFunction>(val)` when that is an LLVM
  intrinsic; `none` when the cast fails or the function is no intrinsic. -/
  llvmIntrinsicID : LLValue → Option Nat

/-! ## Effects and lowering state -/

/-- Effects of the lowering on the function being compiled, in program order. -/
inductive Event where
  /-- The call `DtoRawAlloca(ty, align, name)`. -/
  | rawAlloca (ty : LLType) (align : Nat) (name : String)
  /-- The call `DtoAlloca(type, name)`. -/
  | dtoAlloca (type : DType) (name : String)
  /-- The call `DtoStore(val, ptr)`. -/
  | store (val ptr : LLValue)
  /-- The evaluation of `(*arguments)[i]` by `DtoArgument` or `toElem`. -/
  | evalArgument (i : Nat)
  /-- The ABI return fixup `irFty.getRet` on the raw result. -/
  | getRet (raw : LLValue)
  /-- The call `gIR->CreateCallOrInvoke(callable, args, varname)`. -/
  | call (callable : LLValue) (args : List LLValue) (varname : String)
  deriving DecidableEq, Repr

/-- Whether an event allocates stack storage. -/
def Event.isAlloca : Event → Bool
  | .rawAlloca _ _ _ => true
  | .dtoAlloca _ _ => true
  | _ => false

/-- The locals of `DtoCallFunction` that the marshalling mutates. -/
structure CallState where
  /-- The vector `args`. -/
  args : List LLValue
  /-- The calls `addToAttributes(attrs, Idx, B)` made so far, in order. -/
  attrs : List (Nat × AttrBuilder)
  /-- The offset `argiter - argbegin`. -/
  argiter : Nat
  /-- The effects so far. -/
  trace : List Event
  deriving DecidableEq, Repr

/-- The function `addToAttributes`. -/
def addToAttributes (st : CallState) (Idx : Nat) (B : AttrBuilder) : CallState :=
  { st with attrs := st.attrs ++ [(Idx, B)] }

/-- The call `args.push_back(v)`. -/
def CallState.push_back (st : CallState) (v : LLValue) : CallState :=
  { st with args := st.args ++ [v] }

/-- The statement `++argiter`. -/
def CallState.incArgiter (st : CallState) : CallState :=
  { st with argiter := st.argiter + 1 }

/-- Appends an effect to the trace. -/
def CallState.emit (st : CallState) (e : Event) : CallState :=
  { st with trace := st.trace ++ [e] }

/-- A counted loop: runs `body i` for every `i` of `indices`, in that order,
and stops at the first failure. -/
def forIndices {σ : Type} (body : Nat → σ → Except String σ) :
    List Nat → σ → Except String σ
  | [], s => .ok s
  | i :: is, s =>
    match body i s with
    | .ok s2 => forIndices body is s2
    | .error e => .error e

/-! ## Callable resolver -/

/-- The function `DtoIrTypeFunction`. -/
def DtoIrTypeFunction (env : Env) (fnval : DValue) : Except String IrFuncTy :=
  match fnval.isFunc.bind (fun dfnval => dfnval.func) with
  | some fd => .ok (env.getIrFunc fd)
  | none =>
    let type := env.stripModifiers (env.toBasetype fnval.type)
    match env.ctypeIrFuncTy type with
    | some irFty => .ok irFty
    | none => .error "assert(type->ctype)"

/-- The function `DtoTypeFunction`. -/
def DtoTypeFunction (env : Env) (fnval : DValue) : Except String TypeFunction :=
  let type := env.toBasetype fnval.type
  if type.ty = .Tfunction then
    .ok (env.asTypeFunction type)
  else if type.ty = .Tdelegate then
    let next := env.merge (env.nextOf type)
    if next.ty = .Tfunction then .ok (env.asTypeFunction next)
    else .error "assert(next->ty == Tfunction)"
  else
    .error "Cannot get TypeFunction* from non lazy/function/delegate"

/-- The function `DtoCallableValue`. -/
def DtoCallableValue (env : Env) (fn : DValue) : Except String LLValue :=
  let type := env.toBasetype fn.type
  if type.ty = .Tfunction then
    .ok fn.getRVal
  else if type.ty = .Tdelegate then
    if fn.isLVal then
      let dg := fn.getLVal
      let funcptr := DtoGEPi dg 0 1
      .ok (DtoLoad funcptr)
    else
      let dg := fn.getRVal
      if isaStruct dg then .ok (.extractValue dg 1)
      else .error "assert(isaStruct(dg))"
  else
    .error "Not a callable type."

/-! ## Argument marshalling -/

/-- The function `fixArgument`. -/
def fixArgument (env : Env) (argval : DValue) (irFty : IrFuncTy)
    (callableArgType : LLType) (argIndex : Nat) : LLValue :=
  -- give the ABI a say
  let arg := env.putParam irFty argval.type argIndex argval
  -- load from a pointer to a struct or static array the callee wants by value
  let ty := (env.toBasetype argval.type).ty
  let arg :=
    if isaPointer arg && !callableArgType.isPointer && (ty = .Tstruct || ty = .Tsarray) then
      DtoLoad arg
    else arg
  -- parameter type mismatch
  if arg.getType ≠ callableArgType then
    if isaStruct arg then DtoAggrPaint arg callableArgType
    else DtoBitCast arg callableArgType
  else arg

/-- The function `fixOptionalArgument`; the second component is what it
leaves in its out-parameter `attrs`. -/
def fixOptionalArgument (env : Env) (argval : DValue) : LLValue × AttrBuilder :=
  let type := argval.type
  let initialAttrs : AttrBuilder :=
    if env.passByVal type then ⟨[.ByVal]⟩
    else
      match env.DtoShouldExtend type with
      | some a => ⟨[a]⟩
      | none => ⟨[]⟩
  -- give the ABI a say
  let irArg := env.rewriteArgument { type := type, byref := false, attrs := initialAttrs,
                                     rewrite := none }
  let arg :=
    match irArg.rewrite with
    | some r => env.rewritePut r type argval
    | none => argval.getRVal
  (arg, irArg.attrs)

/-- The value built by `addTypeinfoArrayArgumentForDVarArg` ("build type info
array", "apply initializer", "put data in d-array"): the global
`._arguments.array`.  The source computes `numVariadicArgs = n_arguments - begin`
in `size_t`; here the subtraction is truncated, which differs only when
`n_arguments < begin`, and then the formal-parameter loop of `DtoCallFunction`
fails on `(*arguments)[n_arguments]`. -/
def typeinfoArrayParam (env : Env) (tf : TypeFunction) (arguments : List Expression) :
    LLValue :=
  -- number of non variadic args
  let begin_ := tf.parameters.length
  -- get n args in arguments list
  let n_arguments := arguments.length
  let numVariadicArgs := n_arguments - begin_
  -- build type info array
  let typeinfotype := env.DtoType env.dtypeinfoType
  let typeinfoarraytype := LLType.array typeinfotype numVariadicArgs
  let vtypeinfos := (arguments.drop begin_).map (fun e => env.DtoTypeInfoOf e.type)
  let typeinfomem : ArgumentsStorage := { arrayType := typeinfoarraytype, elements := vtypeinfos }
  -- put data in d-array
  let tiarrty := env.DtoType (env.arrayOf env.dtypeinfoType)
  .argumentsArray { type := tiarrty, length := numVariadicArgs, storage := typeinfomem,
                    ptrType := getPtrToType typeinfotype }

/-- The function `addTypeinfoArrayArgumentForDVarArg`. -/
def addTypeinfoArrayArgumentForDVarArg (env : Env) (st : CallState) (tf : TypeFunction)
    (irFty : IrFuncTy) (arguments : List Expression) (argidx : Nat) :
    Except String CallState :=
  let typeinfoarrayparam := typeinfoArrayParam env tf arguments
  -- add argument
  let st := st.push_back (DtoLoad typeinfoarrayparam)
  match irFty.arg_arguments with
  | none => .error "null dereference: irFty.arg_arguments"
  | some a => if HAS_ATTRIBUTES a.attrs then .ok (addToAttributes st argidx a.attrs) else .ok st

/-- The hidden-return block of `DtoCallFunction` ("return in hidden ptr is
first"). -/
def hiddenReturnArgument (env : Env) (irFty : IrFuncTy) (callableTy : LLFunctionType)
    (resulttype : Option DType) (retvar : Option LLValue) (st : CallState) :
    Except String CallState :=
  match irFty.arg_sret with
  | none => .ok st
  | some sret => do
    let (retvar, st) ←
      match retvar with
      | some v => (Except.ok (v, st) : Except String (LLValue × CallState))
      | none =>
        match callableTy.getParamType st.argiter with
        | none => .error "*argiter out of range"
        | some pty =>
          match pty.getContainedType 0, resulttype with
          | some ety, some rt =>
            .ok (.alloca st.trace.length ety ".rettmp",
                 st.emit (.rawAlloca ety (env.alignsize rt) ".rettmp"))
          | none, _ => .error "getContainedType(0) out of range"
          | _, none => .error "null dereference: resulttype"
    let st := st.incArgiter
    let st := st.push_back retvar
    -- add attrs for hidden ptr
    let st := addToAttributes st 1 sret.attrs
    -- verify that sret and/or inreg attributes are set
    if sret.attrs.contains .StructRet || sret.attrs.contains .InReg then .ok st
    else .error "Sret arg not sret or inreg?"

/-- Whether the callee is a function value for `__ensure` or `__require`: the
condition `dfnval && (dfnval->func->ident == Id::ensure || ... == Id::require)`. -/
def isContractCall (dfnval : Option DFuncValue) : Except String Bool :=
  match dfnval with
  | none => .ok false
  | some d =>
    match d.func with
    | none => .error "null dereference: dfnval->func"
    | some fd => .ok (fd.ident = .ensure || fd.ident = .require)

/-- The value of the context argument: the chain of cases of the context block
of `DtoCallFunction` ("then comes a context argument..."), each of which
computes one value, advances `argiter` and pushes the value.  The argument
`argiter` is the offset `argiter - argbegin` on entry. -/
def contextValue (env : Env) (fnval : DValue) (irFty : IrFuncTy)
    (callableTy : LLFunctionType) (argiter : Nat) : Except String LLValue := do
  let dfnval := fnval.isFunc
  let thiscall := irFty.arg_this.isSome
  let delegatecall : Bool := (env.toBasetype fnval.type).ty = .Tdelegate
  let nestedcall := irFty.arg_nest.isSome
  let contract ← isContractCall dfnval
  if contract then
    -- the this "context" argument for a contract invocation
    return DtoBitCast (DtoLoad env.thisArg) getVoidPtrType
  else
    match thiscall, dfnval.bind (fun d => d.vthis) with
    | true, some vthis =>
      -- a normal this argument
      match callableTy.getParamType argiter with
      | none => .error "*argiter out of range"
      | some ty => return DtoBitCast vthis ty
    | _, _ =>
      if delegatecall then
        -- a delegate context arg
        let ctxarg :=
          if fnval.isLVal then DtoLoad (DtoGEPi fnval.getLVal 0 0)
          else .extractValue fnval.getRVal 0
        match callableTy.getParamType argiter with
        | none => .error "*argiter out of range"
        | some ty => return DtoBitCast ctxarg ty
      else if nestedcall then
        -- a nested function context arg
        match dfnval with
        | some d =>
          match d.func with
          | none => .error "null dereference: dfnval->func"
          | some fd => return DtoBitCast (env.DtoNestedContext fd) getVoidPtrType
        | none => return .undef getVoidPtrType
      else
        .error "Context argument required but none given"

/-- The attributes attached for the context argument ("add attributes for
context argument"): those of `arg_this` if it is set and has attributes, else
those of `arg_nest` if it is set and has attributes. -/
def contextAttrs (irFty : IrFuncTy) : Option AttrBuilder :=
  match irFty.arg_this.filter (fun a => HAS_ATTRIBUTES a.attrs) with
  | some a => some a.attrs
  | none =>
    match irFty.arg_nest.filter (fun a => HAS_ATTRIBUTES a.attrs) with
    | some b => some b.attrs
    | none => none

/-- The context block of `DtoCallFunction`, entered when
`thiscall || delegatecall || nestedcall`. -/
def contextArgument (env : Env) (fnval : DValue) (irFty : IrFuncTy)
    (callableTy : LLFunctionType) (st : CallState) : Except String CallState := do
  let retinptr := irFty.arg_sret.isSome
  let ctx ← contextValue env fnval irFty callableTy st.argiter
  let st := st.incArgiter.push_back ctx
  -- add attributes for context argument
  match contextAttrs irFty with
  | some a => return addToAttributes st (if retinptr then 2 else 1) a
  | none => return st

/-- The condition `thiscall || delegatecall || nestedcall`. -/
def needsContext (env : Env) (fnval : DValue) (irFty : IrFuncTy) : Bool :=
  irFty.arg_this.isSome || decide ((env.toBasetype fnval.type).ty = .Tdelegate) ||
    irFty.arg_nest.isSome

/-- The flag `dvarargs`: `tf->linkage == LINKd && tf->varargs == 1`. -/
def dvarargs (tf : TypeFunction) : Bool :=
  decide (tf.linkage = .LINKd) && decide (tf.varargs = 1)

/-- The body of the loop for variadic intrinsics ("variadic intrinsics need
some custom casts") for index `i`. -/
def vaIntrinsicStep (env : Env) (arguments : List Expression) (i : Nat) (st : CallState) :
    Except String CallState :=
  match arguments[i]? with
  | none => .error "(*arguments)[i] out of range"
  | some e =>
    let expelem := env.toElem e
    let st := st.emit (.evalArgument i)
    -- cast to va_list*
    let val := DtoBitCast expelem.getLVal getVoidPtrType
    .ok (st.incArgiter.push_back val)

/-- The loop of `DtoCallFunction` for variadic intrinsics. -/
def vaIntrinsicArguments (env : Env) (arguments : List Expression) (st : CallState) :
    Except String CallState :=
  forIndices (vaIntrinsicStep env arguments) (List.range arguments.length) st

/-- The statements `Parameter::getNth(tf->parameters, i)`, `assert(fnarg)` and
`DtoArgument(fnarg, (*arguments)[i])`. -/
def evalFormal (env : Env) (tf : TypeFunction) (arguments : List Expression) (i : Nat) :
    Except String DValue :=
  match tf.parameters[i]? with
  | none => .error "assert(fnarg)"
  | some fnarg =>
    match arguments[i]? with
    | none => .error "(*arguments)[i] out of range"
    | some e => .ok (env.DtoArgument (some fnarg) e)

/-- The evaluation of the formal arguments into `argvals`, with the
evaluations it makes, in order.  For an array operation the loop runs
`i = n-1, ..., 0` and inserts at the front; otherwise it runs `i = 0, ..., n-1`
and appends. -/
def buildArgvals (env : Env) (tf : TypeFunction) (arguments : List Expression)
    (isArrayOp : Bool) : Except String (List DValue × List Event) :=
  let n := tf.parameters.length
  if isArrayOp then
    forIndices (fun i (acc : List DValue × List Event) =>
      match evalFormal env tf arguments i with
      | .error e => .error e
      | .ok argval => .ok (argval :: acc.1, acc.2 ++ [.evalArgument i]))
      (List.range n).reverse ([], [])
  else
    forIndices (fun i (acc : List DValue × List Event) =>
      match evalFormal env tf arguments i with
      | .error e => .error e
      | .ok argval => .ok (acc.1 ++ [argval], acc.2 ++ [.evalArgument i]))
      (List.range n) ([], [])

/-- The body of the loop "do formal params" for index `i`. -/
def formalParamStep (env : Env) (irFty : IrFuncTy) (callableTy : LLFunctionType)
    (argvals : List DValue) (n beg : Nat) (i : Nat) (st : CallState) :
    Except String CallState :=
  match argvals[i]? with
  | none => .error "argvals.at(i) out of range"
  | some argval =>
    let j := if irFty.reverseParams then n - i - 1 else i
    match callableTy.getParamType (beg + j) with
    | none => .error "getParamType out of range"
    | some ty =>
      let arg := fixArgument env argval irFty ty i
      let st := st.push_back arg
      match irFty.args[i]? with
      | none => .error "irFty.args[i] out of range"
      | some a => .ok (addToAttributes st (beg + 1 + j) a.attrs).incArgiter

/-- The statement `std::reverse(args.begin() + beg, args.end())`. -/
def reverseFrom (beg : Nat) (args : List LLValue) : List LLValue :=
  args.take beg ++ (args.drop beg).reverse

/-- The body of the loop "do C varargs" for index `i`. -/
def cVarargStep (env : Env) (arguments : List Expression) (beg : Nat) (i : Nat)
    (st : CallState) : Except String CallState :=
  match arguments[i]? with
  | none => .error "(*arguments)[i] out of range"
  | some e =>
    let argval := env.DtoArgument none e
    let st := st.emit (.evalArgument i)
    let r := fixOptionalArgument env argval
    let st := st.push_back r.1
    .ok (addToAttributes st (beg + 1 + i) r.2).incArgiter

/-- The statement `dfnval && dfnval->func->isArrayOp`. -/
def calleeIsArrayOp (dfnval : Option DFuncValue) : Except String Bool :=
  match dfnval with
  | none => .ok false
  | some d =>
    match d.func with
    | none => .error "null dereference: dfnval->func"
    | some fd => .ok fd.isArrayOp

/-- The block "D vararg functions need an additional TypeInfo[] _arguments
argument". -/
def dvarargsArgument (env : Env) (tf : TypeFunction) (irFty : IrFuncTy)
    (arguments : List Expression) (st : CallState) : Except String CallState :=
  if dvarargs tf then do
    let st ← addTypeinfoArrayArgumentForDVarArg env st tf irFty arguments (st.argiter + 1)
    pure st.incArgiter
  else .ok st

/-- The explicit arguments of a normal call: the evaluation into `argvals`,
the loop "do formal params", the reversal and the loop "do C varargs". -/
def explicitArguments (env : Env) (dfnval : Option DFuncValue) (tf : TypeFunction)
    (irFty : IrFuncTy) (callableTy : LLFunctionType) (arguments : List Expression)
    (st : CallState) : Except String CallState := do
  let n_arguments := arguments.length
  let n := tf.parameters.length
  let isArrayOp ← calleeIsArrayOp dfnval
  let (argvals, evals) ← buildArgvals env tf arguments isArrayOp
  let st := { st with trace := st.trace ++ evals }
  -- do formal params
  let beg := st.argiter
  let st ← forIndices (formalParamStep env irFty callableTy argvals n beg) (List.range n) st
  -- reverse the relevant params
  let st := if irFty.reverseParams then { st with args := reverseFrom beg st.args } else st
  -- do C varargs
  if n_arguments > n then
    forIndices (cVarargStep env arguments beg) (List.range' n (n_arguments - n)) st
  else
    pure st

/-- The branch "normal/vararg function call" of `DtoCallFunction`. -/
def normalArguments (env : Env) (dfnval : Option DFuncValue) (tf : TypeFunction)
    (irFty : IrFuncTy) (callableTy : LLFunctionType) (arguments : List Expression)
    (st : CallState) : Except String CallState := do
  let st ← dvarargsArgument env tf irFty arguments st
  explicitArguments env dfnval tf irFty callableTy arguments st

/-- The implicit arguments every call shares: the return attributes, the
hidden-return pointer and the context argument. -/
def implicitArguments (env : Env) (resulttype : Option DType) (fnval : DValue)
    (retvar : Option LLValue) (irFty : IrFuncTy) (callableTy : LLFunctionType) :
    Except String CallState := do
  let st : CallState := { args := [], attrs := [], argiter := 0, trace := [] }
  -- return attrs
  let st := if HAS_ATTRIBUTES irFty.ret.attrs then addToAttributes st 0 irFty.ret.attrs else st
  -- return in hidden ptr is first
  let st ← hiddenReturnArgument env irFty callableTy resulttype retvar st
  -- then comes a context argument...
  if needsContext env fnval irFty then contextArgument env fnval irFty callableTy st
  else .ok st

/-- The argument marshalling of `DtoCallFunction`: from "return attrs" to the
end of the argument loops. -/
def marshalArguments (env : Env) (resulttype : Option DType) (fnval : DValue)
    (arguments : List Expression) (retvar : Option LLValue) (irFty : IrFuncTy)
    (tf : TypeFunction) (callableTy : LLFunctionType) (va_intrinsic : Bool) :
    Except String CallState := do
  let st ← implicitArguments env resulttype fnval retvar irFty callableTy
  -- handle the rest of the arguments based on param passing style
  if va_intrinsic then vaIntrinsicArguments env arguments st
  else normalArguments env fnval.isFunc tf irFty callableTy arguments st

/-! ## Call emission and result lowering -/

/-- The attribute list handed to `call.setAttributes`. -/
inductive AttrList where
  /-- The attributes collected by `addToAttributes`. -/
  | computed (entries : List (Nat × AttrBuilder))
  /-- The list `llvm::Intrinsic::getAttributes(id)`. -/
  | intrinsic (id : Nat)
  deriving DecidableEq, Repr

/-- What `DtoCallFunction` produces. -/
structure CallOutput where
  /-- The callee handed to `CreateCallOrInvoke`. -/
  callable : LLValue
  /-- The physical argument list handed to `CreateCallOrInvoke`. -/
  args : List LLValue
  /-- The calls `addToAttributes(attrs, Idx, B)`, in order. -/
  attrs : List (Nat × AttrBuilder)
  /-- The argument of `call.setAttributes`. -/
  attrlist : AttrList
  /-- The argument of `call.setCallingConv`, if it is called. -/
  callconv : Option Nat
  /-- The returned `DValue`. -/
  result : LoweredResult
  /-- The effects of the lowering, in order. -/
  trace : List Event
  deriving DecidableEq, Repr

/-- The local state of the result lowering. -/
structure RetState where
  /-- The variable `retllval`. -/
  retllval : LLValue
  /-- The variable `retinptr`. -/
  retinptr : Bool
  /-- The effects so far. -/
  trace : List Event
  deriving DecidableEq, Repr

/-- The statements "get return value" and "Ignore ABI for intrinsics": the raw
result and the ABI return fixup. -/
def abiReturnValue (env : Env) (irFty : IrFuncTy) (tf : TypeFunction)
    (callableTy : LLFunctionType) (intrinsic : Bool) (args : List LLValue)
    (trace : List Event) : Except String RetState := do
  let retinptr := irFty.arg_sret.isSome
  -- get return value
  let retllval ←
    if retinptr then
      match args with
      | a :: _ => (Except.ok a : Except String LLValue)
      | [] => .error "args[0] out of range"
    else .ok (.callInst callableTy.ret)
  -- Ignore ABI for intrinsics
  if !intrinsic && !retinptr then
    -- do abi specific return value fixups
    return { retllval := env.getRet irFty tf.next retllval, retinptr := retinptr,
             trace := trace ++ [.getRet retllval] }
  else
    return { retllval := retllval, retinptr := retinptr, trace := trace }

/-- The block "Hack around LDC assuming structs and static arrays are in
memory": store a struct or static array result to a stack slot. -/
def materializeAggregate (env : Env) (tf : TypeFunction) (rs : RetState) : RetState :=
  let ty := (env.toBasetype tf.next).ty
  if (ty = .Tstruct && !isaPointer rs.retllval) || (ty = .Tsarray && isaArray rs.retllval) then
    let mem : LLValue := .alloca rs.trace.length rs.retllval.getType ""
    { rs with
      retllval := mem
      trace := rs.trace ++ [.rawAlloca rs.retllval.getType 0 "", .store rs.retllval mem] }
  else rs

/-- The block "repaint the type if necessary". -/
def repaintResult (env : Env) (tf : TypeFunction) (resulttype : Option DType)
    (rs : RetState) : RetState :=
  match resulttype with
  | none => rs
  | some rt =>
    let rbase := env.stripModifiers (env.toBasetype rt)
    let nextbase := env.stripModifiers (env.toBasetype tf.next)
    if rbase ≠ nextbase then
      match rbase.ty with
      | .Tarray =>
        if tf.isref then
          { rs with retllval := DtoBitCast rs.retllval (env.DtoType (env.pointerTo rbase)) }
        else
          { rs with retllval := DtoAggrPaint rs.retllval (env.DtoType rbase) }
      | .Tsarray => rs
      | .Tclass | .Taarray | .Tpointer =>
        if tf.isref then
          { rs with retllval := DtoBitCast rs.retllval (env.DtoType (env.pointerTo rbase)) }
        else
          { rs with retllval := DtoBitCast rs.retllval (env.DtoType rbase) }
      | .Tstruct =>
        if nextbase.ty = .Taarray && !tf.isref then
          -- give the associative array its boxed representation storage
          let tmp : LLValue := .alloca rs.trace.length (env.DtoType rbase) ".aalvauetmp"
          let val := DtoInsertValue (.undef (env.DtoType rbase)) rs.retllval 0
          { retllval := tmp
            retinptr := true
            trace := rs.trace ++ [.dtoAlloca rbase ".aalvauetmp", .store val tmp] }
        else rs
      | _ => rs
    else rs

/-- The flag `intrinsic`:
`dfnval && dfnval->func && dfnval->func->llvmInternal == LLVMintrinsic`. -/
def calleeIsIntrinsic (fnval : DValue) : Bool :=
  match fnval.isFunc.bind (fun d => d.func) with
  | some fd => fd.llvmInternal = .LLVMintrinsic
  | none => false

/-- The flag `va_intrinsic`:
`dfnval && dfnval->func && DtoIsVaIntrinsic(dfnval->func)`. -/
def calleeIsVaIntrinsic (env : Env) (fnval : DValue) : Bool :=
  match fnval.isFunc.bind (fun d => d.func) with
  | some fd => env.DtoIsVaIntrinsic fd
  | none => false

/-- The function `DtoCallFunction`. -/
def DtoCallFunction (env : Env) (resulttype : Option DType) (fnval : DValue)
    (arguments : List Expression) (retvar : Option LLValue) : Except String CallOutput := do
  -- get func value if any
  let dfnval := fnval.isFunc
  -- handle intrinsics
  let intrinsic := calleeIsIntrinsic fnval
  -- handle special vararg intrinsics
  let va_intrinsic := calleeIsVaIntrinsic env fnval
  -- get function type info
  let irFty ← DtoIrTypeFunction env fnval
  let tf ← DtoTypeFunction env fnval
  let callconv := env.callingConv tf.linkage
  -- get callee llvm value
  let callable ← DtoCallableValue env fnval
  let callableTy ←
    match DtoExtractFunctionType callable.getType with
    | some t => (Except.ok t : Except String LLFunctionType)
    | none => .error "assert(callableTy)"
  -- arguments and their attributes
  let st ← marshalArguments env resulttype fnval arguments retvar irFty tf callableTy va_intrinsic
  -- void returns cannot not be named
  let varname := if callableTy.ret ≠ .void then "tmp" else ""
  -- call the function
  let trace := st.trace ++ [.call callable st.args varname]
  -- get return value, with the ABI fixup
  let rs ← abiReturnValue env irFty tf callableTy intrinsic st.args trace
  let rs := materializeAggregate env tf rs
  -- repaint the type if necessary
  let rs := repaintResult env tf resulttype rs
  -- set calling convention and parameter attributes
  let (attrlist, cc) :=
    match dfnval.bind (fun d => d.func.map (fun _ => d.val)) with
    | some val =>
      match env.llvmIntrinsicID val with
      | some id => (AttrList.intrinsic id, (none : Option Nat))
      | none => (AttrList.computed st.attrs, some callconv)
    | none => (AttrList.computed st.attrs, some callconv)
  -- provide an lvalue back when returning through a pointer or by reference
  let result :=
    if rs.retinptr || tf.isref then LoweredResult.DVarValue resulttype rs.retllval
    else LoweredResult.DImValue resulttype rs.retllval
  return { callable := callable, args := st.args, attrs := st.attrs, attrlist := attrlist,
           callconv := cc, result := result, trace := rs.trace }

/-! ## Vocabulary of the statements -/

/-- The values `DtoCallFunction` resolves before it marshals: the ABI plan,
the function type and the LLVM function type of the callable. -/
def Resolves (env : Env) (fnval : DValue) (irFty : IrFuncTy) (tf : TypeFunction)
    (callableTy : LLFunctionType) : Prop :=
  DtoIrTypeFunction env fnval = .ok irFty ∧ DtoTypeFunction env fnval = .ok tf ∧
    ∃ callable, DtoCallableValue env fnval = .ok callable ∧
      DtoExtractFunctionType callable.getType = some callableTy

/-- Number of hidden-return slots: 1 if `irFty.arg_sret` is set. -/
def sretCount (irFty : IrFuncTy) : Nat := if irFty.arg_sret.isSome then 1 else 0

/-- Number of context slots: 1 for a this-call, delegate call or nested call. -/
def ctxCount (env : Env) (fnval : DValue) (irFty : IrFuncTy) : Nat :=
  if needsContext env fnval irFty then 1 else 0

/-- Number of type-descriptor array slots of a normal call: 1 for D linkage
with `varargs == 1`. -/
def tiCount (tf : TypeFunction) : Nat := if dvarargs tf then 1 else 0

/-- Number of implicit arguments of a normal call. -/
def implicitCount (env : Env) (fnval : DValue) (irFty : IrFuncTy) (tf : TypeFunction) : Nat :=
  sretCount irFty + ctxCount env fnval irFty + tiCount tf

/-- The marshalled value of formal argument `i` for the physical position
`pos`: `fixArgument` on `DtoArgument(fnarg_i, (*arguments)[i])` against the
callee's parameter type at `pos`. -/
def marshalFormal (env : Env) (tf : TypeFunction) (irFty : IrFuncTy)
    (callableTy : LLFunctionType) (arguments : List Expression) (i pos : Nat) :
    Option LLValue :=
  match tf.parameters[i]?, arguments[i]?, callableTy.getParamType pos with
  | some fnarg, some e, some ty =>
    some (fixArgument env (env.DtoArgument (some fnarg) e) irFty ty i)
  | _, _, _ => none

/-- The marshalled value of trailing variadic argument `i`:
`fixOptionalArgument` on `DtoArgument(0, (*arguments)[i])`. -/
def marshalVariadic (env : Env) (arguments : List Expression) (i : Nat) : Option LLValue :=
  (arguments[i]?).map (fun e => (fixOptionalArgument env (env.DtoArgument none e)).1)

/-- The attributes of trailing variadic argument `i`. -/
def variadicAttrs (env : Env) (arguments : List Expression) (i : Nat) : Option AttrBuilder :=
  (arguments[i]?).map (fun e => (fixOptionalArgument env (env.DtoArgument none e)).2)

/-- The marshalled value of argument `i` of a variadic intrinsic: the address
of the argument cast to `i8*`. -/
def marshalVaIntrinsic (env : Env) (arguments : List Expression) (i : Nat) : Option LLValue :=
  (arguments[i]?).map (fun e => DtoBitCast (env.toElem e).getLVal getVoidPtrType)

/-- The marshalled value of explicit argument `i` of a call that does not
reorder its parameters, with `beg` implicit arguments in front. -/
def marshalExplicit (env : Env) (fnval : DValue) (tf : TypeFunction) (irFty : IrFuncTy)
    (callableTy : LLFunctionType) (arguments : List Expression) (beg i : Nat) :
    Option LLValue :=
  if calleeIsVaIntrinsic env fnval then marshalVaIntrinsic env arguments i
  else if i < tf.parameters.length then
    marshalFormal env tf irFty callableTy arguments i (beg + i)
  else marshalVariadic env arguments i

/-- The physical arguments of a lowered call, if the lowering succeeds. -/
def argsOf (r : Except String CallOutput) : Option (List LLValue) :=
  match r with
  | .ok out => some out.args
  | .error _ => none

/-- The attribute entry expected for the return value: index 0. -/
def retAttrList (irFty : IrFuncTy) : List (Nat × AttrBuilder) :=
  if HAS_ATTRIBUTES irFty.ret.attrs then [(0, irFty.ret.attrs)] else []

/-- The attribute entry expected for the hidden-return pointer, which is
physical argument 0: index 1. -/
def sretAttrList (irFty : IrFuncTy) : List (Nat × AttrBuilder) :=
  match irFty.arg_sret with
  | some s => [(1 + 0, s.attrs)]
  | none => []

/-- The attribute entry expected for the context argument, which is physical
argument `sretCount`: index `1 + sretCount`. -/
def ctxAttrList (env : Env) (fnval : DValue) (irFty : IrFuncTy) : List (Nat × AttrBuilder) :=
  if needsContext env fnval irFty then
    match contextAttrs irFty with
    | some a => [(1 + sretCount irFty, a)]
    | none => []
  else []

/-- The physical position of formal parameter `i` of `n`, with `beg` implicit
arguments in front: `beg + j` with `j = n - i - 1` under `reverseParams` and
`j = i` otherwise. -/
def physIndex (irFty : IrFuncTy) (n beg i : Nat) : Nat :=
  beg + (if irFty.reverseParams then n - i - 1 else i)

/-- The attribute entry expected for formal parameter `i`: its plan's
attributes at index 1 + its physical position. -/
def formalAttrEntry (irFty : IrFuncTy) (n beg i : Nat) : Option (Nat × AttrBuilder) :=
  (irFty.args[i]?).map (fun a => (1 + physIndex irFty n beg i, a.attrs))

/-- The attribute entry expected for trailing variadic argument `i`, which is
physical argument `beg + i`: index `1 + (beg + i)`. -/
def variadicAttrEntry (env : Env) (arguments : List Expression) (beg i : Nat) :
    Option (Nat × AttrBuilder) :=
  (variadicAttrs env arguments i).map (fun a => (1 + (beg + i), a))

/-- The attribute entry expected for the type-descriptor array, which is
physical argument `sretCount + ctxCount`: index `1 + (sretCount + ctxCount)`. -/
def tiAttrList (env : Env) (fnval : DValue) (irFty : IrFuncTy) (tf : TypeFunction) :
    List (Nat × AttrBuilder) :=
  if dvarargs tf then
    match irFty.arg_arguments.filter (fun a => HAS_ATTRIBUTES a.attrs) with
    | some a => [(1 + (sretCount irFty + ctxCount env fnval irFty), a.attrs)]
    | none => []
  else []

/-- The order in which the formal arguments are evaluated: `n-1, ..., 0` for an
array operation, `0, ..., n-1` otherwise. -/
def formalEvalOrder (isArrayOp : Bool) (n : Nat) : List Nat :=
  if isArrayOp then (List.range n).reverse else List.range n

/-- The hidden-return pointer: the caller-supplied destination `retvar`, or
else fresh stack storage `.rettmp` for the type the callee's first parameter
points to. -/
def hiddenReturnPointer (callableTy : LLFunctionType) (retvar : Option LLValue) :
    Option LLValue :=
  match retvar with
  | some v => some v
  | none =>
    ((callableTy.getParamType 0).bind (fun pty => pty.getContainedType 0)).map
      (fun ety => .alloca 0 ety ".rettmp")

/-- The attribute entries expected of a lowering: the return attributes at
index 0 and, for every argument that gets attributes, its bundle at index
1 + the physical position of that argument. -/
def expectedAttrs (env : Env) (fnval : DValue) (irFty : IrFuncTy) (tf : TypeFunction)
    (arguments : List Expression) : List (Nat × AttrBuilder) :=
  retAttrList irFty ++ sretAttrList irFty ++ ctxAttrList env fnval irFty ++
    (if calleeIsVaIntrinsic env fnval then []
     else
      tiAttrList env fnval irFty tf ++
      (List.range tf.parameters.length).filterMap
        (formalAttrEntry irFty tf.parameters.length (implicitCount env fnval irFty tf)) ++
      (List.range' tf.parameters.length (arguments.length - tf.parameters.length)).filterMap
        (variadicAttrEntry env arguments (implicitCount env fnval irFty tf)))

/-- Which field of which aggregate a value reads: `DtoLoad(DtoGEPi(p, 0, k))`
reads field `k` of the aggregate stored at `p`, and `CreateExtractValue(agg, k)`
reads field `k` of the aggregate value `agg`. -/
def readsField : LLValue → Option (LLValue × Nat)
  | .load (.gepi p 0 k) => some (p, k)
  | .extractValue agg k => some (agg, k)
  | _ => none

/-- The delegate pair a delegate-typed callee is read from: its address when
the delegate is held as an lvalue, its value otherwise. -/
def delegatePair (fnval : DValue) : LLValue :=
  if fnval.isLVal then fnval.getLVal else fnval.getRVal

/-- The associative-array boxing repaint: the requested result type differs,
after stripping, from the declared return type, is a struct type, the declared
return type is an associative array and the function does not return by
reference.  This is the case in which the repaint sets `retinptr = true`. -/
def aaBoxingApplies (env : Env) (tf : TypeFunction) (resulttype : Option DType) : Bool :=
  match resulttype with
  | none => false
  | some rt =>
    let rbase := env.stripModifiers (env.toBasetype rt)
    let nextbase := env.stripModifiers (env.toBasetype tf.next)
    decide (rbase ≠ nextbase) && decide (rbase.ty = .Tstruct) &&
      decide (nextbase.ty = .Taarray) && !tf.isref

/-- A repaint applies: the requested result type differs, after stripping, from
the declared return type and is an array, class, associative-array or pointer
type, or the associative-array boxing applies. -/
def repaintApplies (env : Env) (tf : TypeFunction) (resulttype : Option DType) : Bool :=
  match resulttype with
  | none => false
  | some rt =>
    let rbase := env.stripModifiers (env.toBasetype rt)
    let nextbase := env.stripModifiers (env.toBasetype tf.next)
    (decide (rbase ≠ nextbase) &&
      (decide (rbase.ty = .Tarray) || decide (rbase.ty = .Tclass) ||
        decide (rbase.ty = .Taarray) || decide (rbase.ty = .Tpointer))) ||
    aaBoxingApplies env tf resulttype

/-- The raw values the ABI return fixup `irFty.getRet` was applied to, in
order. -/
def getRetEvents (trace : List Event) : List LLValue :=
  trace.filterMap (fun e =>
    match e with
    | .getRet raw => some raw
    | _ => none)

/-- The raw result of the call: the hidden-return slot's address `args[0]` when
the return is by hidden pointer, else the call's direct result. -/
def rawResult (irFty : IrFuncTy) (callableTy : LLFunctionType) (args : List LLValue) :
    Option LLValue :=
  if irFty.arg_sret.isSome then args[0]? else some (.callInst callableTy.ret)

/-- The argument of `fixArgument` after the ABI rewrite ("give the ABI a say"):
`irFty.putParam(argval->getType(), argIndex, argval)`. -/
def rewrittenArgument (env : Env) (argval : DValue) (irFty : IrFuncTy) (argIndex : Nat) :
    LLValue :=
  env.putParam irFty argval.type argIndex argval

/-- The condition under which `fixArgument` loads through the rewritten
argument: it is a pointer, the expected type is not a pointer and the logical
type is a struct or a fixed-size array. -/
def loadApplies (env : Env) (argval : DValue) (irFty : IrFuncTy) (callableArgType : LLType)
    (argIndex : Nat) : Bool :=
  isaPointer (rewrittenArgument env argval irFty argIndex) && !callableArgType.isPointer &&
    (decide ((env.toBasetype argval.type).ty = .Tstruct) ||
      decide ((env.toBasetype argval.type).ty = .Tsarray))

/-- The argument of `fixArgument` after the load step. -/
def loadedArgument (env : Env) (argval : DValue) (irFty : IrFuncTy) (callableArgType : LLType)
    (argIndex : Nat) : LLValue :=
  if loadApplies env argval irFty callableArgType argIndex then
    DtoLoad (rewrittenArgument env argval irFty argIndex)
  else rewrittenArgument env argval irFty argIndex

/-- The condition of the block that stores a struct or static array result to a
stack slot: `(ty == Tstruct && !isaPointer(retllval)) ||
(ty == Tsarray && isaArray(retllval))`. -/
def storesResult (env : Env) (tf : TypeFunction) (rs : RetState) : Prop :=
  ((env.toBasetype tf.next).ty = .Tstruct ∧ isaPointer rs.retllval = false) ∨
  ((env.toBasetype tf.next).ty = .Tsarray ∧ isaArray rs.retllval = true)

/-- The ABI-fixed-up result of a call whose raw result is `raw`: the return
fixup `irFty.getRet` is applied unless the callee is an intrinsic or the return
is by hidden pointer. -/
def fixedUpResult (env : Env) (fnval : DValue) (irFty : IrFuncTy) (tf : TypeFunction)
    (raw : LLValue) : LLValue :=
  if !calleeIsIntrinsic fnval && !irFty.arg_sret.isSome then env.getRet irFty tf.next raw
  else raw

/-- The message of the error the context block of `DtoCallFunction` reports
before `fatal()`. -/
def contextError : String := "Context argument required but none given"

/-- The four sources of a context argument, in the priority order of the
context block. -/
inductive ContextSource where
  /-- The receiver of the enclosing function, for a call of `__ensure` or
  `__require`. -/
  | contractReceiver
  /-- The resolved receiver `dfnval->vthis` of a this-call. -/
  | receiver
  /-- Field 0 of the delegate pair. -/
  | delegateContext
  /-- The nested-context pointer, or an undefined placeholder. -/
  | nestedContext
  deriving DecidableEq, Repr

/-- The source of the context argument by priority: the contract receiver if
the callee is a contract helper, else the resolved receiver of a this-call,
else the delegate's context field, else the nested context; none if no source
applies. -/
def contextSource (env : Env) (fnval : DValue) (irFty : IrFuncTy) (contract : Bool) :
    Option ContextSource :=
  if contract then some .contractReceiver
  else if irFty.arg_this.isSome && (fnval.isFunc.bind (fun d => d.vthis)).isSome then
    some .receiver
  else if decide ((env.toBasetype fnval.type).ty = .Tdelegate) then some .delegateContext
  else if irFty.arg_nest.isSome then some .nestedContext
  else none

/-- The value each source provides for the context slot whose expected type is
parameter `argiter` of the callee. -/
def contextSourceValue (env : Env) (fnval : DValue) (callableTy : LLFunctionType)
    (argiter : Nat) : ContextSource → Except String LLValue
  | .contractReceiver => .ok (DtoBitCast (DtoLoad env.thisArg) getVoidPtrType)
  | .receiver =>
    match fnval.isFunc.bind (fun d => d.vthis) with
    | some vthis =>
      match callableTy.getParamType argiter with
      | none => .error "*argiter out of range"
      | some ty => .ok (DtoBitCast vthis ty)
    | none => .error "null dereference: dfnval->vthis"
  | .delegateContext =>
    match callableTy.getParamType argiter with
    | none => .error "*argiter out of range"
    | some ty =>
      .ok (DtoBitCast (if fnval.isLVal then DtoLoad (DtoGEPi fnval.getLVal 0 0)
        else .extractValue fnval.getRVal 0) ty)
  | .nestedContext =>
    match fnval.isFunc with
    | some d =>
      match d.func with
      | none => .error "null dereference: dfnval->func"
      | some fd => .ok (DtoBitCast (env.DtoNestedContext fd) getVoidPtrType)
    | none => .ok (.undef getVoidPtrType)

/-- The state of the lowering on entry to the hidden-return block: the return
attributes are recorded. -/
def returnAttrsState (irFty : IrFuncTy) : CallState :=
  if HAS_ATTRIBUTES irFty.ret.attrs then
    addToAttributes { args := [], attrs := [], argiter := 0, trace := [] } 0 irFty.ret.attrs
  else { args := [], attrs := [], argiter := 0, trace := [] }

/-- The lowering up to the context block: the return attributes and the
hidden-return block. -/
def beforeContext (env : Env) (resulttype : Option DType) (retvar : Option LLValue)
    (irFty : IrFuncTy) (callableTy : LLFunctionType) : Except String CallState :=
  hiddenReturnArgument env irFty callableTy resulttype retvar (returnAttrsState irFty)

/-! ## Example collaborators -/

/-- The value an example argument expression evaluates to: expression `e` has
the plain value numbered `e.id` and lives at the address numbered `100 + e.id`. -/
def exampleDValue (e : Expression) : DValue :=
  { type := e.type, isFunc := none, isLVal := true,
    getLVal := .value (100 + e.id) (.ptr (.named e.type.deco)),
    getRVal := .value e.id (.named e.type.deco) }

/-- Example collaborators over one signature: types are their own base type,
the ABI passes arguments and results through unchanged, and a function whose
pragma kind is `LLVMother 1` is a variadic intrinsic. -/
def exampleEnv (tf : TypeFunction) (irFty : IrFuncTy) : Env where
  toBasetype := id
  stripModifiers := id
  nextOf := fun t => ⟨.Tfunction, t.deco⟩
  merge := id
  pointerTo := fun t => ⟨.Tpointer, t.deco + 1000⟩
  arrayOf := fun t => ⟨.Tarray, t.deco + 2000⟩
  alignsize := fun _ => 4
  asTypeFunction := fun _ => tf
  DtoType := fun t => .named t.deco
  ctypeIrFuncTy := fun _ => some irFty
  getIrFunc := fun _ => irFty
  DtoIsVaIntrinsic := fun fd => fd.llvmInternal = .LLVMother 1
  callingConv := fun _ => 0
  thisArg := .value 900 (.ptr (.ptr (.int 8)))
  DtoNestedContext := fun fd => .value (800 + fd.uid) (.ptr (.int 8))
  toElem := exampleDValue
  DtoArgument := fun _ e => exampleDValue e
  putParam := fun _ _ _ v => v.getRVal
  getRet := fun _ _ raw => raw
  passByVal := fun _ => false
  DtoShouldExtend := fun _ => none
  rewriteArgument := id
  rewritePut := fun _ _ v => v.getRVal
  DtoTypeInfoOf := fun t => ⟨t.deco⟩
  dtypeinfoType := ⟨.Tclass, 50⟩
  llvmIntrinsicID := fun _ => none

/-- The D type `int` of the examples. -/
def tInt : DType := ⟨.Tother 0, 1⟩

/-- The D type of the example struct `S`. -/
def tStruct : DType := ⟨.Tstruct, 2⟩

/-- An ABI slot without attributes. -/
def plainArg (t : DType) : IrFuncTyArg :=
  { type := t, byref := false, attrs := ⟨[]⟩, rewrite := none }

/-- The hidden-return slot of the examples, marked `sret`. -/
def sretArg : IrFuncTyArg :=
  { type := tStruct, byref := true, attrs := ⟨[.StructRet]⟩, rewrite := none }

/-- Argument expression number `k`, of type `int`. -/
def intExp (k : Nat) : Expression := ⟨tInt, k⟩

/-- A callee that is a plain function value of LLVM type `ty`, with no
function declaration attached. -/
def plainCallee (ty : LLType) : DValue :=
  { type := ⟨.Tfunction, 10⟩, isFunc := none, isLVal := false,
    getLVal := .value 0 (.ptr ty), getRVal := .value 500 ty }

/-- A callee that is the function value of declaration `fd`. -/
def declCallee (fd : FuncDeclaration) (vthis : Option LLValue) (ty : LLType) : DValue :=
  { type := ⟨.Tfunction, 10⟩,
    isFunc := some { func := some fd, val := .value 500 ty, vthis := vthis },
    isLVal := false, getLVal := .value 0 (.ptr ty), getRVal := .value 500 ty }

/-- The output of a lowering that succeeds (and an empty output otherwise). -/
def outputOf (x : Except String CallOutput) : CallOutput :=
  match x with
  | .ok r => r
  | .error _ =>
    { callable := .undef .void, args := [], attrs := [], attrlist := .computed [],
      callconv := none, result := .DImValue none (.undef .void), trace := [] }

/-- An ordinary function declaration `foo`. -/
def fooDecl : FuncDeclaration :=
  { ident := .other "foo", llvmInternal := .LLVMnone, isArrayOp := false, uid := 7 }

/-- Example: a D-variadic method `S foo(int, ...)` returning a struct through a
hidden pointer. -/
def variadicMethodTf : TypeFunction :=
  { linkage := .LINKd, varargs := 1, isref := false, next := tStruct,
    parameters := [⟨tInt, 0⟩] }

/-- The ABI plan of `variadicMethodTf`: hidden return, `this`, `_arguments`,
one formal. -/
def variadicMethodIrFty : IrFuncTy :=
  { ret := plainArg ⟨.Tother 1, 0⟩, arg_sret := some sretArg,
    arg_this := some { type := ⟨.Tpointer, 3⟩, byref := false, attrs := ⟨[.InReg]⟩,
                       rewrite := none },
    arg_nest := none,
    arg_arguments := some { type := ⟨.Tarray, 2050⟩, byref := false, attrs := ⟨[.ByVal]⟩,
                            rewrite := none },
    args := [{ type := tInt, byref := false, attrs := ⟨[.SExt]⟩, rewrite := none }],
    reverseParams := false }

/-- The LLVM type of the callable of `variadicMethodTf`. -/
def variadicMethodTy : LLType :=
  .ptr (.func .void [.ptr (.named 2), .ptr (.named 3), .named 2050, .named 1] true)

/-- The call `obj.foo(3, 4, 5)` of the D-variadic method, without a
caller-supplied destination. -/
def variadicMethodCall : Except String CallOutput :=
  DtoCallFunction (exampleEnv variadicMethodTf variadicMethodIrFty) (some tStruct)
    (declCallee fooDecl (some (.value 600 (.ptr (.named 9)))) variadicMethodTy)
    [intExp 3, intExp 4, intExp 5] none

/-- Example: the function `int f(int, int)`, C linkage, no variadics. -/
def twoIntTf : TypeFunction :=
  { linkage := .LINKc, varargs := 0, isref := false, next := tInt,
    parameters := [⟨tInt, 0⟩, ⟨tInt, 0⟩] }

/-- The ABI plan of `twoIntTf`, with or without `reverseParams`. -/
def twoIntIrFty (reverseParams : Bool) : IrFuncTy :=
  { ret := plainArg tInt, arg_sret := none, arg_this := none, arg_nest := none,
    arg_arguments := none, args := [plainArg tInt, plainArg tInt],
    reverseParams := reverseParams }

/-- The LLVM function type of `twoIntTf`. -/
def twoIntFty : LLFunctionType := ⟨.named 1, [.named 1, .named 1], false⟩

/-- The LLVM type of the callable of `twoIntTf`. -/
def twoIntTy : LLType := .ptr (.func (.named 1) [.named 1, .named 1] false)

/-- The call `f(3, 4)` through a plain function value. -/
def twoIntCall (reverseParams : Bool) : Except String CallOutput :=
  DtoCallFunction (exampleEnv twoIntTf (twoIntIrFty reverseParams)) (some tInt)
    (plainCallee twoIntTy) [intExp 3, intExp 4] none

/-- A declaration that `DtoIsVaIntrinsic` accepts under `exampleEnv`: the
variadic intrinsic `va_copy`. -/
def vaCopyDecl : FuncDeclaration :=
  { ident := .other "va_copy", llvmInternal := .LLVMother 1, isArrayOp := false, uid := 8 }

/-- The function type `void va_copy(va_list, va_list)`, D linkage. -/
def vaCopyTf : TypeFunction :=
  { linkage := .LINKd, varargs := 0, isref := false, next := ⟨.Tother 1, 0⟩,
    parameters := [⟨⟨.Tpointer, 4⟩, 0⟩, ⟨⟨.Tpointer, 4⟩, 0⟩] }

/-- An ABI plan of `vaCopyTf` with `reverseParams` set. -/
def vaCopyIrFty : IrFuncTy :=
  { ret := plainArg ⟨.Tother 1, 0⟩, arg_sret := none, arg_this := none, arg_nest := none,
    arg_arguments := none, args := [plainArg ⟨.Tpointer, 4⟩, plainArg ⟨.Tpointer, 4⟩],
    reverseParams := true }

/-- The LLVM function type of `llvm.va_copy`. -/
def vaCopyFty : LLFunctionType := ⟨.void, [.ptr (.int 8), .ptr (.int 8)], false⟩

/-- The LLVM type of the callable of `vaCopyTf`. -/
def vaCopyTy : LLType := .ptr (.func .void [.ptr (.int 8), .ptr (.int 8)] false)

/-- The two argument expressions of the example `va_copy(dst, src)`. -/
def vaCopyArgs : List Expression := [⟨⟨.Tpointer, 4⟩, 3⟩, ⟨⟨.Tpointer, 4⟩, 4⟩]

/-- The call `va_copy(dst, src)`. -/
def vaCopyCall : Except String CallOutput :=
  DtoCallFunction (exampleEnv vaCopyTf vaCopyIrFty) (some ⟨.Tother 1, 0⟩)
    (declCallee vaCopyDecl none vaCopyTy) vaCopyArgs none

/-- The call `f(3, 4)` of `twoIntTf` through the declaration `foo`. -/
def twoIntDeclCall (reverseParams : Bool) : Except String CallOutput :=
  DtoCallFunction (exampleEnv twoIntTf (twoIntIrFty reverseParams)) (some tInt)
    (declCallee fooDecl none twoIntTy) [intExp 3, intExp 4] none

/-- Example: a method `int m(int)` called on a receiver, without hidden
return. -/
def methodTf : TypeFunction :=
  { linkage := .LINKd, varargs := 0, isref := false, next := tInt,
    parameters := [⟨tInt, 0⟩] }

/-- The ABI plan of `methodTf`: `this`, one formal. -/
def methodIrFty : IrFuncTy :=
  { ret := plainArg tInt, arg_sret := none,
    arg_this := some (plainArg ⟨.Tpointer, 3⟩), arg_nest := none, arg_arguments := none,
    args := [plainArg tInt], reverseParams := false }

/-- The LLVM function type of `methodTf`. -/
def methodFty : LLFunctionType := ⟨.named 1, [.ptr (.named 3), .named 1], false⟩

/-- The LLVM type of the callable of `methodTf`. -/
def methodTy : LLType := .ptr (.func (.named 1) [.ptr (.named 3), .named 1] false)

/-- The receiver of the example method calls. -/
def receiver : LLValue := .value 600 (.ptr (.named 9))

/-- The call `obj.m(3)`. -/
def methodCall : Except String CallOutput :=
  DtoCallFunction (exampleEnv methodTf methodIrFty) (some tInt)
    (declCallee fooDecl (some receiver) methodTy) [intExp 3] none

/-- The declaration of a contract helper `__ensure`. -/
def ensureDecl : FuncDeclaration :=
  { ident := .ensure, llvmInternal := .LLVMnone, isArrayOp := false, uid := 9 }

/-- Example: the function type `int(int)` under a delegate. -/
def delegateTf : TypeFunction :=
  { linkage := .LINKd, varargs := 0, isref := false, next := tInt,
    parameters := [⟨tInt, 0⟩] }

/-- The ABI plan of `delegateTf`: a context slot, one formal. -/
def delegateIrFty : IrFuncTy :=
  { ret := plainArg tInt, arg_sret := none, arg_this := none,
    arg_nest := some (plainArg ⟨.Tpointer, 5⟩), arg_arguments := none,
    args := [plainArg tInt], reverseParams := false }

/-- The LLVM function type of `delegateTf`. -/
def delegateFty : LLFunctionType := ⟨.named 1, [.ptr (.int 8), .named 1], false⟩

/-- The LLVM type of a delegate value: `{ i8*, int (i8*, int)* }`. -/
def delegateTy : LLType :=
  .struct [.ptr (.int 8), .ptr (.func (.named 1) [.ptr (.int 8), .named 1] false)]

/-- A delegate held as a plain value. -/
def delegateRVal : DValue :=
  { type := ⟨.Tdelegate, 11⟩, isFunc := none, isLVal := false,
    getLVal := .undef (.ptr delegateTy), getRVal := .value 700 delegateTy }

/-- A delegate held in memory. -/
def delegateLVal : DValue :=
  { type := ⟨.Tdelegate, 11⟩, isFunc := none, isLVal := true,
    getLVal := .value 701 (.ptr delegateTy), getRVal := .load (.value 701 (.ptr delegateTy)) }

/-- A delegate-typed callee that is a function value naming `__ensure`. -/
def delegateContractCallee : DValue :=
  { type := ⟨.Tdelegate, 11⟩,
    isFunc := some { func := some ensureDecl, val := .value 700 delegateTy, vthis := none },
    isLVal := false, getLVal := .undef (.ptr delegateTy), getRVal := .value 700 delegateTy }

/-- The call `dg(3)` of a delegate-typed callee. -/
def delegateCall (fnval : DValue) : Except String CallOutput :=
  DtoCallFunction (exampleEnv delegateTf delegateIrFty) (some tInt) fnval [intExp 3] none

/-- Example: the function `S make()` returning a struct through a hidden
pointer. -/
def sretTf : TypeFunction :=
  { linkage := .LINKd, varargs := 0, isref := false, next := tStruct, parameters := [] }

/-- The ABI plan of `sretTf`: a hidden-return slot only. -/
def sretIrFty : IrFuncTy :=
  { ret := plainArg ⟨.Tother 1, 0⟩, arg_sret := some sretArg, arg_this := none,
    arg_nest := none, arg_arguments := none, args := [], reverseParams := false }

/-- The LLVM function type of `sretTf`. -/
def sretFty : LLFunctionType := ⟨.void, [.ptr (.named 2)], false⟩

/-- The LLVM type of the callable of `sretTf`. -/
def sretTy : LLType := .ptr (.func .void [.ptr (.named 2)] false)

/-- A caller-supplied destination for the struct result. -/
def destination : LLValue := .value 900 (.ptr (.named 2))

/-- A class type, different from the struct type `S`. -/
def tClass : DType := ⟨.Tclass, 6⟩

/-- The call `make()` with the caller-supplied destination, the requested
result type being `resulttype`. -/
def sretCall (resulttype : DType) : Except String CallOutput :=
  DtoCallFunction (exampleEnv sretTf sretIrFty) (some resulttype) (declCallee fooDecl none sretTy)
    [] (some destination)

/-- The collaborators of `exampleEnv`, with an ABI that passes every argument
by its address. -/
def byAddressEnv (tf : TypeFunction) (irFty : IrFuncTy) : Env :=
  { exampleEnv tf irFty with putParam := fun _ _ _ v => v.getLVal }

/-- Example: the function `int g(int, S)` under `reverseParams`. -/
def byAddressTf : TypeFunction :=
  { linkage := .LINKd, varargs := 0, isref := false, next := tInt,
    parameters := [⟨tInt, 0⟩, ⟨tStruct, 0⟩] }

/-- The ABI plan of `byAddressTf`. -/
def byAddressIrFty : IrFuncTy :=
  { ret := plainArg tInt, arg_sret := none, arg_this := none, arg_nest := none,
    arg_arguments := none, args := [plainArg tInt, plainArg tStruct], reverseParams := true }

/-- The LLVM function type of `byAddressTf`: the parameters are declared in
reversed order and taken by value. -/
def byAddressFty : LLFunctionType := ⟨.named 1, [.named 2, .named 1], false⟩

/-- The LLVM type of the callable of `byAddressTf`. -/
def byAddressTy : LLType := .ptr (.func (.named 1) [.named 2, .named 1] false)

/-- The call `g(3, s)` where the ABI hands over the addresses of the arguments. -/
def byAddressCall : Except String CallOutput :=
  DtoCallFunction (byAddressEnv byAddressTf byAddressIrFty) (some tInt)
    (declCallee fooDecl none byAddressTy) [intExp 3, ⟨tStruct, 7⟩] none

/-- The D type of the example fixed-size array `int[2]`. -/
def tSArray : DType := ⟨.Tsarray, 8⟩

/-- Example: the function `int[2] pair()`. -/
def sarrayTf : TypeFunction :=
  { linkage := .LINKd, varargs := 0, isref := false, next := tSArray, parameters := [] }

/-- The ABI plan of `sarrayTf`: a direct return. -/
def sarrayIrFty : IrFuncTy :=
  { ret := plainArg tSArray, arg_sret := none, arg_this := none, arg_nest := none,
    arg_arguments := none, args := [], reverseParams := false }

/-- The call `pair()` of a callee whose LLVM return type is `retTy`. -/
def sarrayCall (retTy : LLType) : Except String CallOutput :=
  DtoCallFunction (exampleEnv sarrayTf sarrayIrFty) (some tSArray)
    (plainCallee (.ptr (.func retTy [] false))) [] none

/-- Example: the function `S get()` returning its struct directly. -/
def structRetTf : TypeFunction :=
  { linkage := .LINKd, varargs := 0, isref := false, next := tStruct, parameters := [] }

/-- The ABI plan of `structRetTf`: a direct return. -/
def structRetIrFty : IrFuncTy :=
  { ret := plainArg tStruct, arg_sret := none, arg_this := none, arg_nest := none,
    arg_arguments := none, args := [], reverseParams := false }

/-- The call `get()` of a callee whose LLVM return type is `retTy`. -/
def structRetCall (retTy : LLType) : Except String CallOutput :=
  DtoCallFunction (exampleEnv structRetTf structRetIrFty) (some tStruct)
    (plainCallee (.ptr (.func retTy [] false))) [] none

/-- A callee that is a function value with no function declaration attached
(`dfnval->func` is null) and no receiver. -/
def nullDeclCallee (ty : LLType) : DValue :=
  { type := ⟨.Tfunction, 10⟩,
    isFunc := some { func := none, val := .value 500 ty, vthis := none },
    isLVal := false, getLVal := .value 0 (.ptr ty), getRVal := .value 500 ty }

/-- The call `m(3)` of a method through a function value that has neither a
declaration nor a receiver. -/
def methodCallNullDecl : Except String CallOutput :=
  DtoCallFunction (exampleEnv methodTf methodIrFty) (some tInt)
    (nullDeclCallee methodTy) [intExp 3] none

/-- The call `m(3)` of a method through a function value that carries no
receiver. -/
def methodCallNoReceiver : Except String CallOutput :=
  DtoCallFunction (exampleEnv methodTf methodIrFty) (some tInt)
    (declCallee fooDecl none methodTy) [intExp 3] none

/-! ## Theorems -/

@[simp] theorem forIndices_nil {σ : Type} (body : Nat → σ → Except String σ) (s : σ) :
    forIndices body [] s = .ok s := rfl

theorem forIndices_cons_ok {σ : Type} {body : Nat → σ → Except String σ} {i : Nat}
    {is : List Nat} {s s2 : σ} (h : forIndices body (i :: is) s = .ok s2) :
    ∃ s1, body i s = .ok s1 ∧ forIndices body is s1 = .ok s2 := by
  unfold forIndices at h
  split at h
  · next s1 hb => exact ⟨s1, hb, h⟩
  · cases h

/-- A loop whose body appends one value to a list component appends, in order,
one value per index. -/
theorem forIndices_append {σ α : Type} (body : Nat → σ → Except String σ)
    (proj : σ → List α) (f : Nat → Option α)
    (h : ∀ i s s2, body i s = .ok s2 → ∃ v, f i = some v ∧ proj s2 = proj s ++ [v]) :
    ∀ (l : List Nat) (s s2 : σ), forIndices body l s = .ok s2 →
      ∃ vs : List α, vs.length = l.length ∧ (∀ k i : Nat, l[k]? = some i → vs[k]? = f i) ∧
        proj s2 = proj s ++ vs := by
  intro l
  induction l with
  | nil =>
    intro s s2 hl
    simp at hl
    subst hl
    exact ⟨[], rfl, by simp, by simp⟩
  | cons i is ih =>
    intro s s2 hl
    obtain ⟨s1, hb, hrest⟩ := forIndices_cons_ok hl
    obtain ⟨v, hv, hp⟩ := h i s s1 hb
    obtain ⟨vs, hlen, hget, hproj⟩ := ih s1 s2 hrest
    refine ⟨v :: vs, by simp [hlen], ?_, by simp [hproj, hp]⟩
    intro k j hk
    cases k with
    | zero =>
      simp at hk
      subst hk
      simp [hv]
    | succ k =>
      simp at hk
      simpa using hget k j hk

/-- A loop whose body increments a counter adds the number of indices to it. -/
theorem forIndices_count {σ : Type} (body : Nat → σ → Except String σ) (proj : σ → Nat)
    (h : ∀ i s s2, body i s = .ok s2 → proj s2 = proj s + 1) :
    ∀ (l : List Nat) (s s2 : σ), forIndices body l s = .ok s2 →
      proj s2 = proj s + l.length := by
  intro l
  induction l with
  | nil =>
    intro s s2 hl
    simp at hl
    subst hl
    simp
  | cons i is ih =>
    intro s s2 hl
    obtain ⟨s1, hb, hrest⟩ := forIndices_cons_ok hl
    rw [ih s1 s2 hrest, h i s s1 hb]
    simp
    omega

/-- A loop whose body keeps a component keeps it. -/
theorem forIndices_keep {σ β : Type} (body : Nat → σ → Except String σ) (proj : σ → β)
    (h : ∀ i s s2, body i s = .ok s2 → proj s2 = proj s) :
    ∀ (l : List Nat) (s s2 : σ), forIndices body l s = .ok s2 → proj s2 = proj s := by
  intro l
  induction l with
  | nil =>
    intro s s2 hl
    simp at hl
    subst hl
    rfl
  | cons i is ih =>
    intro s s2 hl
    obtain ⟨s1, hb, hrest⟩ := forIndices_cons_ok hl
    rw [ih s1 s2 hrest, h i s s1 hb]

theorem hiddenReturnArgument_none {env : Env} {irFty : IrFuncTy} {callableTy : LLFunctionType}
    {resulttype : Option DType} {retvar : Option LLValue} {st : CallState}
    (hs : irFty.arg_sret = none) :
    hiddenReturnArgument env irFty callableTy resulttype retvar st = .ok st := by
  simp [hiddenReturnArgument, hs]

theorem hiddenReturnArgument_some {env : Env} {irFty : IrFuncTy} {callableTy : LLFunctionType}
    {resulttype : Option DType} {retvar : Option LLValue} {st st2 : CallState}
    {sret : IrFuncTyArg} (hs : irFty.arg_sret = some sret)
    (h : hiddenReturnArgument env irFty callableTy resulttype retvar st = .ok st2) :
    ∃ rv, st2.args = st.args ++ [rv] ∧ st2.attrs = st.attrs ++ [(1, sret.attrs)] ∧
      st2.argiter = st.argiter + 1 ∧
      (∀ v, retvar = some v → rv = v ∧ st2.trace = st.trace) ∧
      (retvar = none → ∃ pty ety rt, callableTy.getParamType st.argiter = some pty ∧
        pty.getContainedType 0 = some ety ∧ resulttype = some rt ∧
        rv = .alloca st.trace.length ety ".rettmp" ∧
        st2.trace = st.trace ++ [.rawAlloca ety (env.alignsize rt) ".rettmp"]) := by
  simp only [hiddenReturnArgument, hs] at h
  cases retvar with
  | some v =>
    simp only [bind, Except.bind] at h
    split at h
    · cases h
      exact ⟨v, rfl, rfl, rfl, by simp [CallState.push_back, CallState.incArgiter, addToAttributes], by simp⟩
    · cases h
  | none =>
    simp only [bind, Except.bind] at h
    cases hp : callableTy.getParamType st.argiter with
    | none => simp [hp] at h
    | some pty =>
      cases hc : pty.getContainedType 0 with
      | none => simp [hp, hc] at h
      | some ety =>
        cases resulttype with
        | none => simp [hp, hc] at h
        | some rt =>
          simp only [hp, hc] at h
          split at h
          · cases h
            exact ⟨_, rfl, rfl, rfl, by simp,
              fun _ => ⟨pty, ety, rt, rfl, hc, rfl, rfl, rfl⟩⟩
          · cases h

theorem contextArgument_ok {env : Env} {fnval : DValue} {irFty : IrFuncTy}
    {callableTy : LLFunctionType} {st st2 : CallState}
    (h : contextArgument env fnval irFty callableTy st = .ok st2) :
    ∃ ctx, contextValue env fnval irFty callableTy st.argiter = .ok ctx ∧
      st2.args = st.args ++ [ctx] ∧ st2.argiter = st.argiter + 1 ∧ st2.trace = st.trace ∧
      st2.attrs = st.attrs ++
        (match contextAttrs irFty with
         | some a => [(1 + sretCount irFty, a)]
         | none => []) := by
  simp only [contextArgument, bind, Except.bind] at h
  cases hc : contextValue env fnval irFty callableTy st.argiter with
  | error e => simp [hc] at h
  | ok ctx =>
    simp only [hc] at h
    refine ⟨ctx, rfl, ?_⟩
    cases ha : contextAttrs irFty with
    | none =>
      simp only [ha, pure, Except.pure] at h
      cases h
      simp [CallState.push_back, CallState.incArgiter]
    | some a =>
      simp only [ha, pure, Except.pure] at h
      cases h
      cases hsr : irFty.arg_sret <;>
        simp [CallState.push_back, CallState.incArgiter, addToAttributes, sretCount, hsr]

theorem implicit_aux {env : Env} {resulttype : Option DType} {fnval : DValue}
    {retvar : Option LLValue} {irFty : IrFuncTy} {callableTy : LLFunctionType}
    {st0 st1 st : CallState}
    (ha : st0.args = []) (hi : st0.argiter = 0) (ht : st0.trace = [])
    (hat : st0.attrs = retAttrList irFty)
    (h1 : hiddenReturnArgument env irFty callableTy resulttype retvar st0 = .ok st1)
    (h : (if needsContext env fnval irFty = true then
            contextArgument env fnval irFty callableTy st1 else .ok st1) = .ok st) :
    ∃ hidden ctx : List LLValue,
      st.args = hidden ++ ctx ∧ st.argiter = st.args.length ∧
      hidden.length = sretCount irFty ∧ ctx.length = ctxCount env fnval irFty ∧
      (∀ v, retvar = some v → irFty.arg_sret.isSome → hidden = [v] ∧ st.trace = []) ∧
      (needsContext env fnval irFty = true →
        ∃ c, contextValue env fnval irFty callableTy (sretCount irFty) = .ok c ∧ ctx = [c]) ∧
      st.attrs = retAttrList irFty ++ sretAttrList irFty ++ ctxAttrList env fnval irFty := by
  cases hs : irFty.arg_sret with
  | none =>
    rw [hiddenReturnArgument_none hs] at h1
    cases h1
    by_cases hn : needsContext env fnval irFty = true
    · simp only [hn, if_true] at h
      obtain ⟨c, hc, hargs, hiter, htr, hattrs⟩ := contextArgument_ok h
      refine ⟨[], [c], ?_, ?_, ?_, ?_, ?_, ?_, ?_⟩
      · simp [hargs, ha]
      · simp [hiter, hargs, ha, hi]
      · simp [sretCount, hs]
      · simp [ctxCount, hn]
      · simp
      · intro _
        refine ⟨c, ?_, rfl⟩
        rw [← hc, hi]
        simp [sretCount, hs]
      · rw [hattrs, hat]
        simp [sretAttrList, ctxAttrList, hs, hn]
    · simp only [hn] at h
      cases h
      refine ⟨[], [], ?_, ?_, ?_, ?_, ?_, ?_, ?_⟩
      · simp [ha]
      · simp [ha, hi]
      · simp [sretCount, hs]
      · simp [ctxCount, hn]
      · simp
      · intro hc; exact absurd hc hn
      · rw [hat]; simp [sretAttrList, ctxAttrList, hs, hn]
  | some sret =>
    obtain ⟨rv, hargs1, hattrs1, hiter1, hrv, _⟩ := hiddenReturnArgument_some hs h1
    by_cases hn : needsContext env fnval irFty = true
    · simp only [hn, if_true] at h
      obtain ⟨c, hc, hargs, hiter, htr, hattrs⟩ := contextArgument_ok h
      refine ⟨[rv], [c], ?_, ?_, ?_, ?_, ?_, ?_, ?_⟩
      · simp [hargs, hargs1, ha]
      · simp [hiter, hargs, hiter1, hargs1, ha, hi]
      · simp [sretCount, hs]
      · simp [ctxCount, hn]
      · intro v hv _
        obtain ⟨h1a, h1b⟩ := hrv v hv
        exact ⟨by rw [h1a], by rw [htr, h1b, ht]⟩
      · intro _
        refine ⟨c, ?_, rfl⟩
        rw [← hc, hiter1, hi]
        simp [sretCount, hs]
      · rw [hattrs, hattrs1, hat]
        simp [sretAttrList, ctxAttrList, hs, hn]
    · simp only [hn] at h
      cases h
      refine ⟨[rv], [], ?_, ?_, ?_, ?_, ?_, ?_, ?_⟩
      · simp [hargs1, ha]
      · simp [hiter1, hargs1, ha, hi]
      · simp [sretCount, hs]
      · simp [ctxCount, hn]
      · intro v hv _
        obtain ⟨h1a, h1b⟩ := hrv v hv
        exact ⟨by rw [h1a], by rw [h1b, ht]⟩
      · intro hc; exact absurd hc hn
      · rw [hattrs1, hat]; simp [sretAttrList, ctxAttrList, hs, hn]

/-- The state after the implicit arguments shared by every call. -/
theorem implicitArguments_ok {env : Env} {resulttype : Option DType} {fnval : DValue}
    {retvar : Option LLValue} {irFty : IrFuncTy} {callableTy : LLFunctionType}
    {st : CallState}
    (h : implicitArguments env resulttype fnval retvar irFty callableTy = .ok st) :
    ∃ hidden ctx : List LLValue,
      st.args = hidden ++ ctx ∧ st.argiter = st.args.length ∧
      hidden.length = sretCount irFty ∧ ctx.length = ctxCount env fnval irFty ∧
      (∀ v, retvar = some v → irFty.arg_sret.isSome → hidden = [v] ∧ st.trace = []) ∧
      (needsContext env fnval irFty = true →
        ∃ c, contextValue env fnval irFty callableTy (sretCount irFty) = .ok c ∧ ctx = [c]) ∧
      st.attrs = retAttrList irFty ++ sretAttrList irFty ++ ctxAttrList env fnval irFty := by
  simp only [implicitArguments, bind, Except.bind] at h
  split at h
  · cases h
  next st1 h1 =>
  refine implicit_aux ?_ ?_ ?_ ?_ h1 h
  · split <;> rfl
  · split <;> rfl
  · split <;> rfl
  · simp only [retAttrList]; split <;> rfl

/-- A loop whose body inserts one value at the front of a list component. -/
theorem forIndices_prepend {σ α : Type} (body : Nat → σ → Except String σ)
    (proj : σ → List α) (f : Nat → Option α)
    (h : ∀ i s s2, body i s = .ok s2 → ∃ v, f i = some v ∧ proj s2 = v :: proj s) :
    ∀ (l : List Nat) (s s2 : σ), forIndices body l s = .ok s2 →
      ∃ vs : List α, vs.length = l.length ∧ (∀ k i : Nat, l[k]? = some i → vs[k]? = f i) ∧
        proj s2 = vs.reverse ++ proj s := by
  intro l
  induction l with
  | nil =>
    intro s s2 hl
    simp at hl
    subst hl
    exact ⟨[], rfl, by simp, by simp⟩
  | cons i is ih =>
    intro s s2 hl
    obtain ⟨s1, hb, hrest⟩ := forIndices_cons_ok hl
    obtain ⟨v, hv, hp⟩ := h i s s1 hb
    obtain ⟨vs, hlen, hget, hproj⟩ := ih s1 s2 hrest
    refine ⟨v :: vs, by simp [hlen], ?_, by simp [hproj, hp]⟩
    intro k j hk
    cases k with
    | zero =>
      simp at hk
      subst hk
      simp [hv]
    | succ k =>
      simp at hk
      simpa using hget k j hk

/-- A loop whose body appends `g i` to a list component appends `l.map g`. -/
theorem forIndices_append_map {σ α : Type} (body : Nat → σ → Except String σ)
    (proj : σ → List α) (g : Nat → α)
    (h : ∀ i s s2, body i s = .ok s2 → proj s2 = proj s ++ [g i]) :
    ∀ (l : List Nat) (s s2 : σ), forIndices body l s = .ok s2 →
      proj s2 = proj s ++ l.map g := by
  intro l
  induction l with
  | nil =>
    intro s s2 hl
    simp at hl
    subst hl
    simp
  | cons i is ih =>
    intro s s2 hl
    obtain ⟨s1, hb, hrest⟩ := forIndices_cons_ok hl
    rw [ih s1 s2 hrest, h i s s1 hb]
    simp

theorem evalFormal_ok_iff {env : Env} {tf : TypeFunction} {arguments : List Expression}
    {i : Nat} {v : DValue} :
    evalFormal env tf arguments i = .ok v ↔
      ∃ fnarg e, tf.parameters[i]? = some fnarg ∧ arguments[i]? = some e ∧
        v = env.DtoArgument (some fnarg) e := by
  unfold evalFormal
  cases hp : tf.parameters[i]? with
  | none => simp
  | some fnarg =>
    cases ha : arguments[i]? with
    | none => simp
    | some e =>
      constructor
      · intro h
        cases h
        exact ⟨fnarg, e, rfl, rfl, rfl⟩
      · rintro ⟨fnarg2, e2, h1, h2, hv⟩
        cases h1
        cases h2
        rw [hv]

/-- The evaluation of the formal arguments leaves, for an array operation as
for any other callee, the value of formal argument `i` at index `i`. -/
theorem buildArgvals_ok {env : Env} {tf : TypeFunction} {arguments : List Expression}
    {isArrayOp : Bool} {argvals : List DValue} {evals : List Event}
    (h : buildArgvals env tf arguments isArrayOp = .ok (argvals, evals)) :
    argvals.length = tf.parameters.length ∧
    (∀ i, i < tf.parameters.length →
      ∃ v, evalFormal env tf arguments i = .ok v ∧ argvals[i]? = some v) ∧
    evals = ((if isArrayOp then (List.range tf.parameters.length).reverse
              else List.range tf.parameters.length).map Event.evalArgument) := by
  unfold buildArgvals at h
  simp only at h
  cases isArrayOp with
  | true =>
    simp only [if_true] at h
    obtain ⟨vs, hlen, hget, hproj⟩ := forIndices_prepend _ (fun acc => acc.1)
      (fun i => (evalFormal env tf arguments i).toOption) (by
        intro i s s2 hb
        cases he : evalFormal env tf arguments i with
        | error e => simp [he] at hb
        | ok v =>
          simp only [he, Except.ok.injEq] at hb
          subst hb
          exact ⟨v, by simp [he, Except.toOption], rfl⟩) _ _ _ h
    have htr := forIndices_append_map _ (fun acc : List DValue × List Event => acc.2)
      Event.evalArgument (by
        intro i s s2 hb
        cases he : evalFormal env tf arguments i with
        | error e => simp [he] at hb
        | ok v =>
          simp only [he, Except.ok.injEq] at hb
          subst hb
          rfl) _ _ _ h
    simp only [List.append_nil] at hproj
    simp only [List.length_reverse, List.length_range] at hlen
    refine ⟨by simp [hproj, hlen], ?_, by simpa using htr⟩
    intro i hi
    have hk : (List.range tf.parameters.length).reverse[tf.parameters.length - 1 - i]? = some i := by
      rw [List.getElem?_reverse (by simp; omega)]
      simp only [List.length_range, List.getElem?_range]
      rw [List.getElem?_range (by omega)]
      congr 1
      omega
    have := hget _ _ hk
    have hvi : vs[tf.parameters.length - 1 - i]? ≠ none := by
      simp [List.getElem?_eq_none_iff, hlen]; omega
    cases he : evalFormal env tf arguments i with
    | error e => simp [he, Except.toOption] at this; omega
    | ok v =>
      refine ⟨v, rfl, ?_⟩
      simp only [he, Except.toOption] at this
      rw [hproj, List.getElem?_reverse (by omega), hlen, this]
  | false =>
    simp only [Bool.false_eq_true, if_false] at h
    obtain ⟨vs, hlen, hget, hproj⟩ := forIndices_append _ (fun acc => acc.1)
      (fun i => (evalFormal env tf arguments i).toOption) (by
        intro i s s2 hb
        cases he : evalFormal env tf arguments i with
        | error e => simp [he] at hb
        | ok v =>
          simp only [he, Except.ok.injEq] at hb
          subst hb
          exact ⟨v, by simp [he, Except.toOption], rfl⟩) _ _ _ h
    have htr := forIndices_append_map _ (fun acc : List DValue × List Event => acc.2)
      Event.evalArgument (by
        intro i s s2 hb
        cases he : evalFormal env tf arguments i with
        | error e => simp [he] at hb
        | ok v =>
          simp only [he, Except.ok.injEq] at hb
          subst hb
          rfl) _ _ _ h
    simp only [List.nil_append] at hproj
    simp only [List.length_range] at hlen
    refine ⟨by simp [hproj, hlen], ?_, by simpa using htr⟩
    intro i hi
    have hk : (List.range tf.parameters.length)[i]? = some i := by
      simp [List.getElem?_range, hi]
    have := hget _ _ hk
    cases he : evalFormal env tf arguments i with
    | error e =>
      simp only [he, Except.toOption] at this
      rw [List.getElem?_eq_none_iff] at this
      omega
    | ok v =>
      refine ⟨v, rfl, ?_⟩
      simp only [he, Except.toOption] at this
      rw [hproj, this]

theorem getElem?_isSome_of_lt {α : Type} {l : List α} {i : Nat} (h : i < l.length) :
    ∃ v, l[i]? = some v := ⟨l[i], List.getElem?_eq_getElem h⟩

/-- The loop "do formal params": one value and one attribute entry per formal
parameter, in source order. -/
theorem formalLoop_ok {env : Env} {tf : TypeFunction} {irFty : IrFuncTy}
    {callableTy : LLFunctionType} {arguments : List Expression} {argvals : List DValue}
    {beg : Nat} {st st2 : CallState}
    (hargvals : ∀ i, i < tf.parameters.length →
      ∃ v, evalFormal env tf arguments i = .ok v ∧ argvals[i]? = some v)
    (h : forIndices (formalParamStep env irFty callableTy argvals tf.parameters.length beg)
      (List.range tf.parameters.length) st = .ok st2) :
    ∃ (formals : List LLValue) (fattrs : List (Nat × AttrBuilder)),
      formals.length = tf.parameters.length ∧ fattrs.length = tf.parameters.length ∧
      (∀ i, i < tf.parameters.length → formals[i]? =
        marshalFormal env tf irFty callableTy arguments i
          (physIndex irFty tf.parameters.length beg i)) ∧
      (∀ i, i < tf.parameters.length →
        fattrs[i]? = formalAttrEntry irFty tf.parameters.length beg i) ∧
      st2.args = st.args ++ formals ∧ st2.attrs = st.attrs ++ fattrs ∧
      st2.argiter = st.argiter + tf.parameters.length ∧ st2.trace = st.trace := by
  have hstep : ∀ i s s2,
      formalParamStep env irFty callableTy argvals tf.parameters.length beg i s = .ok s2 →
      ∃ argval ty a, argvals[i]? = some argval ∧
        callableTy.getParamType (physIndex irFty tf.parameters.length beg i) = some ty ∧
        irFty.args[i]? = some a ∧
        s2 = { args := s.args ++ [fixArgument env argval irFty ty i],
               attrs := s.attrs ++ [(1 + physIndex irFty tf.parameters.length beg i, a.attrs)],
               argiter := s.argiter + 1, trace := s.trace } := by
    intro i s s2 hb
    unfold formalParamStep at hb
    cases h1 : argvals[i]? with
    | none => simp [h1] at hb
    | some argval =>
      simp only [h1] at hb
      cases h2 : callableTy.getParamType
          (beg + if irFty.reverseParams = true then tf.parameters.length - i - 1 else i) with
      | none => simp [h2] at hb
      | some ty =>
        simp only [h2] at hb
        cases h3 : irFty.args[i]? with
        | none => simp [h3] at hb
        | some a =>
          simp only [h3, Except.ok.injEq] at hb
          refine ⟨argval, ty, a, rfl, h2, rfl, ?_⟩
          rw [← hb]
          simp [CallState.push_back, CallState.incArgiter, addToAttributes, physIndex]
          omega
  obtain ⟨formals, hlen, hget, hargs⟩ := forIndices_append _ (fun s => s.args)
    (fun i => (argvals[i]?).bind (fun argval =>
      (callableTy.getParamType (physIndex irFty tf.parameters.length beg i)).map
        (fun ty => fixArgument env argval irFty ty i))) (by
      intro i s s2 hb
      obtain ⟨argval, ty, a, h1, h2, h3, hs⟩ := hstep i s s2 hb
      exact ⟨fixArgument env argval irFty ty i, by simp [h1, h2], by rw [hs]⟩) _ _ _ h
  obtain ⟨fattrs, hlen2, hget2, hattrs⟩ := forIndices_append _ (fun s => s.attrs)
    (fun i => formalAttrEntry irFty tf.parameters.length beg i) (by
      intro i s s2 hb
      obtain ⟨argval, ty, a, h1, h2, h3, hs⟩ := hstep i s s2 hb
      exact ⟨(1 + physIndex irFty tf.parameters.length beg i, a.attrs),
        by simp [formalAttrEntry, h3], by rw [hs]⟩) _ _ _ h
  have hiter := forIndices_count _ (fun s => s.argiter) (by
      intro i s s2 hb
      obtain ⟨argval, ty, a, h1, h2, h3, hs⟩ := hstep i s s2 hb
      rw [hs]) _ _ _ h
  have htrace := forIndices_keep _ (fun s => s.trace) (by
      intro i s s2 hb
      obtain ⟨argval, ty, a, h1, h2, h3, hs⟩ := hstep i s s2 hb
      rw [hs]) _ _ _ h
  simp only [List.length_range] at hlen hlen2 hiter
  refine ⟨formals, fattrs, hlen, hlen2, ?_, ?_, hargs, hattrs, hiter, htrace⟩
  · intro i hi
    have hk : (List.range tf.parameters.length)[i]? = some i := by
      simp [List.getElem?_range, hi]
    rw [hget i i hk]
    obtain ⟨v, hev, hav⟩ := hargvals i hi
    obtain ⟨fnarg, e, hp, he, hv⟩ := evalFormal_ok_iff.mp hev
    simp only [hav, Option.bind_some, marshalFormal, hp, he]
    cases callableTy.getParamType (physIndex irFty tf.parameters.length beg i) with
    | none => rfl
    | some ty => simp [hv]
  · intro i hi
    have hk : (List.range tf.parameters.length)[i]? = some i := by
      simp [List.getElem?_range, hi]
    exact hget2 i i hk

/-- The loop "do C varargs": one value and one attribute entry per trailing
argument, in source order. -/
theorem cVarargLoop_ok {env : Env} {arguments : List Expression} {beg n k : Nat}
    {st st2 : CallState}
    (h : forIndices (cVarargStep env arguments beg) (List.range' n k) st = .ok st2) :
    ∃ (vs : List LLValue) (vattrs : List (Nat × AttrBuilder)),
      vs.length = k ∧ vattrs.length = k ∧
      (∀ p, p < k → vs[p]? = marshalVariadic env arguments (n + p)) ∧
      (∀ p, p < k → vattrs[p]? = variadicAttrEntry env arguments beg (n + p)) ∧
      st2.args = st.args ++ vs ∧ st2.attrs = st.attrs ++ vattrs ∧
      st2.argiter = st.argiter + k ∧
      st2.trace = st.trace ++ (List.range' n k).map Event.evalArgument := by
  have hstep : ∀ i s s2, cVarargStep env arguments beg i s = .ok s2 →
      ∃ e, arguments[i]? = some e ∧
        s2 = { args := s.args ++ [(fixOptionalArgument env (env.DtoArgument none e)).1],
               attrs := s.attrs ++
                 [(1 + (beg + i), (fixOptionalArgument env (env.DtoArgument none e)).2)],
               argiter := s.argiter + 1, trace := s.trace ++ [.evalArgument i] } := by
    intro i s s2 hb
    unfold cVarargStep at hb
    cases h1 : arguments[i]? with
    | none => simp [h1] at hb
    | some e =>
      simp only [h1, Except.ok.injEq] at hb
      refine ⟨e, rfl, ?_⟩
      rw [← hb]
      simp [CallState.push_back, CallState.incArgiter, addToAttributes, CallState.emit]
      omega
  obtain ⟨vs, hlen, hget, hargs⟩ := forIndices_append _ (fun s => s.args)
    (fun i => marshalVariadic env arguments i) (by
      intro i s s2 hb
      obtain ⟨e, h1, hs⟩ := hstep i s s2 hb
      exact ⟨(fixOptionalArgument env (env.DtoArgument none e)).1,
        by simp [marshalVariadic, h1], by rw [hs]⟩) _ _ _ h
  obtain ⟨vattrs, hlen2, hget2, hattrs⟩ := forIndices_append _ (fun s => s.attrs)
    (fun i => variadicAttrEntry env arguments beg i) (by
      intro i s s2 hb
      obtain ⟨e, h1, hs⟩ := hstep i s s2 hb
      exact ⟨(1 + (beg + i), (fixOptionalArgument env (env.DtoArgument none e)).2),
        by simp [variadicAttrEntry, variadicAttrs, h1], by rw [hs]⟩) _ _ _ h
  have hiter := forIndices_count _ (fun s => s.argiter) (by
      intro i s s2 hb
      obtain ⟨e, h1, hs⟩ := hstep i s s2 hb
      rw [hs]) _ _ _ h
  have htrace := forIndices_append_map _ (fun s => s.trace) Event.evalArgument (by
      intro i s s2 hb
      obtain ⟨e, h1, hs⟩ := hstep i s s2 hb
      rw [hs]) _ _ _ h
  simp only [List.length_range'] at hlen hlen2 hiter
  refine ⟨vs, vattrs, hlen, hlen2, ?_, ?_, hargs, hattrs, hiter, htrace⟩
  · intro p hp
    exact hget p (n + p) (by simp [List.getElem?_range', hp])
  · intro p hp
    exact hget2 p (n + p) (by simp [List.getElem?_range', hp])

/-- The loop for variadic intrinsics: one cast address per argument, in source
order, and no attribute. -/
theorem vaIntrinsicArguments_ok {env : Env} {arguments : List Expression}
    {st st2 : CallState} (h : vaIntrinsicArguments env arguments st = .ok st2) :
    ∃ vs : List LLValue, vs.length = arguments.length ∧
      (∀ i, i < arguments.length → vs[i]? = marshalVaIntrinsic env arguments i) ∧
      st2.args = st.args ++ vs ∧ st2.attrs = st.attrs ∧
      st2.argiter = st.argiter + arguments.length ∧
      st2.trace = st.trace ++ (List.range arguments.length).map Event.evalArgument := by
  unfold vaIntrinsicArguments at h
  have hstep : ∀ i s s2, vaIntrinsicStep env arguments i s = .ok s2 →
      ∃ e, arguments[i]? = some e ∧
        s2 = { args := s.args ++ [DtoBitCast (env.toElem e).getLVal getVoidPtrType],
               attrs := s.attrs, argiter := s.argiter + 1,
               trace := s.trace ++ [.evalArgument i] } := by
    intro i s s2 hb
    unfold vaIntrinsicStep at hb
    cases h1 : arguments[i]? with
    | none => simp [h1] at hb
    | some e =>
      simp only [h1, Except.ok.injEq] at hb
      refine ⟨e, rfl, ?_⟩
      rw [← hb]
      simp [CallState.push_back, CallState.incArgiter, CallState.emit]
  obtain ⟨vs, hlen, hget, hargs⟩ := forIndices_append _ (fun s => s.args)
    (fun i => marshalVaIntrinsic env arguments i) (by
      intro i s s2 hb
      obtain ⟨e, h1, hs⟩ := hstep i s s2 hb
      exact ⟨DtoBitCast (env.toElem e).getLVal getVoidPtrType,
        by simp [marshalVaIntrinsic, h1], by rw [hs]⟩) _ _ _ h
  have hattrs := forIndices_keep _ (fun s => s.attrs) (by
      intro i s s2 hb
      obtain ⟨e, h1, hs⟩ := hstep i s s2 hb
      rw [hs]) _ _ _ h
  have hiter := forIndices_count _ (fun s => s.argiter) (by
      intro i s s2 hb
      obtain ⟨e, h1, hs⟩ := hstep i s s2 hb
      rw [hs]) _ _ _ h
  have htrace := forIndices_append_map _ (fun s => s.trace) Event.evalArgument (by
      intro i s s2 hb
      obtain ⟨e, h1, hs⟩ := hstep i s s2 hb
      rw [hs]) _ _ _ h
  simp only [List.length_range] at hlen hiter
  refine ⟨vs, hlen, ?_, hargs, hattrs, hiter, htrace⟩
  intro i hi
  exact hget i i (by simp [List.getElem?_range, hi])

theorem reverseFrom_append (l m : List LLValue) :
    reverseFrom l.length (l ++ m) = l ++ m.reverse := by
  simp [reverseFrom]

theorem dvarargsArgument_ok {env : Env} {tf : TypeFunction} {irFty : IrFuncTy}
    {arguments : List Expression} {st st2 : CallState}
    (h : dvarargsArgument env tf irFty arguments st = .ok st2) :
    st2.args = st.args ++ (if dvarargs tf then [DtoLoad (typeinfoArrayParam env tf arguments)]
                           else []) ∧
    st2.argiter = st.argiter + tiCount tf ∧ st2.trace = st.trace ∧
    st2.attrs = st.attrs ++
      (if dvarargs tf then
        match irFty.arg_arguments.filter (fun a => HAS_ATTRIBUTES a.attrs) with
        | some a => [(1 + st.argiter, a.attrs)]
        | none => []
       else []) := by
  unfold dvarargsArgument at h
  by_cases hd : dvarargs tf = true
  · simp only [hd, if_true, bind, Except.bind, addTypeinfoArrayArgumentForDVarArg] at h
    cases ha : irFty.arg_arguments with
    | none => simp [ha] at h
    | some a =>
      simp only [ha] at h
      by_cases hh : HAS_ATTRIBUTES a.attrs = true
      · simp only [hh, if_true, pure, Except.pure, Except.ok.injEq] at h
        subst h
        simp [hd, tiCount, CallState.push_back, CallState.incArgiter, addToAttributes,
          Option.filter, hh, Nat.add_comm]
      · simp only [Bool.not_eq_true] at hh
        simp only [hh, Bool.false_eq_true, if_false, pure, Except.pure, Except.ok.injEq] at h
        subst h
        simp [hd, tiCount, CallState.push_back, CallState.incArgiter, Option.filter, hh]
  · simp only [hd] at h
    cases h
    simp [hd, tiCount]

/-- The explicit arguments of a normal call: the formals (reversed as a block
under `reverseParams`), then the trailing variadic arguments. -/
theorem explicitArguments_ok {env : Env} {dfnval : Option DFuncValue} {tf : TypeFunction}
    {irFty : IrFuncTy} {callableTy : LLFunctionType} {arguments : List Expression}
    {st st2 : CallState}
    (hbeg : st.argiter = st.args.length)
    (h : explicitArguments env dfnval tf irFty callableTy arguments st = .ok st2) :
    tf.parameters.length ≤ arguments.length ∧
    ∃ (formals vs : List LLValue) (fattrs vattrs : List (Nat × AttrBuilder))
      (isArrayOp : Bool),
      calleeIsArrayOp dfnval = .ok isArrayOp ∧
      formals.length = tf.parameters.length ∧ fattrs.length = tf.parameters.length ∧
      vs.length = arguments.length - tf.parameters.length ∧
      vattrs.length = arguments.length - tf.parameters.length ∧
      (∀ i, i < tf.parameters.length → formals[i]? =
        marshalFormal env tf irFty callableTy arguments i
          (physIndex irFty tf.parameters.length st.args.length i)) ∧
      (∀ i, i < tf.parameters.length →
        fattrs[i]? = formalAttrEntry irFty tf.parameters.length st.args.length i) ∧
      (∀ p, p < arguments.length - tf.parameters.length →
        vs[p]? = marshalVariadic env arguments (tf.parameters.length + p)) ∧
      (∀ p, p < arguments.length - tf.parameters.length →
        vattrs[p]? =
          variadicAttrEntry env arguments st.args.length (tf.parameters.length + p)) ∧
      st2.args = st.args ++ (if irFty.reverseParams then formals.reverse else formals) ++ vs ∧
      st2.attrs = st.attrs ++ fattrs ++ vattrs ∧
      st2.argiter = st.argiter + arguments.length ∧
      st2.trace = st.trace ++
        (formalEvalOrder isArrayOp tf.parameters.length).map Event.evalArgument ++
        (List.range' tf.parameters.length
          (arguments.length - tf.parameters.length)).map Event.evalArgument := by
  simp only [explicitArguments, bind, Except.bind] at h
  cases hao : calleeIsArrayOp dfnval with
  | error e => simp [hao] at h
  | ok isArrayOp =>
  simp only [hao] at h
  cases hbv : buildArgvals env tf arguments isArrayOp with
  | error e => simp [hbv] at h
  | ok p =>
  obtain ⟨argvals, evals⟩ := p
  simp only [hbv] at h
  obtain ⟨halen, hargvals, hevals⟩ := buildArgvals_ok hbv
  have hle : tf.parameters.length ≤ arguments.length := by
    by_contra hcon
    have hpos : arguments.length < tf.parameters.length := by omega
    obtain ⟨v, hev, _⟩ := hargvals arguments.length hpos
    obtain ⟨fnarg, e, _, he, _⟩ := evalFormal_ok_iff.mp hev
    simp at he
  refine ⟨hle, ?_⟩
  cases hfl : forIndices (formalParamStep env irFty callableTy argvals tf.parameters.length
      st.argiter) (List.range tf.parameters.length)
      { st with trace := st.trace ++ evals } with
  | error e => simp [hfl] at h
  | ok st3 =>
  simp only [hfl] at h
  obtain ⟨formals, fattrs, hfl1, hfl2, hfget, hfaget, hfargs, hfattrs, hfiter, hftrace⟩ :=
    @formalLoop_ok env tf irFty callableTy arguments argvals st.argiter _ st3 hargvals hfl
  simp only at hfargs hfattrs hfiter hftrace
  rw [hbeg] at hfget hfaget
  have hrev : (if irFty.reverseParams = true then
        ({ st3 with args := reverseFrom st.argiter st3.args } : CallState) else st3).args =
      st.args ++ (if irFty.reverseParams then formals.reverse else formals) := by
    by_cases hr : irFty.reverseParams = true
    · simp only [hr, if_true, hfargs, hbeg, reverseFrom_append]
    · simp only [Bool.not_eq_true] at hr
      simp [hr, hfargs]
  by_cases hgt : arguments.length > tf.parameters.length
  · simp only [hgt, if_true] at h
    obtain ⟨vs, vattrs, hv1, hv2, hvget, hvaget, hvargs, hvattrs, hviter, hvtrace⟩ :=
      cVarargLoop_ok h
    rw [hbeg] at hvaget
    refine ⟨formals, vs, fattrs, vattrs, isArrayOp, rfl, hfl1, hfl2, hv1, hv2, hfget, hfaget,
      hvget, hvaget, ?_, ?_, ?_, ?_⟩
    · rw [hvargs, hrev]
    · rw [hvattrs]
      split <;> simp [hfattrs]
    · rw [hviter]
      have : (if irFty.reverseParams = true then
          ({ st3 with args := reverseFrom st.argiter st3.args } : CallState)
          else st3).argiter = st3.argiter := by split <;> rfl
      rw [this, hfiter]
      omega
    · rw [hvtrace]
      have : (if irFty.reverseParams = true then
          ({ st3 with args := reverseFrom st.argiter st3.args } : CallState)
          else st3).trace = st3.trace := by split <;> rfl
      rw [this, hftrace, hevals]
      rfl
  · simp only [hgt, if_false, pure, Except.pure, Except.ok.injEq] at h
    have hz : arguments.length - tf.parameters.length = 0 := by omega
    refine ⟨formals, [], fattrs, [], isArrayOp, rfl, hfl1, hfl2, by simp [hz], by simp [hz],
      hfget, hfaget, ?_, ?_, ?_, ?_, ?_, ?_⟩
    · intro p hp; omega
    · intro p hp; omega
    · rw [← h, hrev]; simp
    · rw [← h]
      split <;> simp [hfattrs]
    · rw [← h]
      have : (if irFty.reverseParams = true then
          ({ st3 with args := reverseFrom st.argiter st3.args } : CallState)
          else st3).argiter = st3.argiter := by split <;> rfl
      rw [this, hfiter]
      omega
    · rw [← h]
      have : (if irFty.reverseParams = true then
          ({ st3 with args := reverseFrom st.argiter st3.args } : CallState)
          else st3).trace = st3.trace := by split <;> rfl
      rw [this, hftrace, hevals, hz]
      simp [formalEvalOrder]

/-- The layout of the physical arguments and of the attribute entries of a call
that is not a variadic intrinsic. -/
theorem marshalArguments_normal {env : Env} {resulttype : Option DType} {fnval : DValue}
    {arguments : List Expression} {retvar : Option LLValue} {irFty : IrFuncTy}
    {tf : TypeFunction} {callableTy : LLFunctionType} {st : CallState}
    (h : marshalArguments env resulttype fnval arguments retvar irFty tf callableTy false
      = .ok st) :
    tf.parameters.length ≤ arguments.length ∧
    ∃ (hidden ctx formals vs : List LLValue) (fattrs vattrs : List (Nat × AttrBuilder))
      (isArrayOp : Bool) (st1 : CallState),
      implicitArguments env resulttype fnval retvar irFty callableTy = .ok st1 ∧
      st1.args = hidden ++ ctx ∧
      calleeIsArrayOp fnval.isFunc = .ok isArrayOp ∧
      hidden.length = sretCount irFty ∧ ctx.length = ctxCount env fnval irFty ∧
      formals.length = tf.parameters.length ∧ fattrs.length = tf.parameters.length ∧
      vs.length = arguments.length - tf.parameters.length ∧
      vattrs.length = arguments.length - tf.parameters.length ∧
      (∀ v, retvar = some v → irFty.arg_sret.isSome → hidden = [v] ∧ st1.trace = []) ∧
      (needsContext env fnval irFty = true →
        ∃ c, contextValue env fnval irFty callableTy (sretCount irFty) = .ok c ∧ ctx = [c]) ∧
      (∀ i, i < tf.parameters.length → formals[i]? =
        marshalFormal env tf irFty callableTy arguments i
          (physIndex irFty tf.parameters.length (implicitCount env fnval irFty tf) i)) ∧
      (∀ i, i < tf.parameters.length → fattrs[i]? =
        formalAttrEntry irFty tf.parameters.length (implicitCount env fnval irFty tf) i) ∧
      (∀ p, p < arguments.length - tf.parameters.length →
        vs[p]? = marshalVariadic env arguments (tf.parameters.length + p)) ∧
      (∀ p, p < arguments.length - tf.parameters.length → vattrs[p]? =
        variadicAttrEntry env arguments (implicitCount env fnval irFty tf)
          (tf.parameters.length + p)) ∧
      st.args = hidden ++ ctx ++
        (if dvarargs tf then [DtoLoad (typeinfoArrayParam env tf arguments)] else []) ++
        (if irFty.reverseParams then formals.reverse else formals) ++ vs ∧
      st.attrs = retAttrList irFty ++ sretAttrList irFty ++ ctxAttrList env fnval irFty ++
        tiAttrList env fnval irFty tf ++ fattrs ++ vattrs ∧
      st.trace = st1.trace ++
        (formalEvalOrder isArrayOp tf.parameters.length).map Event.evalArgument ++
        (List.range' tf.parameters.length
          (arguments.length - tf.parameters.length)).map Event.evalArgument := by
  simp only [marshalArguments, bind, Except.bind, Bool.false_eq_true, if_false] at h
  cases hi : implicitArguments env resulttype fnval retvar irFty callableTy with
  | error e => simp [hi] at h
  | ok st1 =>
  simp only [hi, normalArguments, bind, Except.bind] at h
  cases hd : dvarargsArgument env tf irFty arguments st1 with
  | error e => simp [hd] at h
  | ok st2 =>
  simp only [hd] at h
  obtain ⟨hidden, ctx, hargs1, hiter1, hhl, hcl, hret, hctx, hattrs1⟩ := implicitArguments_ok hi
  obtain ⟨hargs2, hiter2, htrace2, hattrs2⟩ := dvarargsArgument_ok hd
  have hlen1 : st1.args.length = sretCount irFty + ctxCount env fnval irFty := by
    rw [hargs1]; simp [hhl, hcl]
  have hlen2 : st2.args.length = implicitCount env fnval irFty tf := by
    rw [hargs2, implicitCount]
    simp only [List.length_append, hlen1, tiCount]
    split <;> simp
  have hbeg : st2.argiter = st2.args.length := by
    rw [hiter2, hiter1, hlen2, hlen1, implicitCount]
  obtain ⟨hle, formals, vs, fattrs, vattrs, isArrayOp, hao, hfl, hfal, hvl, hval, hfget,
    hfaget, hvget, hvaget, hargs, hattrs, _, htrace⟩ := explicitArguments_ok hbeg h
  rw [hlen2] at hfget hfaget hvaget
  refine ⟨hle, hidden, ctx, formals, vs, fattrs, vattrs, isArrayOp, st1, rfl, hargs1, hao, hhl,
    hcl, hfl, hfal, hvl, hval, hret, hctx, hfget, hfaget, hvget, hvaget, ?_, ?_, ?_⟩
  · rw [hargs, hargs2, hargs1]
  · rw [hattrs, hattrs2, hattrs1, hiter1, hlen1]
    simp only [tiAttrList]
  · rw [htrace, htrace2]

/-- The layout of the physical arguments and of the attribute entries of a call
to a variadic intrinsic. -/
theorem marshalArguments_vaIntrinsic {env : Env} {resulttype : Option DType} {fnval : DValue}
    {arguments : List Expression} {retvar : Option LLValue} {irFty : IrFuncTy}
    {tf : TypeFunction} {callableTy : LLFunctionType} {st : CallState}
    (h : marshalArguments env resulttype fnval arguments retvar irFty tf callableTy true
      = .ok st) :
    ∃ (hidden ctx vs : List LLValue) (st1 : CallState),
      implicitArguments env resulttype fnval retvar irFty callableTy = .ok st1 ∧
      st1.args = hidden ++ ctx ∧
      hidden.length = sretCount irFty ∧ ctx.length = ctxCount env fnval irFty ∧
      vs.length = arguments.length ∧
      (∀ v, retvar = some v → irFty.arg_sret.isSome → hidden = [v] ∧ st1.trace = []) ∧
      (needsContext env fnval irFty = true →
        ∃ c, contextValue env fnval irFty callableTy (sretCount irFty) = .ok c ∧ ctx = [c]) ∧
      (∀ i, i < arguments.length → vs[i]? = marshalVaIntrinsic env arguments i) ∧
      st.args = hidden ++ ctx ++ vs ∧
      st.attrs = retAttrList irFty ++ sretAttrList irFty ++ ctxAttrList env fnval irFty ∧
      st.trace = st1.trace ++ (List.range arguments.length).map Event.evalArgument := by
  simp only [marshalArguments, bind, Except.bind, if_true] at h
  cases hi : implicitArguments env resulttype fnval retvar irFty callableTy with
  | error e => simp [hi] at h
  | ok st1 =>
  simp only [hi] at h
  obtain ⟨hidden, ctx, hargs1, hiter1, hhl, hcl, hret, hctx, hattrs1⟩ := implicitArguments_ok hi
  obtain ⟨vs, hvl, hvget, hargs, hattrs, _, htrace⟩ := vaIntrinsicArguments_ok h
  exact ⟨hidden, ctx, vs, st1, rfl, hargs1, hhl, hcl, hvl, hret, hctx, hvget,
    by rw [hargs, hargs1], by rw [hattrs, hattrs1], htrace⟩

/-- The result of the lowering after the ABI return fixup state `rs0`: the
materialization, the repaint and the choice of `DVarValue` or `DImValue`. -/
theorem DtoCallFunction_ok {env : Env} {resulttype : Option DType} {fnval : DValue}
    {arguments : List Expression} {retvar : Option LLValue} {irFty : IrFuncTy}
    {tf : TypeFunction} {callableTy : LLFunctionType} {r : CallOutput}
    (hres : Resolves env fnval irFty tf callableTy)
    (h : DtoCallFunction env resulttype fnval arguments retvar = .ok r) :
    ∃ (st : CallState) (rs0 : RetState) (callable : LLValue) (varname : String),
      marshalArguments env resulttype fnval arguments retvar irFty tf callableTy
        (calleeIsVaIntrinsic env fnval) = .ok st ∧
      abiReturnValue env irFty tf callableTy (calleeIsIntrinsic fnval) st.args
        (st.trace ++ [.call callable st.args varname]) = .ok rs0 ∧
      r.args = st.args ∧ r.attrs = st.attrs ∧ r.callable = callable ∧
      r.trace = (repaintResult env tf resulttype (materializeAggregate env tf rs0)).trace ∧
      r.result =
        (if (repaintResult env tf resulttype (materializeAggregate env tf rs0)).retinptr
            || tf.isref then
          LoweredResult.DVarValue resulttype
            (repaintResult env tf resulttype (materializeAggregate env tf rs0)).retllval
         else
          LoweredResult.DImValue resulttype
            (repaintResult env tf resulttype (materializeAggregate env tf rs0)).retllval) ∧
      DtoCallableValue env fnval = .ok callable ∧
      (r.attrlist = AttrList.computed st.attrs ∨ ∃ id, r.attrlist = AttrList.intrinsic id) := by
  obtain ⟨h1, h2, callable, h3, h4⟩ := hres
  simp only [DtoCallFunction, h1, h2, h3, h4, bind, Except.bind] at h
  cases hm : marshalArguments env resulttype fnval arguments retvar irFty tf callableTy
      (calleeIsVaIntrinsic env fnval) with
  | error e => simp [hm] at h
  | ok st =>
  simp only [hm] at h
  split at h
  · cases h
  next rs0 ha =>
  simp only [pure, Except.pure, Except.ok.injEq] at h
  refine ⟨st, rs0, callable, _, rfl, ha, ?_⟩
  rw [← h]
  refine ⟨rfl, rfl, rfl, rfl, ?_, h3, ?_⟩
  · simp
  · simp only
    cases fnval.isFunc.bind (fun d => d.func.map (fun _ => d.val)) with
    | none => exact Or.inl rfl
    | some val =>
      simp only
      cases hid : env.llvmIntrinsicID val with
      | none => exact Or.inl rfl
      | some id => exact Or.inr ⟨id, rfl⟩


/-- C1: a call that is lowered without a fatal error and has at least as many
explicit arguments as declared formal parameters hands the emitted call
(1 if hidden return) + (1 if this-call, delegate call or nested call) +
(1 if D linkage with `varargs == 1` and not a va-intrinsic) + (number of explicit
arguments) physical arguments. -/
theorem C1_physical_argument_count (env : Env) (resulttype : Option DType) (fnval : DValue)
    (arguments : List Expression) (retvar : Option LLValue) (irFty : IrFuncTy)
    (tf : TypeFunction) (callableTy : LLFunctionType) (r : CallOutput)
    (hres : Resolves env fnval irFty tf callableTy)
    (hok : DtoCallFunction env resulttype fnval arguments retvar = .ok r)
    (hn : tf.parameters.length ≤ arguments.length) :
    r.args.length =
      (if irFty.arg_sret.isSome then 1 else 0) +
      (if needsContext env fnval irFty then 1 else 0) +
      (if dvarargs tf && !calleeIsVaIntrinsic env fnval then 1 else 0) +
      arguments.length := by
  obtain ⟨st, rs0, callable, varname, hm, _, hargs, _⟩ := DtoCallFunction_ok hres hok
  rw [hargs]
  cases hva : calleeIsVaIntrinsic env fnval with
  | true =>
    rw [hva] at hm
    obtain ⟨hidden, ctx, vs, st1, _, _, hhl, hcl, hvl, _, _, _, hst, _⟩ :=
      marshalArguments_vaIntrinsic hm
    rw [hst]
    simp [hhl, hcl, hvl, sretCount, ctxCount]
    omega
  | false =>
    rw [hva] at hm
    obtain ⟨_, hidden, ctx, formals, vs, fattrs, vattrs, isArrayOp, st1, _, _, _, hhl, hcl,
      hfl, _, hvl, _, _, _, _, _, _, _, hst, _⟩ := marshalArguments_normal hm
    rw [hst]
    have hf : (if irFty.reverseParams = true then formals.reverse else formals).length
        = tf.parameters.length := by split <;> simp [hfl]
    have ht : (if dvarargs tf = true then [DtoLoad (typeinfoArrayParam env tf arguments)]
        else []).length = (if dvarargs tf = true then 1 else 0) := by split <;> simp
    simp only [List.length_append, hhl, hcl, hvl, hf, ht, sretCount, ctxCount,
      Bool.not_false, Bool.and_true]
    omega

/-- C1 on the call `obj.foo(3, 4, 5)` of the D-variadic method: hidden return, context, type-descriptor array and three explicit arguments. -/
theorem C1_physical_argument_count_witness :
    variadicMethodCall = .ok (outputOf variadicMethodCall) ∧
    (outputOf variadicMethodCall).args.length = 1 + 1 + 1 + 3 :=
  ⟨by rfl,
   C1_physical_argument_count (exampleEnv variadicMethodTf variadicMethodIrFty) (some tStruct)
     (declCallee fooDecl (some (.value 600 (.ptr (.named 9)))) variadicMethodTy)
     [intExp 3, intExp 4, intExp 5] none variadicMethodIrFty variadicMethodTf
     ⟨.void, [.ptr (.named 2), .ptr (.named 3), .named 2050, .named 1], true⟩
     (outputOf variadicMethodCall)
     ⟨by rfl, by rfl, .value 500 variadicMethodTy, by rfl, by rfl⟩ (by rfl) (by decide)⟩

/-- C2, as stated, fails: under `reverseParams` the call `f(3, 4)` of a
function with no hidden return, no context and no variadics has two physical
arguments, but entry 0 is the value of explicit argument 1, not the marshalled
value of explicit argument 0. -/
theorem C2_source_order_counterexample :
    twoIntCall true = .ok (outputOf (twoIntCall true)) ∧
    (twoIntIrFty true).arg_sret = none ∧
    needsContext (exampleEnv twoIntTf (twoIntIrFty true)) (plainCallee twoIntTy)
      (twoIntIrFty true) = false ∧
    twoIntTf.varargs = 0 ∧
    (outputOf (twoIntCall true)).args = [.value 4 (.named 1), .value 3 (.named 1)] ∧
    marshalExplicit (exampleEnv twoIntTf (twoIntIrFty true)) (plainCallee twoIntTy) twoIntTf
      (twoIntIrFty true) twoIntFty [intExp 3, intExp 4] 0 0 = some (.value 3 (.named 1)) ∧
    (outputOf (twoIntCall true)).args[0]? ≠
      marshalExplicit (exampleEnv twoIntTf (twoIntIrFty true)) (plainCallee twoIntTy) twoIntTf
        (twoIntIrFty true) twoIntFty [intExp 3, intExp 4] 0 0 := by
  refine ⟨by rfl, by rfl, by rfl, by rfl, by rfl, by rfl, ?_⟩
  decide

/-- C2, amended: a call with no hidden return, no context, no variadics and no
`reverseParams` has exactly as many physical arguments as explicit arguments,
and entry `i` is the marshalled value of explicit argument `i`. -/
theorem C2_source_order (env : Env) (resulttype : Option DType) (fnval : DValue)
    (arguments : List Expression) (retvar : Option LLValue) (irFty : IrFuncTy)
    (tf : TypeFunction) (callableTy : LLFunctionType) (r : CallOutput)
    (hres : Resolves env fnval irFty tf callableTy)
    (hok : DtoCallFunction env resulttype fnval arguments retvar = .ok r)
    (hsret : irFty.arg_sret = none) (hctx : needsContext env fnval irFty = false)
    (hvar : tf.varargs = 0) (hrev : irFty.reverseParams = false) :
    r.args.length = arguments.length ∧
    ∀ i, i < arguments.length →
      ∃ v, marshalExplicit env fnval tf irFty callableTy arguments 0 i = some v ∧
        r.args[i]? = some v := by
  obtain ⟨st, rs0, callable, varname, hm, _, hargs, _⟩ := DtoCallFunction_ok hres hok
  rw [hargs]
  have hs0 : sretCount irFty = 0 := by simp [sretCount, hsret]
  have hc0 : ctxCount env fnval irFty = 0 := by simp [ctxCount, hctx]
  have hd : dvarargs tf = false := by simp [dvarargs, hvar]
  cases hva : calleeIsVaIntrinsic env fnval with
  | true =>
    rw [hva] at hm
    obtain ⟨hidden, ctx, vs, st1, _, _, hhl, hcl, hvl, _, _, hvget, hst, _⟩ :=
      marshalArguments_vaIntrinsic hm
    rw [hs0] at hhl
    rw [hc0] at hcl
    have hh : hidden = [] := List.length_eq_zero.mp hhl
    have hc : ctx = [] := List.length_eq_zero.mp hcl
    subst hh hc
    simp only [List.nil_append] at hst
    rw [hst]
    refine ⟨hvl, ?_⟩
    intro i hi
    obtain ⟨v, hv⟩ := getElem?_isSome_of_lt (l := vs) (by omega : i < vs.length)
    exact ⟨v, by simp only [marshalExplicit, hva, if_true]; rw [← hvget i hi, hv], hv⟩
  | false =>
    rw [hva] at hm
    obtain ⟨hle, hidden, ctx, formals, vs, fattrs, vattrs, isArrayOp, st1, _, _, _, hhl, hcl,
      hfl, _, hvl, _, _, _, hfget, _, hvget, _, hst, _⟩ := marshalArguments_normal hm
    rw [hs0] at hhl
    rw [hc0] at hcl
    have hh : hidden = [] := List.length_eq_zero.mp hhl
    have hc : ctx = [] := List.length_eq_zero.mp hcl
    subst hh hc
    simp only [List.nil_append, hd, hrev, Bool.false_eq_true, if_false, List.append_nil] at hst
    have hic : implicitCount env fnval irFty tf = 0 := by
      simp [implicitCount, hs0, hc0, tiCount, hd]
    rw [hst]
    refine ⟨by simp [hfl, hvl]; omega, ?_⟩
    intro i hi
    by_cases hin : i < tf.parameters.length
    · obtain ⟨v, hv⟩ := getElem?_isSome_of_lt (l := formals) (by omega : i < formals.length)
      refine ⟨v, ?_, ?_⟩
      · simp only [marshalExplicit, hva, Bool.false_eq_true, if_false, hin, if_true]
        have := hfget i hin
        rw [hic] at this
        simp only [physIndex, hrev, Bool.false_eq_true, if_false] at this
        rw [← this, hv]
      · rw [List.getElem?_append_left (by omega), hv]
    · obtain ⟨v, hv⟩ := getElem?_isSome_of_lt (l := vs)
        (by omega : i - tf.parameters.length < vs.length)
      refine ⟨v, ?_, ?_⟩
      · simp only [marshalExplicit, hva, Bool.false_eq_true, if_false, hin]
        have := hvget (i - tf.parameters.length) (by omega)
        rw [show tf.parameters.length + (i - tf.parameters.length) = i by omega] at this
        rw [← this, hv]
      · rw [List.getElem?_append_right (by omega), hfl, hv]

/-- C2 (amended) on the call `f(3, 4)` without `reverseParams`: the physical arguments are `[3, 4]`. -/
theorem C2_source_order_witness :
    twoIntCall false = .ok (outputOf (twoIntCall false)) ∧
    (outputOf (twoIntCall false)).args.length = 2 ∧
    (outputOf (twoIntCall false)).args = [.value 3 (.named 1), .value 4 (.named 1)] :=
  ⟨by rfl,
   (C2_source_order (exampleEnv twoIntTf (twoIntIrFty false)) (some tInt)
     (plainCallee twoIntTy) [intExp 3, intExp 4] none (twoIntIrFty false) twoIntTf twoIntFty
     (outputOf (twoIntCall false))
     ⟨by rfl, by rfl, .value 500 twoIntTy, by rfl, by rfl⟩ (by rfl) (by rfl) (by rfl) (by rfl)
     (by rfl)).1,
   by rfl⟩

theorem getElem?_append_mid {α : Type} (A B C : List α) {m p : Nat} (hm : A.length = m)
    (hp : p < B.length) : (A ++ B ++ C)[m + p]? = B[p]? := by
  subst hm
  rw [List.getElem?_append_left (by simp; omega), List.getElem?_append_right (by omega)]
  simp

theorem getElem?_append_last {α : Type} (A B C : List α) {m n p : Nat} (hm : A.length = m)
    (hn : B.length = n) : (A ++ B ++ C)[m + n + p]? = C[p]? := by
  subst hm hn
  rw [List.getElem?_append_right (by simp)]
  simp

/-- Positions in the physical argument list of a call that is not a variadic
intrinsic, with `m = implicitCount`: the implicit arguments occupy `0..m-1` in
push order, formal `i` sits at `physIndex i`, trailing argument `i` at `m + i`. -/
theorem normal_positions {env : Env} {resulttype : Option DType} {fnval : DValue}
    {arguments : List Expression} {retvar : Option LLValue} {irFty : IrFuncTy}
    {tf : TypeFunction} {callableTy : LLFunctionType} {st : CallState}
    (h : marshalArguments env resulttype fnval arguments retvar irFty tf callableTy false
      = .ok st) :
    tf.parameters.length ≤ arguments.length ∧
    st.args.length = implicitCount env fnval irFty tf + arguments.length ∧
    (∃ st1, implicitArguments env resulttype fnval retvar irFty callableTy = .ok st1 ∧
      st1.args.length = sretCount irFty + ctxCount env fnval irFty ∧
      st.args.take (implicitCount env fnval irFty tf) = st1.args ++
        (if dvarargs tf then [DtoLoad (typeinfoArrayParam env tf arguments)] else [])) ∧
    (∀ i, i < tf.parameters.length →
      ∃ v, marshalFormal env tf irFty callableTy arguments i
          (physIndex irFty tf.parameters.length (implicitCount env fnval irFty tf) i) = some v ∧
        st.args[physIndex irFty tf.parameters.length (implicitCount env fnval irFty tf) i]?
          = some v) ∧
    (∀ i, tf.parameters.length ≤ i → i < arguments.length →
      ∃ v, marshalVariadic env arguments i = some v ∧
        st.args[implicitCount env fnval irFty tf + i]? = some v) := by
  obtain ⟨hle, hidden, ctx, formals, vs, fattrs, vattrs, isArrayOp, st1, hi, hargs1, _, hhl, hcl,
    hfl, _, hvl, _, _, _, hfget, _, hvget, _, hst, _⟩ := marshalArguments_normal h
  have htl : (if dvarargs tf = true then [DtoLoad (typeinfoArrayParam env tf arguments)]
      else []).length = tiCount tf := by
    simp only [tiCount]; split <;> simp
  have hFl : (if irFty.reverseParams = true then formals.reverse else formals).length
      = tf.parameters.length := by split <;> simp [hfl]
  have hIl : (hidden ++ ctx ++
      (if dvarargs tf = true then [DtoLoad (typeinfoArrayParam env tf arguments)] else [])).length
      = implicitCount env fnval irFty tf := by
    simp only [List.length_append, hhl, hcl, htl, implicitCount]
  refine ⟨hle, ?_, ⟨st1, hi, by rw [hargs1]; simp [hhl, hcl], ?_⟩, ?_, ?_⟩
  · rw [hst]
    simp only [List.length_append, hhl, hcl, htl, hFl, hvl, implicitCount]
    omega
  · rw [hst, hargs1, List.append_assoc _ _ vs, List.take_append_eq_append_take, hIl]
    simp only [Nat.sub_self, List.take_zero, List.append_nil]
    exact List.take_of_length_le (by omega)
  · intro i hin
    obtain ⟨v, hv⟩ := getElem?_isSome_of_lt (l := formals) (by omega : i < formals.length)
    refine ⟨v, by rw [← hfget i hin, hv], ?_⟩
    rw [hst, physIndex]
    by_cases hr : irFty.reverseParams = true
    · simp only [hr, if_true]
      rw [getElem?_append_mid _ _ _ hIl (by simp; omega),
        List.getElem?_reverse (by omega), hfl, ← hv]
      congr 1
      omega
    · simp only [Bool.not_eq_true] at hr
      simp only [hr, Bool.false_eq_true, if_false]
      rw [getElem?_append_mid _ _ _ hIl (by omega), hv]
  · intro i hin hia
    obtain ⟨v, hv⟩ := getElem?_isSome_of_lt (l := vs)
      (by omega : i - tf.parameters.length < vs.length)
    have := hvget (i - tf.parameters.length) (by omega)
    rw [show tf.parameters.length + (i - tf.parameters.length) = i by omega] at this
    refine ⟨v, by rw [← this, hv], ?_⟩
    rw [hst, show implicitCount env fnval irFty tf + i =
      implicitCount env fnval irFty tf + tf.parameters.length + (i - tf.parameters.length)
      by omega, getElem?_append_last _ _ _ hIl hFl, hv]

/-- C3, as stated, fails: the call `va_copy(dst, src)` of a variadic intrinsic
whose ABI plan has `reverseParams` set, with no implicit argument and two
formal parameters, keeps its arguments in source order, so physical argument 0
is not the marshalled value of formal argument 1. -/
theorem C3_reversal_counterexample :
    vaCopyCall = .ok (outputOf vaCopyCall) ∧
    vaCopyIrFty.reverseParams = true ∧
    implicitCount (exampleEnv vaCopyTf vaCopyIrFty) (declCallee vaCopyDecl none vaCopyTy)
      vaCopyIrFty vaCopyTf = 0 ∧
    vaCopyTf.parameters.length = 2 ∧
    (outputOf vaCopyCall).args =
      [.bitCast (.value 103 (.ptr (.named 4))) (.ptr (.int 8)),
       .bitCast (.value 104 (.ptr (.named 4))) (.ptr (.int 8))] ∧
    (outputOf vaCopyCall).args[0]? ≠
      marshalVaIntrinsic (exampleEnv vaCopyTf vaCopyIrFty) vaCopyArgs (2 - 1 - 0) ∧
    (outputOf vaCopyCall).args[0]? ≠
      marshalFormal (exampleEnv vaCopyTf vaCopyIrFty) vaCopyTf vaCopyIrFty vaCopyFty vaCopyArgs
        (2 - 1 - 0) (0 + 0) := by
  refine ⟨by rfl, by rfl, by rfl, by rfl, by rfl, ?_, ?_⟩ <;> decide

/-- C3, amended: in a call that is not a variadic intrinsic and whose ABI plan
has `reverseParams` set, with `m` implicit arguments and `n` formal parameters,
physical argument `m + p` (`p < n`) is the marshalled value of formal argument
`n - 1 - p`; the implicit arguments (hidden-return pointer, context,
type-descriptor array) keep positions `0..m-1` in push order; trailing variadic
argument `i` sits at `m + i`, in source order after the formals. -/
theorem C3_reversal (env : Env) (resulttype : Option DType) (fnval : DValue)
    (arguments : List Expression) (retvar : Option LLValue) (irFty : IrFuncTy)
    (tf : TypeFunction) (callableTy : LLFunctionType) (r : CallOutput)
    (hres : Resolves env fnval irFty tf callableTy)
    (hok : DtoCallFunction env resulttype fnval arguments retvar = .ok r)
    (hva : calleeIsVaIntrinsic env fnval = false)
    (hrev : irFty.reverseParams = true) :
    r.args.length = implicitCount env fnval irFty tf + arguments.length ∧
    (∀ p, p < tf.parameters.length →
      ∃ v, marshalFormal env tf irFty callableTy arguments (tf.parameters.length - 1 - p)
          (implicitCount env fnval irFty tf + p) = some v ∧
        r.args[implicitCount env fnval irFty tf + p]? = some v) ∧
    (∃ st1, implicitArguments env resulttype fnval retvar irFty callableTy = .ok st1 ∧
      st1.args.length = sretCount irFty + ctxCount env fnval irFty ∧
      r.args.take (implicitCount env fnval irFty tf) = st1.args ++
        (if dvarargs tf then [DtoLoad (typeinfoArrayParam env tf arguments)] else [])) ∧
    (∀ i, tf.parameters.length ≤ i → i < arguments.length →
      ∃ v, marshalVariadic env arguments i = some v ∧
        r.args[implicitCount env fnval irFty tf + i]? = some v) := by
  obtain ⟨st, rs0, callable, varname, hm, _, hargs, _⟩ := DtoCallFunction_ok hres hok
  rw [hva] at hm
  obtain ⟨_, hlen, himp, hformal, hvar⟩ := normal_positions hm
  rw [hargs]
  refine ⟨hlen, ?_, himp, hvar⟩
  intro p hp
  obtain ⟨v, hv1, hv2⟩ := hformal (tf.parameters.length - 1 - p) (by omega)
  have hidx : physIndex irFty tf.parameters.length (implicitCount env fnval irFty tf)
      (tf.parameters.length - 1 - p) = implicitCount env fnval irFty tf + p := by
    simp only [physIndex, hrev, if_true]
    omega
  rw [hidx] at hv1 hv2
  exact ⟨v, hv1, hv2⟩

/-- C3 (amended) on the call `f(3, 4)` under `reverseParams`: the physical arguments are `[4, 3]`. -/
theorem C3_reversal_witness :
    twoIntDeclCall true = .ok (outputOf (twoIntDeclCall true)) ∧
    (outputOf (twoIntDeclCall true)).args.length = 0 + 2 ∧
    (outputOf (twoIntDeclCall true)).args = [.value 4 (.named 1), .value 3 (.named 1)] :=
  ⟨by rfl,
   (C3_reversal (exampleEnv twoIntTf (twoIntIrFty true)) (some tInt)
     (declCallee fooDecl none twoIntTy) [intExp 3, intExp 4] none (twoIntIrFty true) twoIntTf
     twoIntFty (outputOf (twoIntDeclCall true))
     ⟨by rfl, by rfl, .value 500 twoIntTy, by rfl, by rfl⟩ (by rfl) (by rfl) (by rfl)).1,
   by rfl⟩

theorem eq_filterMap_range' {α : Type} (f : Nat → Option α) :
    ∀ (k s : Nat) (l : List α), l.length = k → (∀ p, p < k → l[p]? = f (s + p)) →
      l = (List.range' s k).filterMap f := by
  intro k
  induction k with
  | zero =>
    intro s l hlen _
    simp [List.length_eq_zero.mp hlen]
  | succ k ih =>
    intro s l hlen h
    cases l with
    | nil => simp at hlen
    | cons a l =>
      have h0 := h 0 (by omega)
      simp only [List.getElem?_cons_zero, Nat.add_zero] at h0
      have hrest := ih (s + 1) l (by simpa using hlen) (by
        intro p hp
        have := h (p + 1) (by omega)
        simp only [List.getElem?_cons_succ] at this
        rw [this]
        congr 1
        omega)
      rw [List.range'_succ, List.filterMap_cons, ← h0]
      simp only
      rw [← hrest]

theorem eq_filterMap_range {α : Type} (f : Nat → Option α) (n : Nat) (l : List α)
    (hlen : l.length = n) (h : ∀ p, p < n → l[p]? = f p) :
    l = (List.range n).filterMap f := by
  rw [List.range_eq_range']
  exact eq_filterMap_range' f n 0 l hlen (by simpa using h)

/-- Positions of the implicit arguments shared by every call: the
hidden-return pointer at 0, the context directly after it. -/
theorem implicit_positions {env : Env} {resulttype : Option DType} {fnval : DValue}
    {retvar : Option LLValue} {irFty : IrFuncTy} {callableTy : LLFunctionType}
    {st1 : CallState}
    (h : implicitArguments env resulttype fnval retvar irFty callableTy = .ok st1) :
    st1.args.length = sretCount irFty + ctxCount env fnval irFty ∧
    (irFty.arg_sret.isSome →
      ∃ v, hiddenReturnPointer callableTy retvar = some v ∧ st1.args[0]? = some v) ∧
    (needsContext env fnval irFty = true →
      ∃ c, contextValue env fnval irFty callableTy (sretCount irFty) = .ok c ∧
        st1.args[sretCount irFty]? = some c) ∧
    (irFty.arg_sret.isSome → retvar.isSome →
      ∀ e, e ∈ st1.trace → e.isAlloca = false) := by
  obtain ⟨hidden, ctx, hargs, _, hhl, hcl, hret, hctx, _⟩ := implicitArguments_ok h
  refine ⟨by rw [hargs]; simp [hhl, hcl], ?_, ?_, ?_⟩
  · intro hs
    simp only [implicitArguments, bind, Except.bind] at h
    split at h
    · cases h
    next st0 h0 =>
    obtain ⟨sret, hsr⟩ := Option.isSome_iff_exists.mp hs
    obtain ⟨rv, ha0, _, _, hsome, hnone⟩ := hiddenReturnArgument_some hsr h0
    have hst0 : ∀ (b : Bool), (if b = true then
        addToAttributes { args := [], attrs := [], argiter := 0, trace := [] } 0 irFty.ret.attrs
        else ({ args := [], attrs := [], argiter := 0, trace := [] } : CallState)) =
        { args := [], attrs := (if b = true then [(0, irFty.ret.attrs)] else []), argiter := 0,
          trace := [] } := by
      intro b; cases b <;> rfl
    rw [hst0] at ha0 hsome hnone
    simp only [List.nil_append, List.length_nil] at ha0 hnone
    have hrv : hiddenReturnPointer callableTy retvar = some rv := by
      cases hr : retvar with
      | some v => rw [(hsome v hr).1]; rfl
      | none =>
        obtain ⟨pty, ety, rt, hp, hc, _, hrv, _⟩ := hnone hr
        simp [hiddenReturnPointer, hp, hc, hrv]
    refine ⟨rv, hrv, ?_⟩
    by_cases hn : needsContext env fnval irFty = true
    · simp only [hn, if_true] at h
      obtain ⟨c, _, hargs2, _⟩ := contextArgument_ok h
      rw [hargs2, ha0]
      rfl
    · simp only [hn] at h
      cases h
      rw [ha0]
      rfl
  · intro hn
    obtain ⟨c, hc, hcx⟩ := hctx hn
    refine ⟨c, hc, ?_⟩
    rw [hargs, hcx, List.getElem?_append_right (by omega), hhl]
    simp
  · intro hs hr e he
    obtain ⟨v, hv⟩ := Option.isSome_iff_exists.mp hr
    rw [(hret v hv hs).2] at he
    cases he

/-- The implicit arguments shared by every call are a prefix of the physical
argument list. -/
theorem implicit_prefix {env : Env} {resulttype : Option DType} {fnval : DValue}
    {arguments : List Expression} {retvar : Option LLValue} {irFty : IrFuncTy}
    {tf : TypeFunction} {callableTy : LLFunctionType} {st : CallState} {va : Bool}
    (h : marshalArguments env resulttype fnval arguments retvar irFty tf callableTy va
      = .ok st) :
    ∃ st1 rest, implicitArguments env resulttype fnval retvar irFty callableTy = .ok st1 ∧
      st.args = st1.args ++ rest ∧
      (va = false → rest.take (tiCount tf) =
        (if dvarargs tf then [DtoLoad (typeinfoArrayParam env tf arguments)] else [])) := by
  cases va with
  | true =>
    obtain ⟨hidden, ctx, vs, st1, hi, hargs1, _, _, _, _, _, _, hst, _⟩ :=
      marshalArguments_vaIntrinsic h
    exact ⟨st1, vs, hi, by rw [hst, hargs1], by simp⟩
  | false =>
    obtain ⟨_, hidden, ctx, formals, vs, fattrs, vattrs, isArrayOp, st1, hi, hargs1, _, _, _,
      _, _, _, _, _, _, _, _, _, _, hst, _⟩ := marshalArguments_normal h
    refine ⟨st1, (if dvarargs tf then [DtoLoad (typeinfoArrayParam env tf arguments)] else []) ++
      (if irFty.reverseParams then formals.reverse else formals) ++ vs, hi, ?_, ?_⟩
    · rw [hst, hargs1]; simp
    · intro _
      simp only [tiCount]
      by_cases hd : dvarargs tf = true
      · simp [hd]
      · simp [hd]

/-- C4: the return attributes are attached at index 0, and every attribute
bundle attached for an argument is attached at index 1 + the final position of
that argument in the physical argument list: the hidden-return pointer (position
0) at 1, the context (position `sretCount`) at `1 + sretCount`, the
type-descriptor array at 1 + its position, formal parameter `i` at
1 + `physIndex i` (its position after any reversal), trailing variadic argument
`i` at `1 + (beg + i)`.  The list handed to `call.setAttributes` is this list,
unless the callee is an LLVM intrinsic, whose own attribute list replaces it. -/
theorem C4_attribute_indices (env : Env) (resulttype : Option DType) (fnval : DValue)
    (arguments : List Expression) (retvar : Option LLValue) (irFty : IrFuncTy)
    (tf : TypeFunction) (callableTy : LLFunctionType) (r : CallOutput)
    (hres : Resolves env fnval irFty tf callableTy)
    (hok : DtoCallFunction env resulttype fnval arguments retvar = .ok r) :
    r.attrs = expectedAttrs env fnval irFty tf arguments ∧
    (r.attrlist = AttrList.computed r.attrs ∨ ∃ id, r.attrlist = AttrList.intrinsic id) ∧
    (irFty.arg_sret.isSome →
      ∃ v, hiddenReturnPointer callableTy retvar = some v ∧ r.args[0]? = some v) ∧
    (needsContext env fnval irFty = true →
      ∃ c, contextValue env fnval irFty callableTy (sretCount irFty) = .ok c ∧
        r.args[sretCount irFty]? = some c) ∧
    (calleeIsVaIntrinsic env fnval = false → dvarargs tf = true →
      r.args[sretCount irFty + ctxCount env fnval irFty]? =
        some (DtoLoad (typeinfoArrayParam env tf arguments))) ∧
    (calleeIsVaIntrinsic env fnval = false → ∀ i, i < tf.parameters.length →
      ∃ v, marshalFormal env tf irFty callableTy arguments i
          (physIndex irFty tf.parameters.length (implicitCount env fnval irFty tf) i) = some v ∧
        r.args[physIndex irFty tf.parameters.length (implicitCount env fnval irFty tf) i]?
          = some v) ∧
    (calleeIsVaIntrinsic env fnval = false →
      ∀ i, tf.parameters.length ≤ i → i < arguments.length →
        ∃ v, marshalVariadic env arguments i = some v ∧
          r.args[implicitCount env fnval irFty tf + i]? = some v) := by
  obtain ⟨st, rs0, callable, varname, hm, _, hargs, hattrs, _, _, _, _, hlist⟩ :=
    DtoCallFunction_ok hres hok
  rw [hargs, hattrs]
  obtain ⟨st1, rest, hi, hpre, hti⟩ := implicit_prefix hm
  obtain ⟨hl1, hsretpos, hctxpos, _⟩ := implicit_positions hi
  refine ⟨?_, hlist, ?_, ?_, ?_, ?_, ?_⟩
  · cases hva : calleeIsVaIntrinsic env fnval with
    | true =>
      rw [hva] at hm
      obtain ⟨_, _, _, _, _, _, _, _, _, _, _, _, _, hat, _⟩ := marshalArguments_vaIntrinsic hm
      simp [expectedAttrs, hva, hat]
    | false =>
      rw [hva] at hm
      obtain ⟨_, hidden, ctx, formals, vs, fattrs, vattrs, isArrayOp, _, _, _, _, _, _,
        _, hfal, _, hval, _, _, _, hfaget, _, hvaget, _, hat, _⟩ := marshalArguments_normal hm
      rw [hat, eq_filterMap_range _ _ fattrs hfal hfaget,
        eq_filterMap_range' _ _ _ vattrs hval hvaget]
      simp [expectedAttrs, hva]
  · intro hs
    obtain ⟨v, hv, hv0⟩ := hsretpos hs
    refine ⟨v, hv, ?_⟩
    have : 0 < st1.args.length := by
      rcases Nat.eq_zero_or_pos st1.args.length with h0 | h0
      · rw [List.length_eq_zero.mp h0] at hv0; simp at hv0
      · exact h0
    rw [hpre, List.getElem?_append_left this, hv0]
  · intro hn
    obtain ⟨c, hc, hc0⟩ := hctxpos hn
    refine ⟨c, hc, ?_⟩
    have : sretCount irFty < st1.args.length := by
      rw [hl1]; simp [ctxCount, hn]
    rw [hpre, List.getElem?_append_left this, hc0]
  · intro hva hd
    have h2 := hti hva
    simp only [tiCount, hd, if_true] at h2
    rw [hpre, List.getElem?_append_right (by omega), hl1, Nat.sub_self]
    cases rest with
    | nil => simp at h2
    | cons a rest => simp at h2; simp [h2]
  · intro hva
    rw [hva] at hm
    exact (normal_positions hm).2.2.2.1
  · intro hva
    rw [hva] at hm
    exact (normal_positions hm).2.2.2.2

/-- C4 on the call `obj.foo(3, 4, 5)` of the D-variadic method: the six arguments get their attributes at indices 1 to 6. -/
theorem C4_attribute_indices_witness :
    variadicMethodCall = .ok (outputOf variadicMethodCall) ∧
    (outputOf variadicMethodCall).attrs =
      [(1, ⟨[.StructRet]⟩), (2, ⟨[.InReg]⟩), (3, ⟨[.ByVal]⟩), (4, ⟨[.SExt]⟩), (5, ⟨[]⟩),
       (6, ⟨[]⟩)] ∧
    (outputOf variadicMethodCall).attrs =
      expectedAttrs (exampleEnv variadicMethodTf variadicMethodIrFty)
        (declCallee fooDecl (some (.value 600 (.ptr (.named 9)))) variadicMethodTy)
        variadicMethodIrFty variadicMethodTf [intExp 3, intExp 4, intExp 5] :=
  ⟨by rfl, by rfl,
   (C4_attribute_indices (exampleEnv variadicMethodTf variadicMethodIrFty) (some tStruct)
     (declCallee fooDecl (some (.value 600 (.ptr (.named 9)))) variadicMethodTy)
     [intExp 3, intExp 4, intExp 5] none variadicMethodIrFty variadicMethodTf
     ⟨.void, [.ptr (.named 2), .ptr (.named 3), .named 2050, .named 1], true⟩
     (outputOf variadicMethodCall)
     ⟨by rfl, by rfl, .value 500 variadicMethodTy, by rfl, by rfl⟩ (by rfl)).1⟩

theorem getElem?_after_prefix {α : Type} (A R : List α) (c : α) {m : Nat}
    (hm : A.length = m) : (A ++ [c] ++ R)[m]? = some c := by
  subst hm
  rw [List.append_assoc, List.getElem?_append_right (Nat.le_refl _)]
  simp

/-- C5: a this-call that is lowered without error pushes exactly one context
value: the physical argument list is the hidden-return pointer (if any), then
the one context value, then only the type-descriptor array (if any) and the
explicit arguments; so the context is at position 0 without a hidden-return
slot and at position 1 with one. -/
theorem C5_this_context_slot (env : Env) (resulttype : Option DType) (fnval : DValue)
    (arguments : List Expression) (retvar : Option LLValue) (irFty : IrFuncTy)
    (tf : TypeFunction) (callableTy : LLFunctionType) (r : CallOutput)
    (hres : Resolves env fnval irFty tf callableTy)
    (hok : DtoCallFunction env resulttype fnval arguments retvar = .ok r)
    (hthis : irFty.arg_this.isSome = true) :
    ∃ (c : LLValue) (hidden rest : List LLValue),
      contextValue env fnval irFty callableTy (sretCount irFty) = .ok c ∧
      r.args = hidden ++ [c] ++ rest ∧
      hidden.length = (if irFty.arg_sret.isSome then 1 else 0) ∧
      rest.length =
        (if dvarargs tf && !calleeIsVaIntrinsic env fnval then 1 else 0) + arguments.length ∧
      r.args[if irFty.arg_sret.isSome then 1 else 0]? = some c := by
  obtain ⟨st, rs0, callable, varname, hm, _, hargs, _⟩ := DtoCallFunction_ok hres hok
  have hn : needsContext env fnval irFty = true := by simp [needsContext, hthis]
  rw [hargs]
  cases hva : calleeIsVaIntrinsic env fnval with
  | true =>
    rw [hva] at hm
    obtain ⟨hidden, ctx, vs, st1, _, _, hhl, hcl, hvl, _, hctx, _, hst, _⟩ :=
      marshalArguments_vaIntrinsic hm
    obtain ⟨c, hc, hcx⟩ := hctx hn
    subst hcx
    refine ⟨c, hidden, vs, hc, hst, hhl, by simp [hvl], ?_⟩
    rw [hst]
    exact getElem?_after_prefix _ _ _ hhl
  | false =>
    rw [hva] at hm
    obtain ⟨hle, hidden, ctx, formals, vs, fattrs, vattrs, isArrayOp, st1, _, _, _, hhl, hcl,
      hfl, _, hvl, _, _, hctx, _, _, _, _, hst, _⟩ := marshalArguments_normal hm
    obtain ⟨c, hc, hcx⟩ := hctx hn
    subst hcx
    have hdec : st.args = hidden ++ [c] ++
        ((if dvarargs tf then [DtoLoad (typeinfoArrayParam env tf arguments)] else []) ++
          (if irFty.reverseParams then formals.reverse else formals) ++ vs) := by
      rw [hst]; simp
    refine ⟨c, hidden, (if dvarargs tf then [DtoLoad (typeinfoArrayParam env tf arguments)]
      else []) ++ (if irFty.reverseParams then formals.reverse else formals) ++ vs, hc, hdec,
      hhl, ?_, ?_⟩
    · have hf : (if irFty.reverseParams = true then formals.reverse else formals).length
          = tf.parameters.length := by split <;> simp [hfl]
      have ht : (if dvarargs tf = true then [DtoLoad (typeinfoArrayParam env tf arguments)]
          else []).length = (if dvarargs tf = true then 1 else 0) := by split <;> simp
      simp only [List.length_append, hf, ht, hvl, Bool.not_false, Bool.and_true]
      omega
    · rw [hdec]
      exact getElem?_after_prefix _ _ _ hhl

/-- C5 on the method call `obj.m(3)`: the receiver, cast to the parameter type, is physical argument 0. -/
theorem C5_this_context_slot_witness :
    methodCall = .ok (outputOf methodCall) ∧
    (outputOf methodCall).args = [.bitCast receiver (.ptr (.named 3)), .value 3 (.named 1)] ∧
    ∃ (c : LLValue) (hidden rest : List LLValue),
      contextValue (exampleEnv methodTf methodIrFty) (declCallee fooDecl (some receiver) methodTy)
        methodIrFty methodFty (sretCount methodIrFty) = .ok c ∧
      (outputOf methodCall).args = hidden ++ [c] ++ rest ∧
      hidden.length = (if methodIrFty.arg_sret.isSome then 1 else 0) ∧
      rest.length =
        (if dvarargs methodTf && !calleeIsVaIntrinsic (exampleEnv methodTf methodIrFty)
            (declCallee fooDecl (some receiver) methodTy) then 1 else 0) + [intExp 3].length ∧
      (outputOf methodCall).args[if methodIrFty.arg_sret.isSome then 1 else 0]? = some c :=
  ⟨by rfl, by rfl,
   C5_this_context_slot (exampleEnv methodTf methodIrFty) (some tInt)
     (declCallee fooDecl (some receiver) methodTy) [intExp 3] none methodIrFty methodTf
     methodFty (outputOf methodCall)
     ⟨by rfl, by rfl, .value 500 methodTy, by rfl, by rfl⟩ (by rfl) (by rfl)⟩

/-- The context value of a call that needs one sits directly after the
hidden-return slot. -/
theorem context_position {env : Env} {resulttype : Option DType} {fnval : DValue}
    {arguments : List Expression} {retvar : Option LLValue} {irFty : IrFuncTy}
    {tf : TypeFunction} {callableTy : LLFunctionType} {r : CallOutput}
    (hres : Resolves env fnval irFty tf callableTy)
    (hok : DtoCallFunction env resulttype fnval arguments retvar = .ok r)
    (hn : needsContext env fnval irFty = true) :
    ∃ c, contextValue env fnval irFty callableTy (sretCount irFty) = .ok c ∧
      r.args[sretCount irFty]? = some c := by
  obtain ⟨st, rs0, callable, varname, hm, _, hargs, _⟩ := DtoCallFunction_ok hres hok
  obtain ⟨st1, rest, hi, hpre, _⟩ := implicit_prefix hm
  obtain ⟨hl1, _, hctxpos, _⟩ := implicit_positions hi
  obtain ⟨c, hc, hc0⟩ := hctxpos hn
  refine ⟨c, hc, ?_⟩
  have : sretCount irFty < st1.args.length := by
    rw [hl1]; simp [ctxCount, hn]
  rw [hargs, hpre, List.getElem?_append_left this, hc0]

/-- C6, as stated, fails: for a delegate-typed callee that is a function value
naming the contract helper `__ensure`, the value pushed in the context slot is
the enclosing function's receiver, not field 0 of the delegate value. -/
theorem C6_delegate_context_counterexample :
    delegateCall delegateContractCallee = .ok (outputOf (delegateCall delegateContractCallee)) ∧
    ((exampleEnv delegateTf delegateIrFty).toBasetype delegateContractCallee.type).ty
      = .Tdelegate ∧
    (outputOf (delegateCall delegateContractCallee)).args[0]? =
      some (.bitCast (.load (exampleEnv delegateTf delegateIrFty).thisArg) (.ptr (.int 8))) ∧
    (outputOf (delegateCall delegateContractCallee)).args[0]? ≠
      some (.bitCast (.extractValue delegateContractCallee.getRVal 0) (.ptr (.int 8))) ∧
    ((outputOf (delegateCall delegateContractCallee)).args[0]?.bind
      (fun c => match c with
        | .bitCast x _ => readsField x
        | _ => none)) ≠ some (delegatePair delegateContractCallee, 0) := by
  refine ⟨by rfl, by rfl, by rfl, ?_, ?_⟩ <;> decide

/-- C6, amended: for a call whose callee type is a delegate and whose context
is not taken from a source of higher priority (the callee is not a function
value naming `__ensure` or `__require`, and not a this-call function value with
a receiver), the value pushed in the context slot is field 0 of the delegate
pair, repainted to the expected parameter type: a load through the field
address `0,0` when the delegate is held as an lvalue, the extraction of field 0
when it is held as an rvalue; the callable is field 1 of the same pair. -/
theorem C6_delegate_context (env : Env) (resulttype : Option DType) (fnval : DValue)
    (arguments : List Expression) (retvar : Option LLValue) (irFty : IrFuncTy)
    (tf : TypeFunction) (callableTy : LLFunctionType) (r : CallOutput)
    (hres : Resolves env fnval irFty tf callableTy)
    (hok : DtoCallFunction env resulttype fnval arguments retvar = .ok r)
    (hdg : (env.toBasetype fnval.type).ty = .Tdelegate)
    (hnc : isContractCall fnval.isFunc = .ok false)
    (hnt : irFty.arg_this.isSome = true → fnval.isFunc.bind (fun d => d.vthis) = none) :
    ∃ (x : LLValue) (ty : LLType),
      callableTy.getParamType (sretCount irFty) = some ty ∧
      r.args[sretCount irFty]? = some (DtoBitCast x ty) ∧
      x = (if fnval.isLVal then DtoLoad (DtoGEPi fnval.getLVal 0 0)
           else .extractValue fnval.getRVal 0) ∧
      readsField x = some (delegatePair fnval, 0) ∧
      readsField r.callable = some (delegatePair fnval, 1) := by
  obtain ⟨st, rs0, callable, varname, hm, _, hargs, _, hcallable, _, _, hcv, _⟩ :=
    DtoCallFunction_ok hres hok
  have hn : needsContext env fnval irFty = true := by simp [needsContext, hdg]
  obtain ⟨c, hc, hcpos⟩ := context_position hres hok hn
  have hcontract := hnc
  have hdgval : ∃ ty, callableTy.getParamType (sretCount irFty) = some ty ∧
      c = DtoBitCast (if fnval.isLVal then DtoLoad (DtoGEPi fnval.getLVal 0 0)
           else .extractValue fnval.getRVal 0) ty := by
    simp only [contextValue, hcontract, bind, Except.bind, Bool.false_eq_true, if_false, hdg,
      decide_True, if_true] at hc
    split at hc
    · next hthis hv =>
      have := hnt (by rw [hthis])
      rw [this] at hv
      cases hv
    · cases hp : callableTy.getParamType (sretCount irFty) with
      | none => simp [hp] at hc
      | some ty =>
        simp only [hp, pure, Except.pure, Except.ok.injEq] at hc
        exact ⟨ty, rfl, hc.symm⟩
  obtain ⟨ty, hty, hcv2⟩ := hdgval
  refine ⟨_, ty, hty, by rw [hcpos, hcv2], rfl, ?_, ?_⟩
  · cases hl : fnval.isLVal <;> simp [readsField, delegatePair, DtoLoad, DtoGEPi, hl]
  · rw [hcallable]
    simp only [DtoCallableValue, hdg, if_true] at hcv
    have hne : ¬ (TY.Tdelegate = TY.Tfunction) := by decide
    simp only [hne, if_false] at hcv
    cases hl : fnval.isLVal with
    | true =>
      simp only [hl, if_true, Except.ok.injEq] at hcv
      rw [← hcv]
      simp [readsField, delegatePair, DtoLoad, DtoGEPi, hl]
    | false =>
      simp only [hl, Bool.false_eq_true, if_false] at hcv
      split at hcv
      · simp only [Except.ok.injEq] at hcv
        rw [← hcv]
        simp [readsField, delegatePair, hl]
      · cases hcv

/-- C6 (amended) on the call `dg(3)` of a delegate held in memory. -/
theorem C6_delegate_context_witness :
    delegateCall delegateLVal = .ok (outputOf (delegateCall delegateLVal)) ∧
    ∃ (x : LLValue) (ty : LLType),
      delegateFty.getParamType (sretCount delegateIrFty) = some ty ∧
      (outputOf (delegateCall delegateLVal)).args[sretCount delegateIrFty]?
        = some (DtoBitCast x ty) ∧
      x = (if delegateLVal.isLVal then DtoLoad (DtoGEPi delegateLVal.getLVal 0 0)
           else .extractValue delegateLVal.getRVal 0) ∧
      readsField x = some (delegatePair delegateLVal, 0) ∧
      readsField (outputOf (delegateCall delegateLVal)).callable
        = some (delegatePair delegateLVal, 1) :=
  ⟨by rfl,
   C6_delegate_context (exampleEnv delegateTf delegateIrFty) (some tInt) delegateLVal
     [intExp 3] none delegateIrFty delegateTf delegateFty (outputOf (delegateCall delegateLVal))
     ⟨by rfl, by rfl, .load (.gepi (.value 701 (.ptr delegateTy)) 0 1), by rfl, by rfl⟩
     (by rfl) (by rfl) (by rfl) (by decide)⟩

/-- The type-descriptor array of a D-variadic call that is not a variadic
intrinsic sits directly after the hidden-return and context slots. -/
theorem typeinfo_position {env : Env} {resulttype : Option DType} {fnval : DValue}
    {arguments : List Expression} {retvar : Option LLValue} {irFty : IrFuncTy}
    {tf : TypeFunction} {callableTy : LLFunctionType} {r : CallOutput}
    (hres : Resolves env fnval irFty tf callableTy)
    (hok : DtoCallFunction env resulttype fnval arguments retvar = .ok r)
    (hva : calleeIsVaIntrinsic env fnval = false) (hd : dvarargs tf = true) :
    r.args[sretCount irFty + ctxCount env fnval irFty]? =
      some (DtoLoad (typeinfoArrayParam env tf arguments)) := by
  obtain ⟨st, rs0, callable, varname, hm, _, hargs, _⟩ := DtoCallFunction_ok hres hok
  obtain ⟨st1, rest, hi, hpre, hti⟩ := implicit_prefix hm
  obtain ⟨hl1, _, _, _⟩ := implicit_positions hi
  have h2 := hti hva
  simp only [tiCount, hd, if_true] at h2
  rw [hargs, hpre, List.getElem?_append_right (by omega), hl1, Nat.sub_self]
  cases rest with
  | nil => simp at h2
  | cons a rest => simp at h2; simp [h2]

/-- C7: a D-style variadic call (D linkage, `varargs == 1`, not a va-intrinsic)
with `n` declared formal parameters and `n + k` explicit arguments pushes
exactly one type-descriptor array: it sits directly after the hidden-return and
context slots and directly before the block of formal parameters, its declared
length is `k`, it holds exactly `k` descriptors, and descriptor `i` is the type
descriptor of the type of explicit argument `n + i`. -/
theorem C7_typeinfo_array (env : Env) (resulttype : Option DType) (fnval : DValue)
    (arguments : List Expression) (retvar : Option LLValue) (irFty : IrFuncTy)
    (tf : TypeFunction) (callableTy : LLFunctionType) (r : CallOutput) (k : Nat)
    (hres : Resolves env fnval irFty tf callableTy)
    (hok : DtoCallFunction env resulttype fnval arguments retvar = .ok r)
    (hd : dvarargs tf = true) (hva : calleeIsVaIntrinsic env fnval = false)
    (hk : arguments.length = tf.parameters.length + k) :
    ∃ g : ArgumentsArray,
      r.args[sretCount irFty + ctxCount env fnval irFty]? = some (DtoLoad (.argumentsArray g)) ∧
      r.args.length = sretCount irFty + ctxCount env fnval irFty + 1 + arguments.length ∧
      (∀ i, i < tf.parameters.length →
        ∃ v, marshalFormal env tf irFty callableTy arguments i
            (physIndex irFty tf.parameters.length
              (sretCount irFty + ctxCount env fnval irFty + 1) i) = some v ∧
          r.args[physIndex irFty tf.parameters.length
              (sretCount irFty + ctxCount env fnval irFty + 1) i]? = some v) ∧
      g.length = k ∧ g.storage.elements.length = k ∧
      g.storage.arrayType = .array (env.DtoType env.dtypeinfoType) k ∧
      (∀ i, i < k → ∃ e, arguments[tf.parameters.length + i]? = some e ∧
        g.storage.elements[i]? = some (env.DtoTypeInfoOf e.type)) := by
  have hpos := typeinfo_position hres hok hva hd
  obtain ⟨st, rs0, callable, varname, hm, _, hargs, _⟩ := DtoCallFunction_ok hres hok
  rw [hva] at hm
  obtain ⟨_, hlen, _, hformal, _⟩ := normal_positions hm
  have hic : implicitCount env fnval irFty tf = sretCount irFty + ctxCount env fnval irFty + 1 := by
    simp [implicitCount, tiCount, hd]
  rw [hic] at hlen hformal
  have hkk : arguments.length - tf.parameters.length = k := by omega
  refine ⟨_, hpos, by rw [hargs, hlen], by rw [hargs]; exact hformal, ?_, ?_, ?_, ?_⟩
  · exact hkk
  · simp [hkk]
  · simp [hkk]
  · intro i hi
    obtain ⟨e, he⟩ := getElem?_isSome_of_lt (l := arguments)
      (by omega : tf.parameters.length + i < arguments.length)
    refine ⟨e, he, ?_⟩
    simp [List.getElem?_drop, he]

/-- C7 on the call `obj.foo(3, 4, 5)` of the D-variadic method with one formal parameter: the array of two descriptors is physical argument 2. -/
theorem C7_typeinfo_array_witness :
    variadicMethodCall = .ok (outputOf variadicMethodCall) ∧
    (outputOf variadicMethodCall).args[2]? =
      some (.load (.argumentsArray
        { type := .named 2050, length := 2,
          storage := { arrayType := .array (.named 50) 2, elements := [⟨1⟩, ⟨1⟩] },
          ptrType := .ptr (.named 50) })) ∧
    ∃ g : ArgumentsArray,
      (outputOf variadicMethodCall).args[sretCount variadicMethodIrFty +
        ctxCount (exampleEnv variadicMethodTf variadicMethodIrFty)
          (declCallee fooDecl (some (.value 600 (.ptr (.named 9)))) variadicMethodTy)
          variadicMethodIrFty]? = some (DtoLoad (.argumentsArray g)) ∧
      g.length = 2 ∧ g.storage.elements.length = 2 :=
  ⟨by rfl, by rfl,
   (C7_typeinfo_array (exampleEnv variadicMethodTf variadicMethodIrFty) (some tStruct)
     (declCallee fooDecl (some (.value 600 (.ptr (.named 9)))) variadicMethodTy)
     [intExp 3, intExp 4, intExp 5] none variadicMethodIrFty variadicMethodTf
     ⟨.void, [.ptr (.named 2), .ptr (.named 3), .named 2050, .named 1], true⟩
     (outputOf variadicMethodCall) 2
     ⟨by rfl, by rfl, .value 500 variadicMethodTy, by rfl, by rfl⟩ (by rfl) (by rfl) (by rfl)
     (by rfl)).imp (fun _ h => ⟨h.1, h.2.2.2.1, h.2.2.2.2.1⟩)⟩

theorem abiReturnValue_ok {env : Env} {irFty : IrFuncTy} {tf : TypeFunction}
    {callableTy : LLFunctionType} {intrinsic : Bool} {args : List LLValue}
    {trace : List Event} {rs0 : RetState}
    (h : abiReturnValue env irFty tf callableTy intrinsic args trace = .ok rs0) :
    ∃ raw, rawResult irFty callableTy args = some raw ∧
      rs0.retinptr = irFty.arg_sret.isSome ∧
      rs0.retllval = (if !intrinsic && !irFty.arg_sret.isSome then env.getRet irFty tf.next raw
                      else raw) ∧
      rs0.trace = trace ++ (if !intrinsic && !irFty.arg_sret.isSome then [.getRet raw]
                            else []) := by
  simp only [abiReturnValue, bind, Except.bind] at h
  cases hs : irFty.arg_sret.isSome with
  | true =>
    simp only [hs, if_true] at h
    cases args with
    | nil => simp at h
    | cons a rest =>
      simp only [Bool.not_true, Bool.and_false, Bool.false_eq_true, if_false, pure, Except.pure,
        Except.ok.injEq] at h
      subst h
      exact ⟨a, by simp [rawResult, hs], rfl, by simp, by simp⟩
  | false =>
    simp only [hs, Bool.false_eq_true, if_false, Bool.not_false, Bool.and_true] at h
    cases hi : intrinsic with
    | true =>
      simp only [hi, Bool.not_true, Bool.false_eq_true, if_false, pure, Except.pure,
        Except.ok.injEq] at h
      subst h
      exact ⟨.callInst callableTy.ret, by simp [rawResult, hs], rfl, by simp, by simp⟩
    | false =>
      simp only [hi, Bool.not_false, if_true, pure, Except.pure, Except.ok.injEq] at h
      subst h
      exact ⟨.callInst callableTy.ret, by simp [rawResult, hs], rfl, by simp, by simp⟩

theorem materializeAggregate_retinptr (env : Env) (tf : TypeFunction) (rs : RetState) :
    (materializeAggregate env tf rs).retinptr = rs.retinptr := by
  unfold materializeAggregate
  simp only
  split <;> rfl

theorem materializeAggregate_pointer {env : Env} {tf : TypeFunction} {rs : RetState}
    (h : isaPointer rs.retllval = true) : materializeAggregate env tf rs = rs := by
  unfold materializeAggregate
  have ha : isaArray rs.retllval = false := by
    simp only [isaPointer, isaArray] at h ⊢
    cases hty : rs.retllval.getType <;> simp_all [LLType.isPointer, LLType.isArray]
  simp [h, ha]

theorem materializeAggregate_getRet (env : Env) (tf : TypeFunction) (rs : RetState) :
    getRetEvents (materializeAggregate env tf rs).trace = getRetEvents rs.trace := by
  unfold materializeAggregate
  simp only
  split
  · simp [getRetEvents, List.filterMap_append]
  · rfl

theorem repaintResult_noop {env : Env} {tf : TypeFunction} {resulttype : Option DType}
    (rs : RetState) (h : repaintApplies env tf resulttype = false) :
    repaintResult env tf resulttype rs = rs := by
  cases resulttype with
  | none => rfl
  | some rt =>
    simp only [repaintApplies, aaBoxingApplies, Bool.or_eq_false_iff, Bool.and_eq_false_iff,
      decide_eq_false_iff_not, ne_eq, not_not, Bool.not_eq_false', Bool.or_eq_false_iff] at h
    simp only [repaintResult]
    by_cases heq : env.stripModifiers (env.toBasetype rt) = env.stripModifiers (env.toBasetype tf.next)
    · simp [heq]
    · simp only [ne_eq, heq, not_false_eq_true, if_true]
      obtain ⟨h1, h2⟩ := h
      rcases h1 with h1 | h1
      · exact absurd h1 heq
      · obtain ⟨⟨⟨ha, hb⟩, hc⟩, hd⟩ := h1
        split
        · next hty => exact absurd hty ha
        · rfl
        · next hty => exact absurd hty hb
        · next hty => exact absurd hty hc
        · next hty => exact absurd hty hd
        · next hty =>
          rcases h2 with h2 | h2
          · rcases h2 with h2 | h2
            · rcases h2 with h2 | h2
              · exact absurd h2 heq
              · exact absurd hty h2
            · simp [h2]
          · simp [h2]
        · rfl

theorem repaintResult_retinptr (env : Env) (tf : TypeFunction) (resulttype : Option DType)
    (rs : RetState) :
    (repaintResult env tf resulttype rs).retinptr =
      (rs.retinptr || aaBoxingApplies env tf resulttype) := by
  cases resulttype with
  | none => simp [repaintResult, aaBoxingApplies]
  | some rt =>
    simp only [repaintResult, aaBoxingApplies]
    by_cases heq : env.stripModifiers (env.toBasetype rt) = env.stripModifiers (env.toBasetype tf.next)
    · simp [heq]
    · simp only [ne_eq, heq, not_false_eq_true, if_true, decide_True, Bool.true_and]
      split
      · next hty => split <;> simp [hty]
      · next hty => simp [hty]
      · next hty => split <;> simp [hty]
      · next hty => split <;> simp [hty]
      · next hty => split <;> simp [hty]
      · next hty =>
        by_cases hc : (env.stripModifiers (env.toBasetype tf.next)).ty = TY.Taarray ∧ tf.isref = false
        · obtain ⟨hc1, hc2⟩ := hc
          simp [hty, hc1, hc2]
        · have hc' := hc
          simp only [not_and, Bool.not_eq_false] at hc'
          by_cases hc1 : (env.stripModifiers (env.toBasetype tf.next)).ty = TY.Taarray
          · simp [hty, hc1, hc' hc1]
          · simp [hty, hc1]
      · next hty h1 h2 h3 h4 h5 h6 =>
        have : ¬ (env.stripModifiers (env.toBasetype rt)).ty = TY.Tstruct := h6
        simp [this]

theorem repaintResult_getRet (env : Env) (tf : TypeFunction) (resulttype : Option DType)
    (rs : RetState) :
    getRetEvents (repaintResult env tf resulttype rs).trace = getRetEvents rs.trace := by
  cases resulttype with
  | none => rfl
  | some rt =>
    simp only [repaintResult]
    split
    · split
      · split <;> rfl
      · rfl
      · split <;> rfl
      · split <;> rfl
      · split <;> rfl
      · split
        · simp [getRetEvents, List.filterMap_append]
        · rfl
      · rfl
    · rfl

theorem getRetEvents_evalArgument (L : List Nat) :
    getRetEvents (L.map Event.evalArgument) = [] := by
  induction L with
  | nil => rfl
  | cons i L ih => simp [getRetEvents]

/-- The effects of the marshalling: those of the implicit arguments, then
only argument evaluations. -/
theorem marshal_trace {env : Env} {resulttype : Option DType} {fnval : DValue}
    {arguments : List Expression} {retvar : Option LLValue} {irFty : IrFuncTy}
    {tf : TypeFunction} {callableTy : LLFunctionType} {st : CallState} {va : Bool}
    (h : marshalArguments env resulttype fnval arguments retvar irFty tf callableTy va
      = .ok st) :
    ∃ (st1 : CallState) (L : List Nat),
      implicitArguments env resulttype fnval retvar irFty callableTy = .ok st1 ∧
      st.trace = st1.trace ++ L.map Event.evalArgument := by
  cases va with
  | true =>
    obtain ⟨_, _, _, st1, hi, _, _, _, _, _, _, _, _, _, htr⟩ := marshalArguments_vaIntrinsic h
    exact ⟨st1, _, hi, htr⟩
  | false =>
    obtain ⟨_, _, _, _, _, _, _, isArrayOp, st1, hi, _, _, _, _, _, _, _, _, _, _, _, _, _, _, _,
      _, htr⟩ := marshalArguments_normal h
    refine ⟨st1, formalEvalOrder isArrayOp tf.parameters.length ++
      List.range' tf.parameters.length (arguments.length - tf.parameters.length), hi, ?_⟩
    rw [htr]
    simp

/-- The implicit arguments apply no ABI return fixup. -/
theorem implicit_trace_getRet {env : Env} {resulttype : Option DType} {fnval : DValue}
    {retvar : Option LLValue} {irFty : IrFuncTy} {callableTy : LLFunctionType}
    {st1 : CallState}
    (h : implicitArguments env resulttype fnval retvar irFty callableTy = .ok st1) :
    getRetEvents st1.trace = [] := by
  simp only [implicitArguments, bind, Except.bind] at h
  split at h
  · cases h
  next st0 h0 =>
  have hst0 : getRetEvents st0.trace = [] := by
    cases hs : irFty.arg_sret with
    | none =>
      rw [hiddenReturnArgument_none hs] at h0
      cases h0
      split <;> rfl
    | some sret =>
      obtain ⟨rv, _, _, _, hsome, hnone⟩ := hiddenReturnArgument_some hs h0
      have hz : (if HAS_ATTRIBUTES irFty.ret.attrs = true then
          addToAttributes { args := [], attrs := [], argiter := 0, trace := [] } 0 irFty.ret.attrs
          else ({ args := [], attrs := [], argiter := 0, trace := [] } : CallState)).trace = [] := by
        split <;> rfl
      cases hr : retvar with
      | some v => rw [(hsome v hr).2, hz]; rfl
      | none =>
        obtain ⟨pty, ety, rt, _, _, _, _, htr⟩ := hnone hr
        rw [htr, hz]
        rfl
  by_cases hn : needsContext env fnval irFty = true
  · simp only [hn, if_true] at h
    obtain ⟨c, _, _, _, htr, _⟩ := contextArgument_ok h
    rw [htr, hst0]
  · simp only [hn] at h
    cases h
    exact hst0

/-- C8, as stated, fails: a function returning a struct through a hidden
pointer is called with a caller-supplied destination and the requested result
type is a class type.  Physical argument 0 is the destination, but the value of
the returned `DValue` is a bitcast of the destination, not the destination
itself. -/
theorem C8_sret_destination_counterexample :
    sretCall tClass = .ok (outputOf (sretCall tClass)) ∧
    sretIrFty.arg_sret.isSome = true ∧
    ((exampleEnv sretTf sretIrFty).toBasetype sretTf.next).ty = .Tstruct ∧
    isaPointer destination = true ∧
    (outputOf (sretCall tClass)).args[0]? = some destination ∧
    (outputOf (sretCall tClass)).result =
      .DVarValue (some tClass) (.bitCast destination (.named 6)) ∧
    (outputOf (sretCall tClass)).result.val ≠ destination := by
  refine ⟨by rfl, by rfl, by rfl, by rfl, by rfl, by rfl, ?_⟩
  decide

/-- C8, amended: when a function returns by hidden pointer (`arg_sret` set)
and the caller supplies a destination `retvar`, physical argument 0 is exactly
`retvar`.  When moreover `retvar` is a pointer and no repaint of the result
type applies, the lowering allocates no stack storage and the returned `DValue`
is the addressable location `DVarValue(resulttype, retvar)`. -/
theorem C8_sret_destination (env : Env) (resulttype : Option DType) (fnval : DValue)
    (arguments : List Expression) (v : LLValue) (irFty : IrFuncTy)
    (tf : TypeFunction) (callableTy : LLFunctionType) (r : CallOutput)
    (hres : Resolves env fnval irFty tf callableTy)
    (hok : DtoCallFunction env resulttype fnval arguments (some v) = .ok r)
    (hsret : irFty.arg_sret.isSome = true) :
    r.args[0]? = some v ∧
    (isaPointer v = true → repaintApplies env tf resulttype = false →
      (∀ e, e ∈ r.trace → e.isAlloca = false) ∧
      r.result = .DVarValue resulttype v) := by
  obtain ⟨st, rs0, callable, varname, hm, habi, hargs, _, _, htrace, hresult, _⟩ :=
    DtoCallFunction_ok hres hok
  obtain ⟨st1, rest, hi, hpre, _⟩ := implicit_prefix hm
  obtain ⟨hl1, hsretpos, _, _⟩ := implicit_positions hi
  obtain ⟨hidden, ctx, hargs1, _, hhl, _, hret, _, _⟩ := implicitArguments_ok hi
  obtain ⟨hh, htr1⟩ := hret v rfl hsret
  have h0 : st.args[0]? = some v := by
    rw [hpre, hargs1, hh]; simp
  refine ⟨by rw [hargs]; exact h0, ?_⟩
  intro hptr hnr
  obtain ⟨raw, hraw, hrip, hval, htr0⟩ := abiReturnValue_ok habi
  simp only [rawResult, hsret, if_true] at hraw
  rw [h0] at hraw
  cases hraw
  simp only [hsret, Bool.not_true, Bool.and_false, Bool.false_eq_true, if_false,
    List.append_nil] at hval htr0
  have hmat : materializeAggregate env tf rs0 = rs0 :=
    materializeAggregate_pointer (by rw [hval]; exact hptr)
  rw [hmat, repaintResult_noop rs0 hnr] at htrace hresult
  obtain ⟨st1b, L, hib, hmtr⟩ := marshal_trace hm
  rw [hi] at hib
  cases hib
  refine ⟨?_, ?_⟩
  · intro e he
    rw [htrace, htr0, hmtr, htr1] at he
    simp only [List.nil_append, List.mem_append, List.mem_map, List.mem_singleton] at he
    rcases he with ⟨i, _, hi⟩ | he
    · rw [← hi]; rfl
    · rw [he]; rfl
  · rw [hresult, hrip, hsret, hval]
    simp

/-- C8 (amended) on the call `make()` with a caller-supplied destination:
with the declared result type the destination is argument 0 and the result,
and nothing is allocated; with a class result type, where the repaint applies,
the destination is still argument 0. -/
theorem C8_sret_destination_witness :
    sretCall tStruct = .ok (outputOf (sretCall tStruct)) ∧
    (outputOf (sretCall tStruct)).args[0]? = some destination ∧
    ((∀ e, e ∈ (outputOf (sretCall tStruct)).trace → e.isAlloca = false) ∧
      (outputOf (sretCall tStruct)).result = .DVarValue (some tStruct) destination) ∧
    sretCall tClass = .ok (outputOf (sretCall tClass)) ∧
    repaintApplies (exampleEnv sretTf sretIrFty) sretTf (some tClass) = true ∧
    (outputOf (sretCall tClass)).args[0]? = some destination :=
  ⟨by rfl,
   (C8_sret_destination (exampleEnv sretTf sretIrFty) (some tStruct)
     (declCallee fooDecl none sretTy) [] destination sretIrFty sretTf sretFty
     (outputOf (sretCall tStruct))
     ⟨by rfl, by rfl, .value 500 sretTy, by rfl, by rfl⟩ (by rfl) (by rfl)).1,
   (C8_sret_destination (exampleEnv sretTf sretIrFty) (some tStruct)
     (declCallee fooDecl none sretTy) [] destination sretIrFty sretTf sretFty
     (outputOf (sretCall tStruct))
     ⟨by rfl, by rfl, .value 500 sretTy, by rfl, by rfl⟩ (by rfl) (by rfl)).2 (by rfl) (by rfl),
   by rfl, by rfl,
   (C8_sret_destination (exampleEnv sretTf sretIrFty) (some tClass)
     (declCallee fooDecl none sretTy) [] destination sretIrFty sretTf sretFty
     (outputOf (sretCall tClass))
     ⟨by rfl, by rfl, .value 500 sretTy, by rfl, by rfl⟩ (by rfl) (by rfl)).1⟩

/-- C9: the result of `DtoCallFunction` is an addressable location
(`DVarValue`) exactly when the return is hidden-pointer-style (`arg_sret` is
set, or the associative-array boxing repaint marked it so) or the function type
declares a by-reference return (`tf->isref`); otherwise it is a plain value
(`DImValue`).  Either way it carries the requested result type. -/
theorem C9_result_shape (env : Env) (resulttype : Option DType) (fnval : DValue)
    (arguments : List Expression) (retvar : Option LLValue) (irFty : IrFuncTy)
    (tf : TypeFunction) (callableTy : LLFunctionType) (r : CallOutput)
    (hres : Resolves env fnval irFty tf callableTy)
    (hok : DtoCallFunction env resulttype fnval arguments retvar = .ok r) :
    (r.result.isVar = true ↔
      (irFty.arg_sret.isSome = true ∨ aaBoxingApplies env tf resulttype = true ∨
        tf.isref = true)) ∧
    r.result =
      (if irFty.arg_sret.isSome || aaBoxingApplies env tf resulttype || tf.isref then
        LoweredResult.DVarValue resulttype r.result.val
       else LoweredResult.DImValue resulttype r.result.val) := by
  obtain ⟨st, rs0, callable, varname, hm, habi, _, _, _, _, hresult, _⟩ :=
    DtoCallFunction_ok hres hok
  obtain ⟨raw, _, hrip, _, _⟩ := abiReturnValue_ok habi
  rw [repaintResult_retinptr, materializeAggregate_retinptr, hrip] at hresult
  by_cases hc : (irFty.arg_sret.isSome || aaBoxingApplies env tf resulttype || tf.isref) = true
  · rw [if_pos hc] at hresult
    rw [hresult, if_pos hc]
    refine ⟨?_, rfl⟩
    simp only [LoweredResult.isVar, true_iff]
    simpa [or_assoc] using hc
  · rw [if_neg hc] at hresult
    rw [hresult, if_neg hc]
    refine ⟨?_, rfl⟩
    simp only [LoweredResult.isVar, Bool.false_eq_true, false_iff]
    simpa [or_assoc] using hc

/-- C9 on the call `f(3, 4)`: no hidden return, no by-reference return, so the result is a plain value. -/
theorem C9_result_shape_witness :
    twoIntCall false = .ok (outputOf (twoIntCall false)) ∧
    (outputOf (twoIntCall false)).result = .DImValue (some tInt) (.callInst (.named 1)) ∧
    ((outputOf (twoIntCall false)).result.isVar = true ↔
      ((twoIntIrFty false).arg_sret.isSome = true ∨
        aaBoxingApplies (exampleEnv twoIntTf (twoIntIrFty false)) twoIntTf (some tInt) = true ∨
        twoIntTf.isref = true)) :=
  ⟨by rfl, by rfl,
   (C9_result_shape (exampleEnv twoIntTf (twoIntIrFty false)) (some tInt)
     (plainCallee twoIntTy) [intExp 3, intExp 4] none (twoIntIrFty false) twoIntTf twoIntFty
     (outputOf (twoIntCall false))
     ⟨by rfl, by rfl, .value 500 twoIntTy, by rfl, by rfl⟩ (by rfl)).1⟩

/-- C10, as stated, fails: in the call of an ordinary (non-intrinsic) function
that returns by hidden pointer the claim has the ABI return fixup applied, but
the lowering applies `irFty.getRet` to nothing. -/
theorem C10_return_fixup_counterexample :
    sretCall tStruct = .ok (outputOf (sretCall tStruct)) ∧
    calleeIsIntrinsic (declCallee fooDecl none sretTy) = false ∧
    sretIrFty.arg_sret.isSome = true ∧
    (!(calleeIsIntrinsic (declCallee fooDecl none sretTy) && !sretIrFty.arg_sret.isSome))
      = true ∧
    getRetEvents (outputOf (sretCall tStruct)).trace = [] := by
  exact ⟨by rfl, by rfl, by rfl, by rfl, by rfl⟩

/-- C10, amended: `DtoCallFunction` applies the ABI return fixup
(`irFty.getRet`) exactly when the callee is not an intrinsic and the return is
not by hidden pointer, and then exactly once, to the raw result.  The raw
result is the hidden-return slot's address (`args[0]`) when the return is by
hidden pointer, else the call's direct result; the returned value is what the
materialization and the repaint make of the fixed-up (or raw) result. -/
theorem C10_return_fixup (env : Env) (resulttype : Option DType) (fnval : DValue)
    (arguments : List Expression) (retvar : Option LLValue) (irFty : IrFuncTy)
    (tf : TypeFunction) (callableTy : LLFunctionType) (r : CallOutput)
    (hres : Resolves env fnval irFty tf callableTy)
    (hok : DtoCallFunction env resulttype fnval arguments retvar = .ok r) :
    ∃ (raw : LLValue) (rs0 : RetState),
      rawResult irFty callableTy r.args = some raw ∧
      getRetEvents r.trace =
        (if !calleeIsIntrinsic fnval && !irFty.arg_sret.isSome then [raw] else []) ∧
      rs0.retllval =
        (if !calleeIsIntrinsic fnval && !irFty.arg_sret.isSome then
          env.getRet irFty tf.next raw else raw) ∧
      rs0.retinptr = irFty.arg_sret.isSome ∧
      r.result.val =
        (repaintResult env tf resulttype (materializeAggregate env tf rs0)).retllval := by
  obtain ⟨st, rs0, callable, varname, hm, habi, hargs, _, _, htrace, hresult, _⟩ :=
    DtoCallFunction_ok hres hok
  obtain ⟨raw, hraw, hrip, hval, htr0⟩ := abiReturnValue_ok habi
  obtain ⟨st1, L, hi, hmtr⟩ := marshal_trace hm
  have hst : getRetEvents st.trace = [] := by
    rw [hmtr, getRetEvents, List.filterMap_append]
    have h1 := implicit_trace_getRet hi
    have h2 := getRetEvents_evalArgument L
    simp only [getRetEvents] at h1 h2
    rw [h1, h2]
    rfl
  refine ⟨raw, rs0, by rw [hargs]; exact hraw, ?_, hval, hrip, ?_⟩
  · rw [htrace, repaintResult_getRet, materializeAggregate_getRet, htr0]
    simp only [getRetEvents, List.filterMap_append] at hst ⊢
    rw [hst]
    split <;> simp
  · rw [hresult]
    split <;> rfl

/-- C10 (amended) on the call `f(3, 4)` of a function that is no intrinsic and returns directly: the fixup is applied once, to the call instruction. -/
theorem C10_return_fixup_witness :
    twoIntCall false = .ok (outputOf (twoIntCall false)) ∧
    getRetEvents (outputOf (twoIntCall false)).trace = [.callInst (.named 1)] ∧
    ∃ (raw : LLValue) (rs0 : RetState),
      rawResult (twoIntIrFty false) twoIntFty (outputOf (twoIntCall false)).args = some raw ∧
      getRetEvents (outputOf (twoIntCall false)).trace =
        (if !calleeIsIntrinsic (plainCallee twoIntTy) && !(twoIntIrFty false).arg_sret.isSome
         then [raw] else []) ∧
      rs0.retllval =
        (if !calleeIsIntrinsic (plainCallee twoIntTy) && !(twoIntIrFty false).arg_sret.isSome
         then (exampleEnv twoIntTf (twoIntIrFty false)).getRet (twoIntIrFty false)
            twoIntTf.next raw
         else raw) ∧
      rs0.retinptr = (twoIntIrFty false).arg_sret.isSome ∧
      (outputOf (twoIntCall false)).result.val =
        (repaintResult (exampleEnv twoIntTf (twoIntIrFty false)) twoIntTf (some tInt)
          (materializeAggregate (exampleEnv twoIntTf (twoIntIrFty false)) twoIntTf
            rs0)).retllval :=
  ⟨by rfl, by rfl,
   C10_return_fixup (exampleEnv twoIntTf (twoIntIrFty false)) (some tInt)
     (plainCallee twoIntTy) [intExp 3, intExp 4] none (twoIntIrFty false) twoIntTf twoIntFty
     (outputOf (twoIntCall false))
     ⟨by rfl, by rfl, .value 500 twoIntTy, by rfl, by rfl⟩ (by rfl)⟩

/-- A loop fails only with a failure of its body. -/
theorem forIndices_error {σ : Type} (body : Nat → σ → Except String σ) (P : String → Prop)
    (h : ∀ i s e, body i s = .error e → P e) :
    ∀ (l : List Nat) (s : σ) (e : String), forIndices body l s = .error e → P e := by
  intro l
  induction l with
  | nil => intro s e hl; cases hl
  | cons i is ih =>
    intro s e hl
    unfold forIndices at hl
    split at hl
    · exact ih _ _ hl
    · next e2 hb =>
      cases hl
      exact h i s _ hb

theorem isContractCall_error {dfnval : Option DFuncValue} {e : String}
    (h : isContractCall dfnval = .error e) : e ≠ contextError := by
  unfold isContractCall at h
  split at h
  · cases h
  · split at h
    · cases h; decide
    · cases h

theorem hiddenReturnArgument_error {env : Env} {irFty : IrFuncTy} {callableTy : LLFunctionType}
    {resulttype : Option DType} {retvar : Option LLValue} {st : CallState} {e : String}
    (h : hiddenReturnArgument env irFty callableTy resulttype retvar st = .error e) :
    e ≠ contextError := by
  unfold hiddenReturnArgument at h
  simp only [bind, Except.bind] at h
  repeat' split at h
  all_goals first
    | (cases h; decide)
    | cases h

theorem contextSourceValue_ne (env : Env) (fnval : DValue) (callableTy : LLFunctionType)
    (argiter : Nat) (s : ContextSource) :
    contextSourceValue env fnval callableTy argiter s ≠ .error contextError := by
  intro h
  cases s <;> simp only [contextSourceValue] at h
  all_goals (repeat' split at h)
  all_goals first
    | (injection h with h; revert h; decide)
    | cases h

/-- The chain of cases of the context block takes the value of the first
source that applies, and fails with the context error if none does. -/
theorem contextValue_eq {env : Env} {fnval : DValue} {irFty : IrFuncTy}
    {callableTy : LLFunctionType} {argiter : Nat} {contract : Bool}
    (h : isContractCall fnval.isFunc = .ok contract) :
    contextValue env fnval irFty callableTy argiter =
      (match contextSource env fnval irFty contract with
       | some s => contextSourceValue env fnval callableTy argiter s
       | none => .error contextError) := by
  simp only [contextValue, h, bind, Except.bind, contextSource]
  cases contract with
  | true => simp [contextSourceValue, pure, Except.pure]
  | false =>
    simp only [Bool.false_eq_true, if_false]
    cases ht : irFty.arg_this.isSome <;> cases hv : fnval.isFunc.bind (fun d => d.vthis) <;>
      cases hd : decide ((env.toBasetype fnval.type).ty = .Tdelegate) <;>
      cases hn : irFty.arg_nest.isSome <;>
      simp_all [contextSourceValue, pure, Except.pure, contextError]

/-- The context chain fails with the context error exactly when the callee is
no contract helper and no source applies. -/
theorem contextValue_error_iff {env : Env} {fnval : DValue} {irFty : IrFuncTy}
    {callableTy : LLFunctionType} {argiter : Nat} :
    contextValue env fnval irFty callableTy argiter = .error contextError ↔
      isContractCall fnval.isFunc = .ok false ∧ contextSource env fnval irFty false = none := by
  cases hc : isContractCall fnval.isFunc with
  | error e =>
    have hv : contextValue env fnval irFty callableTy argiter = .error e := by
      simp only [contextValue, hc, bind, Except.bind]
    rw [hv]
    constructor
    · intro h
      injection h with h
      exact absurd h (isContractCall_error hc)
    · rintro ⟨h, _⟩
      cases h
  | ok contract =>
    rw [contextValue_eq hc]
    cases hs : contextSource env fnval irFty contract with
    | some s =>
      simp only
      constructor
      · intro h
        exact absurd h (contextSourceValue_ne _ _ _ _ _)
      · rintro ⟨h, h2⟩
        injection h with h
        subst h
        rw [hs] at h2
        cases h2
    | none =>
      simp only [true_iff]
      cases contract with
      | true => simp [contextSource] at hs
      | false => exact ⟨rfl, hs⟩

theorem contextArgument_error_iff {env : Env} {fnval : DValue} {irFty : IrFuncTy}
    {callableTy : LLFunctionType} {st : CallState} {e : String} :
    contextArgument env fnval irFty callableTy st = .error e ↔
      contextValue env fnval irFty callableTy st.argiter = .error e := by
  simp only [contextArgument, bind, Except.bind]
  cases hc : contextValue env fnval irFty callableTy st.argiter with
  | error e2 => simp
  | ok c =>
    simp only
    cases contextAttrs irFty <;> simp [pure, Except.pure]

theorem implicitArguments_eq (env : Env) (resulttype : Option DType) (fnval : DValue)
    (retvar : Option LLValue) (irFty : IrFuncTy) (callableTy : LLFunctionType) :
    implicitArguments env resulttype fnval retvar irFty callableTy =
      (match beforeContext env resulttype retvar irFty callableTy with
       | .error e => .error e
       | .ok st0 =>
         if needsContext env fnval irFty then contextArgument env fnval irFty callableTy st0
         else .ok st0) := by
  simp only [implicitArguments, beforeContext, returnAttrsState, bind, Except.bind]
  generalize hiddenReturnArgument env irFty callableTy resulttype retvar _ = x
  cases x <;> rfl

/-- The implicit arguments fail with the context error exactly when the
lowering reaches the context block, a context is required, the callee is no
contract helper and no source applies. -/
theorem implicitArguments_error_iff {env : Env} {resulttype : Option DType} {fnval : DValue}
    {retvar : Option LLValue} {irFty : IrFuncTy} {callableTy : LLFunctionType} :
    implicitArguments env resulttype fnval retvar irFty callableTy = .error contextError ↔
      (∃ st0, beforeContext env resulttype retvar irFty callableTy = .ok st0) ∧
      needsContext env fnval irFty = true ∧
      isContractCall fnval.isFunc = .ok false ∧ contextSource env fnval irFty false = none := by
  rw [implicitArguments_eq]
  cases hb : beforeContext env resulttype retvar irFty callableTy with
  | error e =>
    simp only
    constructor
    · intro h
      injection h with h
      exact absurd h (hiddenReturnArgument_error hb)
    · rintro ⟨⟨st0, h⟩, _⟩
      cases h
  | ok st0 =>
    simp only
    cases hn : needsContext env fnval irFty with
    | false => simp
    | true =>
      simp only [if_true, contextArgument_error_iff, contextValue_error_iff]
      simp

theorem evalFormal_error {env : Env} {tf : TypeFunction} {arguments : List Expression}
    {i : Nat} {e : String} (h : evalFormal env tf arguments i = .error e) :
    e ≠ contextError := by
  unfold evalFormal at h
  repeat' split at h
  all_goals first
    | (cases h; decide)
    | cases h

theorem buildArgvals_error {env : Env} {tf : TypeFunction} {arguments : List Expression}
    {isArrayOp : Bool} {e : String} (h : buildArgvals env tf arguments isArrayOp = .error e) :
    e ≠ contextError := by
  unfold buildArgvals at h
  simp only at h
  split at h
  · refine forIndices_error _ (fun e => e ≠ contextError) ?_ _ _ _ h
    intro i s e2 hb
    simp only at hb
    split at hb
    · next he => cases hb; exact evalFormal_error he
    · cases hb
  · refine forIndices_error _ (fun e => e ≠ contextError) ?_ _ _ _ h
    intro i s e2 hb
    simp only at hb
    split at hb
    · next he => cases hb; exact evalFormal_error he
    · cases hb

theorem formalParamStep_error {env : Env} {irFty : IrFuncTy} {callableTy : LLFunctionType}
    {argvals : List DValue} {n beg i : Nat} {st : CallState} {e : String}
    (h : formalParamStep env irFty callableTy argvals n beg i st = .error e) :
    e ≠ contextError := by
  unfold formalParamStep at h
  simp only at h
  repeat' split at h
  all_goals first
    | (cases h; decide)
    | cases h

theorem cVarargStep_error {env : Env} {arguments : List Expression} {beg i : Nat}
    {st : CallState} {e : String} (h : cVarargStep env arguments beg i st = .error e) :
    e ≠ contextError := by
  unfold cVarargStep at h
  repeat' split at h
  all_goals first
    | (cases h; decide)
    | cases h

theorem vaIntrinsicArguments_error {env : Env} {arguments : List Expression} {st : CallState}
    {e : String} (h : vaIntrinsicArguments env arguments st = .error e) : e ≠ contextError := by
  unfold vaIntrinsicArguments at h
  refine forIndices_error _ (fun e => e ≠ contextError) ?_ _ _ _ h
  intro i s e2 hb
  unfold vaIntrinsicStep at hb
  repeat' split at hb
  all_goals first
    | (cases hb; decide)
    | cases hb

theorem calleeIsArrayOp_error {dfnval : Option DFuncValue} {e : String}
    (h : calleeIsArrayOp dfnval = .error e) : e ≠ contextError := by
  unfold calleeIsArrayOp at h
  repeat' split at h
  all_goals first
    | (cases h; decide)
    | cases h

theorem dvarargsArgument_error {env : Env} {tf : TypeFunction} {irFty : IrFuncTy}
    {arguments : List Expression} {st : CallState} {e : String}
    (h : dvarargsArgument env tf irFty arguments st = .error e) : e ≠ contextError := by
  unfold dvarargsArgument at h
  split at h
  · simp only [addTypeinfoArrayArgumentForDVarArg, bind, Except.bind, pure, Except.pure] at h
    cases ha : irFty.arg_arguments with
    | none =>
      simp only [ha] at h
      cases h
      decide
    | some a =>
      by_cases hh : HAS_ATTRIBUTES a.attrs = true <;> simp [ha, hh] at h
  · cases h

theorem explicitArguments_error {env : Env} {dfnval : Option DFuncValue} {tf : TypeFunction}
    {irFty : IrFuncTy} {callableTy : LLFunctionType} {arguments : List Expression}
    {st : CallState} {e : String}
    (h : explicitArguments env dfnval tf irFty callableTy arguments st = .error e) :
    e ≠ contextError := by
  simp only [explicitArguments, bind, Except.bind] at h
  split at h
  · next e2 ha => cases h; exact calleeIsArrayOp_error ha
  next isArrayOp ha =>
  split at h
  · next e2 hb => cases h; exact buildArgvals_error hb
  next av hb =>
  split at h
  · next e2 hf =>
    cases h
    exact forIndices_error _ (fun e => e ≠ contextError)
      (fun i s e3 h3 => formalParamStep_error h3) _ _ _ hf
  next st3 hf =>
  split at h
  · exact forIndices_error _ (fun e => e ≠ contextError)
      (fun i s e3 h3 => cVarargStep_error h3) _ _ _ h
  · cases h

theorem normalArguments_error {env : Env} {dfnval : Option DFuncValue} {tf : TypeFunction}
    {irFty : IrFuncTy} {callableTy : LLFunctionType} {arguments : List Expression}
    {st : CallState} {e : String}
    (h : normalArguments env dfnval tf irFty callableTy arguments st = .error e) :
    e ≠ contextError := by
  simp only [normalArguments, bind, Except.bind] at h
  split at h
  · next e2 hd => cases h; exact dvarargsArgument_error hd
  · exact explicitArguments_error h

theorem abiReturnValue_error {env : Env} {irFty : IrFuncTy} {tf : TypeFunction}
    {callableTy : LLFunctionType} {intrinsic : Bool} {args : List LLValue}
    {trace : List Event} {e : String}
    (h : abiReturnValue env irFty tf callableTy intrinsic args trace = .error e) :
    e ≠ contextError := by
  simp only [abiReturnValue, bind, Except.bind, pure, Except.pure] at h
  repeat' split at h
  all_goals first
    | (cases h; decide)
    | cases h

/-- The marshalling fails with the context error exactly when the implicit
arguments do. -/
theorem marshalArguments_error_iff {env : Env} {resulttype : Option DType} {fnval : DValue}
    {arguments : List Expression} {retvar : Option LLValue} {irFty : IrFuncTy}
    {tf : TypeFunction} {callableTy : LLFunctionType} {va : Bool} :
    marshalArguments env resulttype fnval arguments retvar irFty tf callableTy va
        = .error contextError ↔
      implicitArguments env resulttype fnval retvar irFty callableTy = .error contextError := by
  simp only [marshalArguments, bind, Except.bind]
  cases hi : implicitArguments env resulttype fnval retvar irFty callableTy with
  | error e => simp
  | ok st =>
    simp only
    constructor
    · intro h
      split at h
      · exact absurd rfl (vaIntrinsicArguments_error h)
      · exact absurd rfl (normalArguments_error h)
    · intro h
      cases h

/-- A call whose callee resolves fails with the context error exactly when the
marshalling does. -/
theorem DtoCallFunction_error_iff {env : Env} {resulttype : Option DType} {fnval : DValue}
    {arguments : List Expression} {retvar : Option LLValue} {irFty : IrFuncTy}
    {tf : TypeFunction} {callableTy : LLFunctionType}
    (hres : Resolves env fnval irFty tf callableTy) :
    DtoCallFunction env resulttype fnval arguments retvar = .error contextError ↔
      marshalArguments env resulttype fnval arguments retvar irFty tf callableTy
        (calleeIsVaIntrinsic env fnval) = .error contextError := by
  obtain ⟨h1, h2, callable, h3, h4⟩ := hres
  simp only [DtoCallFunction, h1, h2, h3, h4, bind, Except.bind]
  cases hm : marshalArguments env resulttype fnval arguments retvar irFty tf callableTy
      (calleeIsVaIntrinsic env fnval) with
  | error e => simp
  | ok st =>
    simp only
    constructor
    · intro h
      split at h
      · next e2 ha =>
        injection h with h
        exact absurd h (abiReturnValue_error ha)
      · simp [pure, Except.pure] at h
    · intro h
      cases h

theorem contextSource_none_iff {env : Env} {fnval : DValue} {irFty : IrFuncTy} :
    contextSource env fnval irFty false = none ↔
      (irFty.arg_this.isSome = true → fnval.isFunc.bind (fun d => d.vthis) = none) ∧
      (env.toBasetype fnval.type).ty ≠ .Tdelegate ∧ irFty.arg_nest = none := by
  simp only [contextSource, Bool.false_eq_true, if_false]
  cases ht : irFty.arg_this.isSome <;> cases hv : fnval.isFunc.bind (fun d => d.vthis) <;>
    cases hd : decide ((env.toBasetype fnval.type).ty = .Tdelegate) <;>
    cases hn : irFty.arg_nest <;> simp_all

/-- The context error of the lowering: for a call whose callee resolves, `DtoCallFunction` fails with the
error "Context argument required but none given" exactly when the lowering
reaches the context block, a context is required (this-call, delegate call or
nested call), the test for a contract helper (`__ensure`, `__require`)
evaluates to false, a this-call has no resolved receiver, the callee type is no
delegate and the plan has no nested-context slot.  A call that requires no
context never fails with this error.  When a source applies, the context chain
takes the value of the first source in the order contract receiver, resolved
receiver, delegate context, nested context, and does not fail with this
error; in a lowered call that requires a context that value is the physical
argument after the hidden-return slot. -/
theorem contextError_iff (env : Env) (resulttype : Option DType) (fnval : DValue)
    (arguments : List Expression) (retvar : Option LLValue) (irFty : IrFuncTy)
    (tf : TypeFunction) (callableTy : LLFunctionType)
    (hres : Resolves env fnval irFty tf callableTy) :
    (DtoCallFunction env resulttype fnval arguments retvar = .error contextError ↔
      (∃ st0, beforeContext env resulttype retvar irFty callableTy = .ok st0) ∧
      needsContext env fnval irFty = true ∧
      isContractCall fnval.isFunc = .ok false ∧
      (irFty.arg_this.isSome = true → fnval.isFunc.bind (fun d => d.vthis) = none) ∧
      (env.toBasetype fnval.type).ty ≠ .Tdelegate ∧ irFty.arg_nest = none) ∧
    (needsContext env fnval irFty = false →
      DtoCallFunction env resulttype fnval arguments retvar ≠ .error contextError) ∧
    (∀ (contract : Bool) (s : ContextSource) (argiter : Nat),
      isContractCall fnval.isFunc = .ok contract →
      contextSource env fnval irFty contract = some s →
      contextValue env fnval irFty callableTy argiter =
        contextSourceValue env fnval callableTy argiter s ∧
      contextValue env fnval irFty callableTy argiter ≠ .error contextError) ∧
    (∀ r, DtoCallFunction env resulttype fnval arguments retvar = .ok r →
      needsContext env fnval irFty = true →
      ∃ (contract : Bool) (s : ContextSource) (c : LLValue),
        isContractCall fnval.isFunc = .ok contract ∧
        contextSource env fnval irFty contract = some s ∧
        contextSourceValue env fnval callableTy (sretCount irFty) s = .ok c ∧
        r.args[sretCount irFty]? = some c) := by
  have hiff : DtoCallFunction env resulttype fnval arguments retvar = .error contextError ↔
      (∃ st0, beforeContext env resulttype retvar irFty callableTy = .ok st0) ∧
      needsContext env fnval irFty = true ∧
      isContractCall fnval.isFunc = .ok false ∧
      (irFty.arg_this.isSome = true → fnval.isFunc.bind (fun d => d.vthis) = none) ∧
      (env.toBasetype fnval.type).ty ≠ .Tdelegate ∧ irFty.arg_nest = none := by
    rw [DtoCallFunction_error_iff hres, marshalArguments_error_iff, implicitArguments_error_iff,
      contextSource_none_iff]
  refine ⟨hiff, ?_, ?_, ?_⟩
  · intro hn h
    have h2 := (hiff.mp h).2.1
    rw [hn] at h2
    cases h2
  · intro contract s argiter hc hs
    have h := @contextValue_eq env fnval irFty callableTy argiter contract hc
    rw [hs] at h
    simp only at h
    refine ⟨h, ?_⟩
    rw [h]
    exact contextSourceValue_ne _ _ _ _ _
  · intro r hok hn
    obtain ⟨c, hc, hpos⟩ := context_position hres hok hn
    cases hct : isContractCall fnval.isFunc with
    | error e =>
      simp only [contextValue, hct, bind, Except.bind] at hc
      cases hc
    | ok contract =>
      rw [contextValue_eq hct] at hc
      cases hs : contextSource env fnval irFty contract with
      | none =>
        rw [hs] at hc
        cases hc
      | some s =>
        rw [hs] at hc
        exact ⟨contract, s, c, rfl, hs, hc, hpos⟩

/-- The call `m(3)` of a method through a function value without a
receiver: the callee is no contract helper, it is no delegate and the plan has
no nested-context slot, so the lowering fails with the context error.  The
call `obj.m(3)` with a receiver takes the receiver as its context. -/
theorem contextError_iff_example :
    Resolves (exampleEnv methodTf methodIrFty) (declCallee fooDecl none methodTy) methodIrFty
      methodTf methodFty ∧
    needsContext (exampleEnv methodTf methodIrFty) (declCallee fooDecl none methodTy)
      methodIrFty = true ∧
    methodCallNoReceiver = .error contextError ∧
    methodCall = .ok (outputOf methodCall) ∧
    contextSource (exampleEnv methodTf methodIrFty) (declCallee fooDecl (some receiver) methodTy)
      methodIrFty false = some .receiver ∧
    (outputOf methodCall).args[0]? = some (DtoBitCast receiver (.ptr (.named 3))) ∧
    (∃ (contract : Bool) (s : ContextSource) (c : LLValue),
      isContractCall (declCallee fooDecl (some receiver) methodTy).isFunc = .ok contract ∧
      contextSource (exampleEnv methodTf methodIrFty)
        (declCallee fooDecl (some receiver) methodTy) methodIrFty contract = some s ∧
      contextSourceValue (exampleEnv methodTf methodIrFty)
        (declCallee fooDecl (some receiver) methodTy) methodFty (sretCount methodIrFty) s
        = .ok c ∧
      (outputOf methodCall).args[sretCount methodIrFty]? = some c) :=
  ⟨⟨by rfl, by rfl, .value 500 methodTy, by rfl, by rfl⟩, by rfl,
   (contextError_iff (exampleEnv methodTf methodIrFty) (some tInt)
     (declCallee fooDecl none methodTy) [intExp 3] none methodIrFty methodTf methodFty
     ⟨by rfl, by rfl, .value 500 methodTy, by rfl, by rfl⟩).1.mpr
     ⟨⟨_, by rfl⟩, by rfl, by rfl, fun _ => by rfl, by decide, by rfl⟩,
   by rfl, by rfl, by rfl,
   (contextError_iff (exampleEnv methodTf methodIrFty) (some tInt)
     (declCallee fooDecl (some receiver) methodTy) [intExp 3] none methodIrFty methodTf
     methodFty ⟨by rfl, by rfl, .value 500 methodTy, by rfl, by rfl⟩).2.2.2
     (outputOf methodCall) (by rfl) (by rfl)⟩

/-- C11 fails on the code: the call `m(3)` goes through a function value that
has no function declaration and no receiver; the plan has a `this` slot, the
callee type is no delegate and there is no nested-context slot.  A context is
required, the callee is no contract helper and no source applies, so the claim
has the lowering report "Context argument required but none given".  The test
for a contract helper reads `dfnval->func->ident` without testing
`dfnval->func`, so the lowering fails in that dereference and never reaches
the report.  The same call through a function value that has a declaration
does report the context error. -/
theorem C11_context_error_null_declaration :
    Resolves (exampleEnv methodTf methodIrFty) (nullDeclCallee methodTy) methodIrFty methodTf
      methodFty ∧
    (nullDeclCallee methodTy).isFunc.bind (fun d => d.func) = none ∧
    (nullDeclCallee methodTy).isFunc.bind (fun d => d.vthis) = none ∧
    needsContext (exampleEnv methodTf methodIrFty) (nullDeclCallee methodTy) methodIrFty = true ∧
    methodIrFty.arg_this.isSome = true ∧
    ((exampleEnv methodTf methodIrFty).toBasetype (nullDeclCallee methodTy).type).ty
      ≠ .Tdelegate ∧
    methodIrFty.arg_nest = none ∧
    (∃ st0, beforeContext (exampleEnv methodTf methodIrFty) (some tInt) none methodIrFty
      methodFty = .ok st0) ∧
    isContractCall (nullDeclCallee methodTy).isFunc = .error "null dereference: dfnval->func" ∧
    methodCallNullDecl = .error "null dereference: dfnval->func" ∧
    methodCallNullDecl ≠ .error contextError ∧
    methodCallNoReceiver = .error contextError := by
  refine ⟨⟨by rfl, by rfl, .value 500 methodTy, by rfl, by rfl⟩, by rfl, by rfl, by rfl, by rfl,
    by decide, by rfl, ⟨_, by rfl⟩, by rfl, by rfl, ?_, by rfl⟩
  intro h
  have h2 : methodCallNullDecl = .error "null dereference: dfnval->func" := by rfl
  rw [h2] at h
  injection h with h
  revert h
  decide

/-- The materialization block: when it stores, the result becomes the address
of a new stack slot holding the value; otherwise nothing changes. -/
theorem materializeAggregate_cases (env : Env) (tf : TypeFunction) (rs : RetState) :
    (storesResult env tf rs →
      (materializeAggregate env tf rs).retllval =
        .alloca rs.trace.length rs.retllval.getType "" ∧
      (materializeAggregate env tf rs).trace = rs.trace ++
        [.rawAlloca rs.retllval.getType 0 "",
         .store rs.retllval (.alloca rs.trace.length rs.retllval.getType "")] ∧
      isaPointer (materializeAggregate env tf rs).retllval = true) ∧
    (¬ storesResult env tf rs → materializeAggregate env tf rs = rs) := by
  have hc : storesResult env tf rs ↔
      ((decide ((env.toBasetype tf.next).ty = .Tstruct) && !isaPointer rs.retllval) ||
        (decide ((env.toBasetype tf.next).ty = .Tsarray) && isaArray rs.retllval)) = true := by
    simp [storesResult]
  constructor
  · intro h
    have h2 := hc.mp h
    unfold materializeAggregate
    simp only [h2, if_true]
    refine ⟨?_, ?_, ?_⟩ <;> trivial
  · intro h
    have h2 : ¬ _ := fun h3 => h (hc.mpr h3)
    unfold materializeAggregate
    simp only [h2, if_false]

/-- C13 fails on the code: `pair()` returns a fixed-size array and its
ABI-fixed-up result is the integer-typed call result, which is neither a
pointer nor of array type.  The materialization block tests `isaArray` for a
fixed-size array, so it leaves the value as it is: the lowered result is not an
address and no stack storage is allocated.  The struct case of the same block
tests `!isaPointer` and does store the same kind of value: for `get()`, which
returns a struct, the integer-typed result is stored to a new stack slot whose
address becomes the result. -/
theorem C13_materialization_sarray_unstored :
    sarrayCall (.int 64) = .ok (outputOf (sarrayCall (.int 64))) ∧
    ((exampleEnv sarrayTf sarrayIrFty).toBasetype sarrayTf.next).ty = .Tsarray ∧
    fixedUpResult (exampleEnv sarrayTf sarrayIrFty) (plainCallee (.ptr (.func (.int 64) [] false)))
      sarrayIrFty sarrayTf (.callInst (.int 64)) = .callInst (.int 64) ∧
    isaPointer (LLValue.callInst (.int 64)) = false ∧
    isaArray (LLValue.callInst (.int 64)) = false ∧
    (materializeAggregate (exampleEnv sarrayTf sarrayIrFty) sarrayTf
      ⟨.callInst (.int 64), false, []⟩).retllval = .callInst (.int 64) ∧
    (outputOf (sarrayCall (.int 64))).result = .DImValue (some tSArray) (.callInst (.int 64)) ∧
    isaPointer (outputOf (sarrayCall (.int 64))).result.val = false ∧
    (outputOf (sarrayCall (.int 64))).trace.any Event.isAlloca = false ∧
    structRetCall (.int 64) = .ok (outputOf (structRetCall (.int 64))) ∧
    ((exampleEnv structRetTf structRetIrFty).toBasetype structRetTf.next).ty = .Tstruct ∧
    (outputOf (structRetCall (.int 64))).result =
      .DImValue (some tStruct) (.alloca 2 (.int 64) "") ∧
    isaPointer (outputOf (structRetCall (.int 64))).result.val = true ∧
    (outputOf (structRetCall (.int 64))).trace =
      [.call (.value 500 (.ptr (.func (.int 64) [] false))) [] "tmp",
       .getRet (.callInst (.int 64)),
       .rawAlloca (.int 64) 0 "",
       .store (.callInst (.int 64)) (.alloca 2 (.int 64) "")] := by
  exact ⟨by rfl, by rfl, by rfl, by rfl, by rfl, by rfl, by rfl, by rfl, by rfl, by rfl, by rfl,
    by rfl, by rfl, by rfl⟩

/-- The value `fixArgument` returns is the loaded argument, or a repaint or
bitcast of it to the expected type. -/
theorem fixArgument_cases (env : Env) (argval : DValue) (irFty : IrFuncTy) (ty : LLType)
    (i : Nat) :
    (fixArgument env argval irFty ty i = loadedArgument env argval irFty ty i ∧
      (loadedArgument env argval irFty ty i).getType = ty) ∨
    (fixArgument env argval irFty ty i = DtoAggrPaint (loadedArgument env argval irFty ty i) ty ∧
      (loadedArgument env argval irFty ty i).getType ≠ ty) ∨
    (fixArgument env argval irFty ty i = DtoBitCast (loadedArgument env argval irFty ty i) ty ∧
      (loadedArgument env argval irFty ty i).getType ≠ ty) := by
  have hl : fixArgument env argval irFty ty i =
      (if (loadedArgument env argval irFty ty i).getType ≠ ty then
        if isaStruct (loadedArgument env argval irFty ty i) then
          DtoAggrPaint (loadedArgument env argval irFty ty i) ty
        else DtoBitCast (loadedArgument env argval irFty ty i) ty
      else loadedArgument env argval irFty ty i) := by
    simp only [fixArgument, loadedArgument, loadApplies, rewrittenArgument]
  rw [hl]
  by_cases h : (loadedArgument env argval irFty ty i).getType = ty
  · left
    simp [h]
  · right
    by_cases hs : isaStruct (loadedArgument env argval irFty ty i) = true
    · left
      simp [h, hs]
    · right
      simp [h, hs]

/-- The value `fixArgument` returns has the expected type. -/
theorem fixArgument_getType (env : Env) (argval : DValue) (irFty : IrFuncTy) (ty : LLType)
    (i : Nat) : (fixArgument env argval irFty ty i).getType = ty := by
  rcases fixArgument_cases env argval irFty ty i with h | h | h
  · rw [h.1]; exact h.2
  · rw [h.1]; rfl
  · rw [h.1]; rfl

/-- C14: in a lowered call that is not a variadic intrinsic, formal argument
`i` is marshalled by `fixArgument` against the parameter type the callee
declares at `physIndex i`, the physical position the value occupies after any
reversal, and the value has exactly that type (`getType` gives a repaint or
bitcast the requested type).  For every argument, `fixArgument` returns the
loaded argument or a repaint or bitcast of it to the expected type; the loaded
argument is one load through the rewritten argument when that is a pointer, the
expected type is not a pointer and the logical type is a struct or fixed-size
array, and the rewritten argument itself otherwise; a rewritten argument that
already has the expected type is returned unchanged. -/
theorem C14_fixArgument_type (env : Env) (resulttype : Option DType) (fnval : DValue)
    (arguments : List Expression) (retvar : Option LLValue) (irFty : IrFuncTy)
    (tf : TypeFunction) (callableTy : LLFunctionType) (r : CallOutput)
    (hres : Resolves env fnval irFty tf callableTy)
    (hok : DtoCallFunction env resulttype fnval arguments retvar = .ok r)
    (hva : calleeIsVaIntrinsic env fnval = false) :
    (∀ i, i < tf.parameters.length →
      ∃ fnarg e ty, tf.parameters[i]? = some fnarg ∧ arguments[i]? = some e ∧
        callableTy.getParamType
          (physIndex irFty tf.parameters.length (implicitCount env fnval irFty tf) i) = some ty ∧
        r.args[physIndex irFty tf.parameters.length (implicitCount env fnval irFty tf) i]? =
          some (fixArgument env (env.DtoArgument (some fnarg) e) irFty ty i) ∧
        (fixArgument env (env.DtoArgument (some fnarg) e) irFty ty i).getType = ty) ∧
    (∀ (argval : DValue) (ty : LLType) (i : Nat),
      (fixArgument env argval irFty ty i).getType = ty ∧
      (fixArgument env argval irFty ty i = loadedArgument env argval irFty ty i ∨
        fixArgument env argval irFty ty i =
          DtoAggrPaint (loadedArgument env argval irFty ty i) ty ∨
        fixArgument env argval irFty ty i =
          DtoBitCast (loadedArgument env argval irFty ty i) ty) ∧
      loadedArgument env argval irFty ty i =
        (if isaPointer (rewrittenArgument env argval irFty i) = true ∧ ty.isPointer = false ∧
            ((env.toBasetype argval.type).ty = .Tstruct ∨
              (env.toBasetype argval.type).ty = .Tsarray) then
          DtoLoad (rewrittenArgument env argval irFty i)
        else rewrittenArgument env argval irFty i) ∧
      ((rewrittenArgument env argval irFty i).getType = ty →
        fixArgument env argval irFty ty i = rewrittenArgument env argval irFty i)) := by
  constructor
  · obtain ⟨st, rs0, callable, varname, hm, _, hargs, _⟩ := DtoCallFunction_ok hres hok
    rw [hva] at hm
    obtain ⟨_, _, _, hformal, _⟩ := normal_positions hm
    intro i hi
    obtain ⟨v, hv1, hv2⟩ := hformal i hi
    simp only [marshalFormal] at hv1
    split at hv1
    · next fnarg e ty h1 h2 h3 =>
      injection hv1 with hv1
      refine ⟨fnarg, e, ty, h1, h2, h3, ?_, fixArgument_getType _ _ _ _ _⟩
      rw [hargs, hv1]
      exact hv2
    · cases hv1
  · intro argval ty i
    have hload : loadedArgument env argval irFty ty i =
        (if isaPointer (rewrittenArgument env argval irFty i) = true ∧ ty.isPointer = false ∧
            ((env.toBasetype argval.type).ty = .Tstruct ∨
              (env.toBasetype argval.type).ty = .Tsarray) then
          DtoLoad (rewrittenArgument env argval irFty i)
        else rewrittenArgument env argval irFty i) := by
      simp only [loadedArgument, loadApplies, Bool.and_eq_true, Bool.or_eq_true,
        decide_eq_true_eq, Bool.not_eq_true', and_assoc]
    refine ⟨fixArgument_getType _ _ _ _ _, ?_, hload, ?_⟩
    · rcases fixArgument_cases env argval irFty ty i with h | h | h
      · exact Or.inl h.1
      · exact Or.inr (Or.inl h.1)
      · exact Or.inr (Or.inr h.1)
    · intro hty
      have hnl : loadedArgument env argval irFty ty i = rewrittenArgument env argval irFty i := by
        rw [hload]
        split
        · next hc =>
          have h1 : (rewrittenArgument env argval irFty i).getType.isPointer = true := hc.1
          rw [hty, hc.2.1] at h1
          cases h1
        · rfl
      rcases fixArgument_cases env argval irFty ty i with h | h | h
      · rw [h.1, hnl]
      · exact absurd (hnl ▸ hty) h.2
      · exact absurd (hnl ▸ hty) h.2

/-- C14 on the call `g(3, s)` under `reverseParams` with arguments passed by
address: formal `1`, the struct, sits at physical position `0`, is loaded once
and has the type `%2` declared there; formal `0` is bitcast to the type `%1`
declared at position `1`. -/
theorem C14_fixArgument_type_witness :
    byAddressCall = .ok (outputOf byAddressCall) ∧
    (outputOf byAddressCall).args =
      [DtoLoad (.value 107 (.ptr (.named 2))),
       DtoBitCast (.value 103 (.ptr (.named 1))) (.named 1)] ∧
    physIndex byAddressIrFty 2 0 1 = 0 ∧
    (∃ fnarg e ty, byAddressTf.parameters[1]? = some fnarg ∧
      [intExp 3, (⟨tStruct, 7⟩ : Expression)][1]? = some e ∧
      byAddressFty.getParamType (physIndex byAddressIrFty byAddressTf.parameters.length
        (implicitCount (byAddressEnv byAddressTf byAddressIrFty)
          (declCallee fooDecl none byAddressTy) byAddressIrFty byAddressTf) 1) = some ty ∧
      (outputOf byAddressCall).args[physIndex byAddressIrFty byAddressTf.parameters.length
        (implicitCount (byAddressEnv byAddressTf byAddressIrFty)
          (declCallee fooDecl none byAddressTy) byAddressIrFty byAddressTf) 1]? =
        some (fixArgument (byAddressEnv byAddressTf byAddressIrFty)
          ((byAddressEnv byAddressTf byAddressIrFty).DtoArgument (some fnarg) e)
          byAddressIrFty ty 1) ∧
      (fixArgument (byAddressEnv byAddressTf byAddressIrFty)
          ((byAddressEnv byAddressTf byAddressIrFty).DtoArgument (some fnarg) e)
          byAddressIrFty ty 1).getType = ty) :=
  ⟨by rfl, by rfl, by rfl,
   (C14_fixArgument_type (byAddressEnv byAddressTf byAddressIrFty) (some tInt)
     (declCallee fooDecl none byAddressTy) [intExp 3, ⟨tStruct, 7⟩] none byAddressIrFty
     byAddressTf byAddressFty (outputOf byAddressCall)
     ⟨by rfl, by rfl, .value 500 byAddressTy, by rfl, by rfl⟩ (by rfl) (by rfl)).1 1
     (by decide)⟩

end LDC
